import Mathlib

/-!
# Pluto program model: dependence composition, forced parallelisation and
# structural mutation (`src/program.c`)

A shallow embedding of the parts of `program.c` that maintain the program
representation of the polyhedral optimiser: `pluto_dep_compose`,
`pluto_force_parallelize`, `pluto_prog_add_param`, `pluto_stmt_add_dim`,
`pluto_stmt_remove_dim`, `pluto_stmt_add_hyperplane`,
`pluto_prog_add_hyperplane` and `pluto_pad_stmt_transformations`.

Conventions of the embedding.

* C `int` values are `Int`; sizes owned by the constraint/matrix library are `Nat`.
  Where a product can leave the range of `int` (the elimination of
  `pluto_stmt_get_remapping`) every `int` operation is checked by `c_int_result`.
* A pointer-plus-count array (`deps`/`ndeps`, `stmts`/`nstmts`, `val`/`nrows`)
  is a `List`; the count is the length of the list.
* A function that can fail returns `Except Fault`: `Fault.assertion` is a failed
  `assert`, `Fault.undefined` is a read or write outside an array or through a
  null pointer, `Fault.fuel` is an exhausted iteration budget of a `while` loop,
  `Fault.overflow` is an `int` operation whose result does not fit an `int`.
* The constraint/matrix library (`constraints.c`, `math_support.c`) and the header
  `pluto.h` are not part of `program.c`; the operations used from them are
  modelled from the specification and marked as such.
-/

namespace Pluto

/-! ## Failure and small helpers -/

/-- Ways in which a call does not return normally; `overflow` is the undefined
behaviour of an `int` operation whose result does not fit. -/
inductive Fault where
  | assertion
  | undefined
  | fuel
  | overflow
deriving DecidableEq, Repr

/-- C `assert(c)`. -/
def cAssert (c : Prop) [Decidable c] : Except Fault Unit :=
  if c then .ok () else .error Fault.assertion

/-- Read of `a[i]` for a C `int` index; outside the array the behaviour is undefined. -/
def cIndex {α : Type} (a : List α) (i : Int) : Except Fault α :=
  if 0 ≤ i then
    match a.get? i.toNat with
    | some x => .ok x
    | none => .error Fault.undefined
  else .error Fault.undefined

/-- Dereference of a pointer that may be `NULL`. -/
def cDeref {α : Type} (p : Option α) : Except Fault α :=
  match p with
  | some x => .ok x
  | none => .error Fault.undefined

/-- The array shift `for (i = n-1; i >= pos; i--) a[i+1] = a[i]; a[pos] = x`. -/
def insertAt {α : Type} (a : List α) (pos : Nat) (x : α) : List α :=
  a.take pos ++ x :: a.drop pos

/-- Monadic map over a list, left to right, stopping at the first fault. -/
def mapE {α β : Type} (f : α → Except Fault β) : List α → Except Fault (List β)
  | [] => .ok []
  | a :: as =>
    match f a with
    | .error e => .error e
    | .ok b =>
      match mapE f as with
      | .error e => .error e
      | .ok bs => .ok (b :: bs)

/-- The loop `for (k = 0; k < n; k++) x = f(x)`, stopping at the first fault. -/
def iterE {α : Type} (f : α → Except Fault α) : Nat → α → Except Fault α
  | 0, x => .ok x
  | n + 1, x =>
    match f x with
    | .error e => .error e
    | .ok y => iterE f n y

/-! ## Constraint/matrix library (modelled from the specification) -/

/-- One row of a constraint system: `is_eq[i]` and `val[i][0..ncols-1]`.
The last coefficient is the constant term. -/
structure CstRow where
  is_eq : Bool
  val : List Int
deriving DecidableEq, Repr

/-- `PlutoConstraints`: a conjunction of affine equalities (`row = 0`) and
inequalities (`row >= 0`) over `ncols - 1` variables; `nrows` is `rows.length`.
The `next` link that chains several systems into a union is not modelled: a domain,
a context and a dependence polytope are single systems. -/
structure PlutoConstraints where
  ncols : Nat
  rows : List CstRow
deriving DecidableEq, Repr

/-- `PlutoMatrix`: `val[0..nrows-1][0..ncols-1]`; `nrows` is `val.length`. -/
structure PlutoMatrix where
  ncols : Nat
  val : List (List Int)
deriving DecidableEq, Repr

/-- Number of rows of a constraint system (`cst->nrows`). -/
def PlutoConstraints.nrows (c : PlutoConstraints) : Nat := c.rows.length

/-- Number of rows of a matrix (`mat->nrows`). -/
def PlutoMatrix.nrows (m : PlutoMatrix) : Nat := m.val.length

/-- Modelled from the spec: `pluto_constraints_dup` of the constraint library
(section 2, "duplicate"): a fresh copy with the same contents. -/
def pluto_constraints_dup (c : PlutoConstraints) : PlutoConstraints := c

/-- Modelled from the spec: `pluto_constraints_add_dim` of the constraint library
(section 2, "add-dimension"; section 7, an out-of-range dimension position is
fatal): a new variable with coefficient 0 in every row is inserted at column
`pos`, which must be a variable position (`0 <= pos <= ncols - 1`, the last column
being the constant). -/
def pluto_constraints_add_dim (c : PlutoConstraints) (pos : Int) :
    Except Fault PlutoConstraints :=
  if 0 ≤ pos ∧ pos + 1 ≤ (c.ncols : Int) then
    .ok { ncols := c.ncols + 1,
          rows := c.rows.map fun r => { r with val := insertAt r.val pos.toNat 0 } }
  else .error Fault.assertion

/-- Modelled from the spec: `pluto_constraints_remove_dim` of the constraint library
(section 2, "remove-dimension"; section 7): the variable column `pos` is deleted
from every row; `pos` must be a variable position (`0 <= pos <= ncols - 2`). -/
def pluto_constraints_remove_dim (c : PlutoConstraints) (pos : Int) :
    Except Fault PlutoConstraints :=
  if 0 ≤ pos ∧ pos + 2 ≤ (c.ncols : Int) then
    .ok { ncols := c.ncols - 1,
          rows := c.rows.map fun r => { r with val := r.val.eraseIdx pos.toNat } }
  else .error Fault.assertion

/-- Modelled from the spec: `pluto_constraints_add` of the constraint library
(section 2, "intersect"): the rows of `c2` are appended to those of `c1`; both
systems must range over the same columns. -/
def pluto_constraints_add (c1 c2 : PlutoConstraints) : Except Fault PlutoConstraints :=
  if c1.ncols = c2.ncols then .ok { ncols := c1.ncols, rows := c1.rows ++ c2.rows }
  else .error Fault.assertion

/-- Modelled from the spec: `pluto_matrix_add_col` of the matrix library
(section 2; section 7): a zero column is inserted at `pos`, `0 <= pos <= ncols`. -/
def pluto_matrix_add_col (m : PlutoMatrix) (pos : Int) : Except Fault PlutoMatrix :=
  if 0 ≤ pos ∧ pos ≤ (m.ncols : Int) then
    .ok { ncols := m.ncols + 1, val := m.val.map fun r => insertAt r pos.toNat 0 }
  else .error Fault.assertion

/-- Modelled from the spec: `pluto_matrix_remove_col` of the matrix library
(section 2; section 7): column `pos` is deleted, `0 <= pos <= ncols - 1`. -/
def pluto_matrix_remove_col (m : PlutoMatrix) (pos : Int) : Except Fault PlutoMatrix :=
  if 0 ≤ pos ∧ pos + 1 ≤ (m.ncols : Int) then
    .ok { ncols := m.ncols - 1, val := m.val.map fun r => r.eraseIdx pos.toNat }
  else .error Fault.assertion

/-- Modelled from the spec: `pluto_matrix_add_row` of the matrix library
(section 2; section 7): an all-zero row is inserted at `pos`, `0 <= pos <= nrows`. -/
def pluto_matrix_add_row (m : PlutoMatrix) (pos : Int) : Except Fault PlutoMatrix :=
  if 0 ≤ pos ∧ pos ≤ (m.nrows : Int) then
    .ok { ncols := m.ncols, val := insertAt m.val pos.toNat (List.replicate m.ncols 0) }
  else .error Fault.assertion

/-- The assignment `mat->val[r][c] = v`; outside the matrix it is undefined. -/
def PlutoMatrix.setVal (m : PlutoMatrix) (r c : Int) (v : Int) : Except Fault PlutoMatrix :=
  if 0 ≤ r ∧ r < (m.nrows : Int) ∧ 0 ≤ c ∧ c < (m.ncols : Int) then
    .ok { m with val := m.val.set r.toNat ((m.val.getD r.toNat []).set c.toNat v) }
  else .error Fault.undefined

/-! ## Program model (`pluto.h`, as used by `program.c`) -/

/-- Modelled from the spec: `PlutoHypType` of `pluto.h` (section 3, per-row
classification: loop-carrying / scalar-separator / tile-space). -/
inductive PlutoHypType where
  | H_UNKNOWN
  | H_LOOP
  | H_TILE_SPACE_LOOP
  | H_SCALAR
deriving DecidableEq, Repr

/-- Modelled from the spec: the dependence kinds of the Candl front-end
(section 3: kind in flow, anti, output, input), with the unset value that
`pluto_dep_print` distinguishes. `CANDL_RAW` is flow, `CANDL_WAR` anti,
`CANDL_WAW` output and `CANDL_RAR` input. -/
inductive DepType where
  | CANDL_UNSET
  | CANDL_RAW
  | CANDL_WAR
  | CANDL_WAW
  | CANDL_RAR
deriving DecidableEq, Repr

/-- `PlutoAccess`: the access matrix and the name of the accessed array. -/
structure PlutoAccess where
  mat : PlutoMatrix
  name : Option String
deriving DecidableEq, Repr

/-- A `PlutoAccess *` held by a dependence: the slot of a statement's `reads` or
`writes` array it points to. Two such pointers are equal exactly when they name
the same slot. -/
structure AccRef where
  stmt : Int
  is_write : Bool
  num : Int
deriving DecidableEq, Repr

/-- `Stmt`, restricted to the fields `program.c` mutates. `trans`, `reads` and
`writes` may be `NULL`; `nreads`/`nwrites` are the lengths of the lists. -/
structure Stmt where
  id : Int
  dim : Int
  domain : PlutoConstraints
  trans : Option PlutoMatrix
  hyp_types : List PlutoHypType
  iterators : List (Option String)
  is_orig_loop : List Bool
  reads : Option (List PlutoAccess)
  writes : Option (List PlutoAccess)
deriving DecidableEq, Repr

/-- `Dep`, restricted to the fields `program.c` reads or writes. -/
structure Dep where
  id : Int
  src : Int
  dest : Int
  type : DepType
  dpolytope : PlutoConstraints
  src_acc : Option AccRef
  dest_acc : Option AccRef
  satisfied : Bool
  satisfaction_level : Int
deriving DecidableEq, Repr

/-- Modelled from the spec: `UnrollType` of `pluto.h`. -/
inductive UnrollType where
  | NO_UNROLL
  | UNROLL
  | UNROLLJAM
deriving DecidableEq, Repr

/-- Modelled from the spec: `PlutoLoopType` of `pluto.h`. -/
inductive PlutoLoopType where
  | UNKNOWN
  | PARALLEL
  | PIPE_PARALLEL
  | SEQ
deriving DecidableEq, Repr

/-- `HyperplaneProperties`: the metadata record of one schedule row. -/
structure HyperplaneProperties where
  unroll : UnrollType
  prevec : Int
  band_num : Int
  dep_prop : PlutoLoopType
  type : PlutoHypType
deriving DecidableEq, Repr

/-- `PlutoProg`, restricted to the fields `program.c` mutates.
`nstmts`, `ndeps`, `ntransdeps` and `num_hyperplanes` are the lengths of
`stmts`, `deps`, `transdeps` and `hProps`. -/
structure PlutoProg where
  stmts : List Stmt
  deps : List Dep
  transdeps : List Dep
  npar : Int
  params : List String
  context : PlutoConstraints
  hProps : List HyperplaneProperties
deriving DecidableEq, Repr

/-- The counter `prog->num_hyperplanes`. -/
def PlutoProg.num_hyperplanes (prog : PlutoProg) : Nat := prog.hProps.length

/-- The counter `prog->ndeps`. -/
def PlutoProg.ndeps (prog : PlutoProg) : Nat := prog.deps.length

/-- The counter `prog->nstmts`. -/
def PlutoProg.nstmts (prog : PlutoProg) : Nat := prog.stmts.length

/-! ## Mutation engine (`program.c`, lines 2014-2320) -/

/-- The loops `for (i = 0; i < stmt->nwrites; i++) pluto_matrix_add_col(stmt->writes[i]->mat, pos)`
(and the same over `reads`); a `NULL` array has count 0. -/
def addColAccs (accs : Option (List PlutoAccess)) (pos : Int) :
    Except Fault (Option (List PlutoAccess)) :=
  match accs with
  | none => .ok none
  | some l =>
    match mapE (fun a => (pluto_matrix_add_col a.mat pos).map fun m => { a with mat := m }) l with
    | .error e => .error e
    | .ok l2 => .ok (some l2)

/-- The loops `for (i = 0; i < stmt->nwrites; i++) pluto_matrix_remove_col(stmt->writes[i]->mat, pos)`
(and the same over `reads`). -/
def removeColAccs (accs : Option (List PlutoAccess)) (pos : Int) :
    Except Fault (Option (List PlutoAccess)) :=
  match accs with
  | none => .ok none
  | some l =>
    match mapE (fun a => (pluto_matrix_remove_col a.mat pos).map fun m => { a with mat := m }) l with
    | .error e => .error e
    | .ok l2 => .ok (some l2)

/-- Body of the dependence loops of `pluto_stmt_add_dim` (lines 2110-2129) for one
dependence; `stmts` is the statement array after the statement itself was updated
and `sid` is `stmt->id`. -/
def add_dim_dep (stmts : List Stmt) (sid pos : Int) (d : Dep) : Except Fault Dep := do
  let p1 ← (if d.src = sid then pluto_constraints_add_dim d.dpolytope pos
    else .ok d.dpolytope)
  let p2 ← (if d.dest = sid then
      (cIndex stmts d.src).bind fun s => pluto_constraints_add_dim p1 (s.dim + pos)
    else .ok p1)
  pure { d with dpolytope := p2 }

/-- Body of the dependence loops of `pluto_stmt_remove_dim` (lines 2170-2191). -/
def remove_dim_dep (stmts : List Stmt) (sid pos : Int) (d : Dep) : Except Fault Dep := do
  let p1 ← (if d.src = sid then pluto_constraints_remove_dim d.dpolytope pos
    else .ok d.dpolytope)
  let p2 ← (if d.dest = sid then
      (cIndex stmts d.src).bind fun s => pluto_constraints_remove_dim p1 (s.dim + pos)
    else .ok p1)
  pure { d with dpolytope := p2 }

/-- The block `if (time_pos != -1) { ... }` of `pluto_stmt_add_dim` (lines 2082-2093):
a new schedule row at `time_pos` with coefficient 1 for the new iterator, and its
classification in `hyp_types`. Returns the schedule and `hyp_types`. -/
def add_dim_time_row (trans1 : PlutoMatrix) (hyp_types : List PlutoHypType)
    (pos time_pos : Int) (hyp_type : PlutoHypType) :
    Except Fault (PlutoMatrix × List PlutoHypType) :=
  if time_pos ≠ -1 then do
    let t ← pluto_matrix_add_row trans1 time_pos
    let t2 ← t.setVal time_pos pos 1
    pure (t2, insertAt hyp_types time_pos.toNat hyp_type)
  else pure (trans1, hyp_types)

/-- `pluto_stmt_add_dim(stmt, pos, time_pos, iter, hyp_type, prog)` (lines 2059-2130),
with `stmt = prog->stmts[si]`. -/
def pluto_stmt_add_dim (prog : PlutoProg) (si : Nat) (pos time_pos : Int) (iter : String)
    (hyp_type : PlutoHypType) : Except Fault PlutoProg := do
  let stmt ← cIndex prog.stmts si
  let npar : Int := (stmt.domain.ncols : Int) - stmt.dim - 1
  cAssert (pos ≤ stmt.dim)
  let trans0 ← cDeref stmt.trans
  cAssert (time_pos ≤ (trans0.nrows : Int))
  cAssert (stmt.dim + npar + 1 = (stmt.domain.ncols : Int))
  let domain ← pluto_constraints_add_dim stmt.domain pos
  let dim := stmt.dim + 1
  let iterators := insertAt stmt.iterators pos.toNat (some iter)
  let trans1 ← pluto_matrix_add_col trans0 pos
  let th ← add_dim_time_row trans1 stmt.hyp_types pos time_pos hyp_type
  let is_orig_loop := insertAt stmt.is_orig_loop pos.toNat true
  let writes ← addColAccs stmt.writes pos
  let reads ← addColAccs stmt.reads pos
  let stmt2 : Stmt :=
    { stmt with dim := dim, domain := domain, iterators := iterators, trans := some th.1,
                hyp_types := th.2, is_orig_loop := is_orig_loop, writes := writes,
                reads := reads }
  let stmts2 := prog.stmts.set si stmt2
  let deps ← mapE (add_dim_dep stmts2 stmt.id pos) prog.deps
  let transdeps ← mapE (add_dim_dep stmts2 stmt.id pos) prog.transdeps
  pure { prog with stmts := stmts2, deps := deps, transdeps := transdeps }

/-- `pluto_stmt_remove_dim(stmt, pos, prog)` (lines 2134-2192), with
`stmt = prog->stmts[si]`. The guard is `assert(pos <= stmt->dim)`. -/
def pluto_stmt_remove_dim (prog : PlutoProg) (si : Nat) (pos : Int) :
    Except Fault PlutoProg := do
  let stmt ← cIndex prog.stmts si
  let npar : Int := (stmt.domain.ncols : Int) - stmt.dim - 1
  cAssert (pos ≤ stmt.dim)
  cAssert (stmt.dim + npar + 1 = (stmt.domain.ncols : Int))
  let domain ← pluto_constraints_remove_dim stmt.domain pos
  let dim := stmt.dim - 1
  -- `free(stmt->iterators[pos])` reads the slot `pos` of a non-NULL array
  let _ ← (if stmt.iterators = [] then .ok none else cIndex stmt.iterators pos)
  let iterators := (stmt.iterators.eraseIdx pos.toNat).take dim.toNat
  let trans0 ← cDeref stmt.trans
  let trans ← pluto_matrix_remove_col trans0 pos
  let is_orig_loop := (stmt.is_orig_loop.eraseIdx pos.toNat).take dim.toNat
  let writes ← removeColAccs stmt.writes pos
  let reads ← removeColAccs stmt.reads pos
  let stmt2 : Stmt :=
    { stmt with dim := dim, domain := domain, iterators := iterators, trans := some trans,
                is_orig_loop := is_orig_loop, writes := writes, reads := reads }
  let stmts2 := prog.stmts.set si stmt2
  let deps ← mapE (remove_dim_dep stmts2 stmt.id pos) prog.deps
  let transdeps ← mapE (remove_dim_dep stmts2 stmt.id pos) prog.transdeps
  pure { prog with stmts := stmts2, deps := deps, transdeps := transdeps }

/-- `pluto_stmt_add_hyperplane(stmt, type, pos)` (lines 2194-2208). -/
def pluto_stmt_add_hyperplane (stmt : Stmt) (type : PlutoHypType) (pos : Int) :
    Except Fault Stmt := do
  let trans0 ← cDeref stmt.trans
  cAssert (pos ≤ (trans0.nrows : Int))
  let trans ← pluto_matrix_add_row trans0 pos
  pure { stmt with trans := some trans, hyp_types := insertAt stmt.hyp_types pos.toNat type }

/-- `pluto_prog_add_hyperplane(prog, pos, hyp_type)` (lines 2211-2228). The function has
no guard: for a `pos` outside `0..num_hyperplanes` the shift and the initialisation write
outside the reallocated `hProps` array. -/
def pluto_prog_add_hyperplane (prog : PlutoProg) (pos : Int) (hyp_type : PlutoHypType) :
    Except Fault PlutoProg :=
  if 0 ≤ pos ∧ pos ≤ (prog.num_hyperplanes : Int) then
    .ok { prog with
          hProps := insertAt prog.hProps pos.toNat
            { unroll := UnrollType.NO_UNROLL, prevec := 0, band_num := -1,
              dep_prop := PlutoLoopType.UNKNOWN, type := hyp_type } }
  else .error Fault.undefined

/-- Modelled from the spec: `pluto_matrix_alloc(nrows, ncols)` of the matrix library
followed by `trans->nrows = 0` (lines 2301-2303): a matrix with `ncols` columns and no
row in use. -/
def pluto_matrix_alloc_empty (ncols : Int) : PlutoMatrix :=
  { ncols := ncols.toNat, val := [] }

/-- The first loop of `pluto_pad_stmt_transformations` (lines 2291-2296):
the maximum `trans->nrows` over the statements that have a transformation. -/
def pad_max_nrows (stmts : List Stmt) : Nat :=
  stmts.foldl (fun m s => match s.trans with
    | some t => max m t.nrows
    | none => m) 0

/-- Body of the second loop of `pluto_pad_stmt_transformations` (lines 2299-2312)
for one statement. -/
def pad_stmt (npar : Int) (max_nrows : Nat) (s : Stmt) : Except Fault Stmt := do
  let s1 : Stmt := match s.trans with
    | none => { s with trans := some (pluto_matrix_alloc_empty (s.dim + npar + 1)) }
    | some _ => s
  let t1 ← cDeref s1.trans
  let curr_rows := t1.nrows
  iterE (fun st => do
      let t ← cDeref st.trans
      pluto_stmt_add_hyperplane st PlutoHypType.H_SCALAR (t.nrows : Int))
    (max_nrows - curr_rows) s1

/-- `pluto_pad_stmt_transformations(prog)` (lines 2283-2320). -/
def pluto_pad_stmt_transformations (prog : PlutoProg) : Except Fault PlutoProg := do
  let max_nrows := pad_max_nrows prog.stmts
  if max_nrows ≥ 1 then
    let stmts ← mapE (pad_stmt prog.npar max_nrows) prog.stmts
    let old_hyp_num := prog.num_hyperplanes
    iterE (fun p => pluto_prog_add_hyperplane p (p.num_hyperplanes : Int) PlutoHypType.H_SCALAR)
      (max_nrows - old_hyp_num) { prog with stmts := stmts }
  else pure prog

/-- Body of the statement loop of `pluto_prog_add_param` (lines 2018-2029). -/
def add_param_stmt (npar pos : Int) (stmt : Stmt) : Except Fault Stmt := do
  let domain ← pluto_constraints_add_dim stmt.domain ((stmt.domain.ncols : Int) - 1 - npar + pos)
  let trans0 ← cDeref stmt.trans
  let trans ← pluto_matrix_add_col trans0 ((trans0.ncols : Int) - 1 - npar + pos)
  let writes ← addColAccs stmt.writes (stmt.dim + pos)
  let reads ← addColAccs stmt.reads (stmt.dim + pos)
  pure { stmt with domain := domain, trans := some trans, writes := writes, reads := reads }

/-- Body of the dependence loop of `pluto_prog_add_param` (lines 2030-2033). -/
def add_param_dep (npar pos : Int) (d : Dep) : Except Fault Dep := do
  let p ← pluto_constraints_add_dim d.dpolytope ((d.dpolytope.ncols : Int) - 1 - npar + pos)
  pure { d with dpolytope := p }

/-- `pluto_prog_add_param(prog, param, pos)` (lines 2014-2044). The only dependence
loop runs over `prog->deps`; `prog->transdeps` is not visited. The final shift of
`params` writes outside the array unless `0 <= pos <= npar`. -/
def pluto_prog_add_param (prog : PlutoProg) (param : String) (pos : Int) :
    Except Fault PlutoProg := do
  let stmts ← mapE (add_param_stmt prog.npar pos) prog.stmts
  let deps ← mapE (add_param_dep prog.npar pos) prog.deps
  let context ← pluto_constraints_add_dim prog.context
    ((prog.context.ncols : Int) - 1 - prog.npar + pos)
  if 0 ≤ pos ∧ pos ≤ prog.npar then
    pure { prog with stmts := stmts, deps := deps, context := context,
                     params := insertAt prog.params pos.toNat param,
                     npar := prog.npar + 1 }
  else .error Fault.undefined

/-! ## Integer points of a constraint system (modelled from the specification) -/

/-- Value of the affine form with coefficient list `r` at the point `x`:
`r[0]*x[0] + r[1]*x[1] + ...` over the common prefix. -/
def dot : List Int → List Int → Int
  | a :: as, b :: bs => a * b + dot as bs
  | _, _ => 0

/-- Modelled from the spec: one constraint at the integer point `pt` (glossary,
"Polytope"; section 6, last column = constant): `row . (pt, 1) = 0` for an equality
row and `row . (pt, 1) >= 0` for an inequality row. -/
def CstRow.holds (r : CstRow) (pt : List Int) : Bool :=
  if r.is_eq then decide (dot r.val (pt ++ [1]) = 0) else decide (0 ≤ dot r.val (pt ++ [1]))

/-- Modelled from the spec: membership of the integer point `pt` (one value per
variable column) in the polytope of `c` (glossary, "Polytope": an integer point set
defined by a conjunction of affine equalities/inequalities). -/
def PlutoConstraints.sat (c : PlutoConstraints) (pt : List Int) : Bool :=
  decide (pt.length + 1 = c.ncols) && c.rows.all fun r => r.holds pt

/-! ## Dependence composer and forced parallelisation (`program.c`, lines 47-101, 1578-1676) -/

/-- `PlutoOptions`, restricted to the two flags read by `pluto_force_parallelize`. -/
structure PlutoOptions where
  lastwriter : Int
  rar : Int
deriving DecidableEq, Repr

/-- What `program.c` consumes from outside the file in the composer and in the
forced-parallelisation pass, taken as parameters:
`project_out` is `pluto_constraints_project_out(cst, start, num)` and `is_empty` is
`pluto_constraints_is_empty` of the constraint library, `detect` is
`pluto_detect_transformation_properties` of the scheduler (it tags every dependence
with its satisfaction level), and `fresh` is the content of the memory block that
`malloc` hands to `pluto_dep_alloc`. -/
structure Env where
  project_out : PlutoConstraints → Int → Int → Except Fault PlutoConstraints
  is_empty : PlutoConstraints → Bool
  detect : PlutoProg → PlutoProg
  fresh : Dep

/-- `pluto_dep_alloc()` (lines 2381-2393): the fields it does not initialise keep the
content of the allocated block. -/
def pluto_dep_alloc (fresh : Dep) : Dep :=
  { fresh with id := -1, satisfied := false, satisfaction_level := -1 }

/-- `pluto_add_dep(prog, dep)` (lines 47-53). -/
def pluto_add_dep (prog : PlutoProg) (dep : Dep) : PlutoProg :=
  { prog with deps := prog.deps ++ [{ dep with id := (prog.ndeps : Int) }] }

/-- The conjunction built by `pluto_dep_compose` before the projection (lines 63-80):
`d3poly` after `pluto_constraints_add(d3poly, d2)`, together with the dimensionalities
of `s1` and `s2`. -/
def compose_conj (dep1 dep2 : Dep) (prog : PlutoProg) :
    Except Fault (PlutoConstraints × Int × Int) := do
  cAssert (dep1.dest = dep2.src)
  let s1 ← cIndex prog.stmts dep1.src
  let s2 ← cIndex prog.stmts dep2.src
  let s3 ← cIndex prog.stmts dep2.dest
  let d1 := pluto_constraints_dup dep1.dpolytope
  let d2 := pluto_constraints_dup dep2.dpolytope
  let d1a ← iterE (fun c => pluto_constraints_add_dim c (s1.dim + s2.dim)) s3.dim.toNat d1
  let d2a ← iterE (fun c => pluto_constraints_add_dim c 0) s1.dim.toNat d2
  let d3poly := pluto_constraints_dup d1a
  let d3 ← pluto_constraints_add d3poly d2a
  pure (d3, s1.dim, s2.dim)

/-- The polytope `d3poly` of `pluto_dep_compose` after
`pluto_constraints_project_out(d3poly, s1->dim, s2->dim)` (lines 63-82). -/
def compose_poly (env : Env) (dep1 dep2 : Dep) (prog : PlutoProg) :
    Except Fault PlutoConstraints := do
  let c ← compose_conj dep1 dep2 prog
  env.project_out c.1 c.2.1 c.2.2

/-- Outcome of a call `pluto_dep_compose(dep1, dep2, prog)` that returns: the two
argument objects as they are after the call and the returned pointer (`none` is
`NULL`). -/
structure ComposeOut where
  dep1 : Dep
  dep2 : Dep
  ret : Option Dep

/-- `pluto_dep_compose(dep1, dep2, prog)` (lines 59-101). The function works on
duplicates of the two polytopes and never assigns through `dep1` or `dep2`. -/
def pluto_dep_compose (env : Env) (dep1 dep2 : Dep) (prog : PlutoProg) :
    Except Fault ComposeOut := do
  let d3poly ← compose_poly env dep1 dep2 prog
  if env.is_empty d3poly then
    pure { dep1 := dep1, dep2 := dep2, ret := none }
  else
    let dep := pluto_dep_alloc env.fresh
    let dep := { dep with src := dep1.src, dest := dep2.dest, src_acc := dep1.src_acc,
                          dest_acc := dep2.dest_acc, dpolytope := d3poly }
    pure { dep1 := dep1, dep2 := dep2, ret := some dep }

/-- Modelled from the spec: the macro `IS_RAW` of `pluto.h` (section 3, kind flow). -/
def IS_RAW (t : DepType) : Bool := t = DepType.CANDL_RAW

/-- Modelled from the spec: the macro `IS_RAR` of `pluto.h` (section 3, kind input). -/
def IS_RAR (t : DepType) : Bool := t = DepType.CANDL_RAR

/-- The `switch` of `pluto_force_parallelize` (lines 1598-1619) that derives the type of
the composition of `deps[i]` (type `t1`) with `deps[j]` (type `t2`); `default` is
`assert(0)`. -/
def compose_dep_type (t1 t2 : DepType) : Except Fault DepType :=
  match t1 with
  | DepType.CANDL_WAR =>
    if IS_RAW t2 then .ok DepType.CANDL_RAR else .ok DepType.CANDL_WAR
  | DepType.CANDL_RAW =>
    if IS_RAR t2 then .ok DepType.CANDL_RAW else .ok DepType.CANDL_WAW
  | DepType.CANDL_WAW => .ok t2
  | DepType.CANDL_RAR => .ok t2
  | DepType.CANDL_UNSET => .error Fault.assertion

/-- The loop `for (j = ...; j < prog->ndeps; j++)` of lines 1591-1624, entered at `j`
with the running `num_new_deps`; `prog->ndeps` is re-read at every test. Returns the
program and `num_new_deps` at loop exit. -/
def closure_j (env : Env) (depth : Int) :
    Nat → PlutoProg → Nat → Nat → Nat → Except Fault (PlutoProg × Nat)
  | 0, _, _, _, _ => .error Fault.fuel
  | fuel + 1, prog, i, j, num_new_deps =>
    if j < prog.ndeps then do
      let di ← cIndex prog.deps i
      let dj ← cIndex prog.deps j
      if dj.satisfaction_level = 2 * depth - 1 ∧ di.dest_acc = dj.src_acc then do
        let out ← pluto_dep_compose env di dj prog
        match out.ret with
        | none => closure_j env depth fuel prog i (j + 1) num_new_deps
        | some dep =>
          let dep1 := { dep with satisfaction_level := di.satisfaction_level, satisfied := true }
          let t ← compose_dep_type di.type dj.type
          let dep2 := { dep1 with type := t }
          closure_j env depth fuel (pluto_add_dep prog dep2) i (j + 1) (num_new_deps + 1)
      else closure_j env depth fuel prog i (j + 1) num_new_deps
    else .ok (prog, num_new_deps)

/-- The loop `for (i = ...; i < prog->ndeps; i++)` of lines 1589-1626, entered at `i`. -/
def closure_i (env : Env) (depth : Int) :
    Nat → PlutoProg → Nat → Nat → Except Fault (PlutoProg × Nat)
  | 0, _, _, _ => .error Fault.fuel
  | fuel + 1, prog, i, num_new_deps =>
    if i < prog.ndeps then do
      let di ← cIndex prog.deps i
      if di.satisfaction_level < 2 * depth - 1 then do
        let r ← closure_j env depth fuel prog i 0 num_new_deps
        closure_i env depth fuel r.1 (i + 1) r.2
      else closure_i env depth fuel prog (i + 1) num_new_deps
    else .ok (prog, num_new_deps)

/-- The loop `while (num_new_deps > 0)` of lines 1586-1627. -/
def closure_while (env : Env) (depth : Int) : Nat → PlutoProg → Nat → Except Fault PlutoProg
  | 0, _, _ => .error Fault.fuel
  | fuel + 1, prog, num_new_deps =>
    if num_new_deps > 0 then do
      let first_new_dep := prog.ndeps - num_new_deps
      let r ← closure_i env depth fuel prog first_new_dep 0
      closure_while env depth fuel r.1 r.2
    else .ok prog

/-- The compaction loop that occurs three times in `pluto_force_parallelize`
(lines 1630-1643, 1647-1660, 1662-1675):
`for (i...) if (keep(deps[i])) { deps[i]->id = count; out[count++] = deps[i]; } else free`.
`out` holds the `count` entries written so far. -/
def compact_loop (keep : Dep → Bool) : List Dep → Nat → List Dep → List Dep
  | [], _, out => out
  | d :: rest, count, out =>
    if keep d then compact_loop keep rest (count + 1) (out ++ [{ d with id := (count : Int) }])
    else compact_loop keep rest count out

/-- The compaction loop run from `count = 0` on an empty output array. -/
def compact_deps (keep : Dep → Bool) (deps : List Dep) : List Dep :=
  compact_loop keep deps 0 []

/-- The deletion step of `pluto_force_parallelize` on one list (lines 1647-1660 for
`deps`, 1662-1675 for `transdeps`): it keeps the dependences with
`satisfaction_level != 2*depth-1`. -/
def delete_satisfied (depth : Int) (deps : List Dep) : List Dep :=
  compact_deps (fun d => decide (d.satisfaction_level ≠ 2 * depth - 1)) deps

/-- Lines 1582-1645 of `pluto_force_parallelize`: the classifier call, and under
`options->lastwriter` the transitive-closure loops and the removal of the RAR
dependences when `options->rar` is off. -/
def force_parallelize_closure (env : Env) (options : PlutoOptions) (fuel : Nat)
    (prog : PlutoProg) (depth : Int) : Except Fault PlutoProg := do
  let prog0 := env.detect prog
  if options.lastwriter ≠ 0 then do
    let p ← closure_while env depth fuel prog0 prog0.ndeps
    if options.rar = 0 then
      pure { p with deps := compact_deps (fun d => !IS_RAR d.type) p.deps }
    else pure p
  else pure prog0

/-- Lines 1647-1675 of `pluto_force_parallelize`: the deletion step on both lists. -/
def force_parallelize_delete (depth : Int) (prog : PlutoProg) : PlutoProg :=
  { prog with deps := delete_satisfied depth prog.deps,
              transdeps := delete_satisfied depth prog.transdeps }

/-- `pluto_force_parallelize(prog, depth)` (lines 1578-1676); `options` is the global
option record and `fuel` bounds the number of iterations of each loop of the
transitive-closure phase. -/
def pluto_force_parallelize (env : Env) (options : PlutoOptions) (fuel : Nat)
    (prog : PlutoProg) (depth : Int) : Except Fault PlutoProg := do
  let p ← force_parallelize_closure env options fuel prog depth
  pure (force_parallelize_delete depth p)

/-! ## Reading of the dependence kinds -/

/-- Kind of a memory access. -/
inductive AccKind where
  | read
  | write
deriving DecidableEq, Repr

/-- Access kind at the source of a dependence of the given type, as
`basic_map_extract` and `deps_read` select `src_acc` (lines 303-326, 1026-1041):
from `writes` for RAW and WAW, from `reads` for WAR and RAR. -/
def DepType.srcKind : DepType → Option AccKind
  | DepType.CANDL_RAW => some AccKind.write
  | DepType.CANDL_WAW => some AccKind.write
  | DepType.CANDL_WAR => some AccKind.read
  | DepType.CANDL_RAR => some AccKind.read
  | DepType.CANDL_UNSET => none

/-- Access kind at the destination of a dependence of the given type (same lines):
from `reads` for RAW and RAR, from `writes` for WAW and WAR. -/
def DepType.destKind : DepType → Option AccKind
  | DepType.CANDL_RAW => some AccKind.read
  | DepType.CANDL_RAR => some AccKind.read
  | DepType.CANDL_WAW => some AccKind.write
  | DepType.CANDL_WAR => some AccKind.write
  | DepType.CANDL_UNSET => none

/-- The kind table of section 4.3 of the specification, read with the first column
holding the kinds input and flow and the second column the kinds output and anti:
row anti gives input / anti, row flow gives flow / output, rows output and input
give the kind of the second dependence. -/
def spec_kind_table (k1 k2 : DepType) : DepType :=
  match k1 with
  | DepType.CANDL_WAR =>
    if k2 = DepType.CANDL_RAR ∨ k2 = DepType.CANDL_RAW then DepType.CANDL_RAR
    else DepType.CANDL_WAR
  | DepType.CANDL_RAW =>
    if k2 = DepType.CANDL_RAR ∨ k2 = DepType.CANDL_RAW then DepType.CANDL_RAW
    else DepType.CANDL_WAW
  | _ => k2

/-! ## Specification-side notions used to state the properties -/

/-- Dense renumbering from `n`: the dependence at position `i` gets `id = n + i`. -/
def renumber : Nat → List Dep → List Dep
  | _, [] => []
  | n, d :: ds => { d with id := (n : Int) } :: renumber (n + 1) ds

/-- A dependence with its `id` blanked, to compare dependences up to renumbering. -/
def Dep.eraseId (d : Dep) : Dep := { d with id := 0 }

/-- Invariant 1 of the data model on every statement:
`domain.columns = dim + npar + 1`. -/
def stmt_cols_ok (prog : PlutoProg) : Bool :=
  prog.stmts.all fun s => decide ((s.domain.ncols : Int) = s.dim + prog.npar + 1)

/-- Second half of invariant 2 on every statement: the statement has a schedule and
`schedule.columns = domain.columns`. -/
def sched_cols_ok (prog : PlutoProg) : Bool :=
  prog.stmts.all fun s => match s.trans with
    | some t => decide (t.ncols = s.domain.ncols)
    | none => false

/-- First half of invariant 2 on every statement: the statement has a schedule and
`schedule.rows = num_hyperplanes`. -/
def sched_rows_ok (prog : PlutoProg) : Bool :=
  prog.stmts.all fun s => match s.trans with
    | some t => decide (t.nrows = prog.num_hyperplanes)
    | none => false

/-- Invariant 3 of the data model on one dependence: its source and destination are
statements of the program and `polytope.columns = src.dim + dest.dim + npar + 1`. -/
def dep_cols_ok (prog : PlutoProg) (d : Dep) : Bool :=
  match cIndex prog.stmts d.src, cIndex prog.stmts d.dest with
  | .ok s, .ok t => decide ((d.dpolytope.ncols : Int) = s.dim + t.dim + prog.npar + 1)
  | _, _ => false

/-- Invariant 3 on every dependence of the main and of the transitive list. -/
def deps_cols_ok (prog : PlutoProg) : Bool :=
  prog.deps.all (dep_cols_ok prog) && prog.transdeps.all (dep_cols_ok prog)

/-- The system `c2` is `c1` with one zero column inserted at index `p`: one more column,
the same rows and flags, and in every row the coefficients before `p` unchanged, a 0
at `p`, and the coefficients from `p` on moved one place up. -/
def ZeroColInserted (c1 c2 : PlutoConstraints) (p : Nat) : Prop :=
  c2.ncols = c1.ncols + 1 ∧ c2.rows.length = c1.rows.length ∧
  ∀ i r1 r2, c1.rows.get? i = some r1 → c2.rows.get? i = some r2 →
    r2.is_eq = r1.is_eq ∧ r2.val.length = r1.val.length + 1 ∧
    ∀ j, r2.val.getD j 0
      = if j < p then r1.val.getD j 0 else if j = p then 0 else r1.val.getD (j - 1) 0

/-- Effect of `pluto_stmt_add_dim(s, pos, ...)` on one dependence, `d` before and `d2`
after the call; `si` is the position (and id) of `s`, `sdim` its dimensionality before
the call, `stmts` the statements before the call. Only the polytope changes: a zero
column at `pos` when `s` is the source only; a zero column at (source dimensionality
+ `pos`) when `s` is the destination only; both, the second one counted with the
dimensionality of `s` already incremented, for a self-dependence; nothing
otherwise. -/
def AddDimDepEffect (stmts : List Stmt) (si : Nat) (sdim pos : Int) (d d2 : Dep) : Prop :=
  d2 = { d with dpolytope := d2.dpolytope } ∧
  (d.src = (si : Int) → d.dest ≠ (si : Int) →
    ZeroColInserted d.dpolytope d2.dpolytope pos.toNat) ∧
  (d.src ≠ (si : Int) → d.dest = (si : Int) →
    ∃ s, cIndex stmts d.src = .ok s ∧
      ZeroColInserted d.dpolytope d2.dpolytope (s.dim + pos).toNat) ∧
  (d.src = (si : Int) → d.dest = (si : Int) →
    ∃ mid, ZeroColInserted d.dpolytope mid pos.toNat ∧
      ZeroColInserted mid d2.dpolytope (sdim + 1 + pos).toNat) ∧
  (d.src ≠ (si : Int) → d.dest ≠ (si : Int) → d2 = d)

/-- Contract of the library projection `pluto_constraints_project_out(c, start, num)`
that the composer relies on (section 4.3, "existentially project out"), in the form
that a conjunction of affine constraints can meet: for a valid range of variable
columns the result ranges over the remaining columns and contains the image of every
integer point of `c`. -/
def ProjectOutSound (env : Env) : Prop :=
  ∀ c start num r, 0 ≤ start → 0 ≤ num → start + num + 1 ≤ (c.ncols : Int) →
    env.project_out c start num = .ok r →
    r.ncols + num.toNat = c.ncols ∧
    ∀ pt, c.sat pt = true →
      r.sat (pt.take start.toNat ++ pt.drop (start.toNat + num.toNat)) = true

/-! ## Concrete programs used to exercise the theorems -/

/-- A `project_out` that returns the unconstrained system over the remaining columns
(an over-approximation of every projection). -/
def project_out_universe (c : PlutoConstraints) (_start num : Int) :
    Except Fault PlutoConstraints :=
  .ok { ncols := c.ncols - num.toNat, rows := [] }

/-- A one-dimensional statement with identity schedule and no parameter. -/
def sample_stmt (id : Int) : Stmt :=
  { id := id, dim := 1, domain := { ncols := 2, rows := [] },
    trans := some { ncols := 2, val := [[1, 0]] }, hyp_types := [PlutoHypType.H_LOOP],
    iterators := [some "i"], is_orig_loop := [true], reads := some [], writes := some [] }

/-- A dependence between two one-dimensional statements (three polytope columns). -/
def sample_dep (id src dest : Int) (t : DepType) (sa da : AccRef) (lvl : Int)
    (rows : List CstRow) : Dep :=
  { id := id, src := src, dest := dest, type := t, dpolytope := { ncols := 3, rows := rows },
    src_acc := some sa, dest_acc := some da, satisfied := true, satisfaction_level := lvl }

/-- An environment whose projection is `project_out_universe`, whose emptiness test
always answers "not empty" and whose classifier leaves the program as it is. -/
def sample_env : Env :=
  { project_out := project_out_universe, is_empty := fun _ => false, detect := fun p => p,
    fresh := sample_dep 0 0 0 DepType.CANDL_UNSET ⟨0, false, 0⟩ ⟨0, false, 0⟩ 0 [] }

/-- A program with one statement without iterator and without parameter whose domain
has the single constant column but whose schedule has five columns. -/
def wide_sched_prog : PlutoProg :=
  { stmts := [{ id := 0, dim := 0, domain := { ncols := 1, rows := [] },
                trans := some { ncols := 5, val := [] }, hyp_types := [],
                iterators := [], is_orig_loop := [], reads := none, writes := none }],
    deps := [], transdeps := [], npar := 0, params := [],
    context := { ncols := 1, rows := [] }, hProps := [] }

/-- Two statements; a flow dependence S0 -> S1 satisfied at level 0 and an anti
dependence S1 -> S1 satisfied at level 1 that starts at the access where the first one
ends; one transitive dependence satisfied at level 1. -/
def sample_prog : PlutoProg :=
  { stmts := [sample_stmt 0, sample_stmt 1],
    deps := [sample_dep 0 0 1 DepType.CANDL_RAW ⟨0, true, 0⟩ ⟨1, false, 0⟩ 0
               [⟨true, [1, -1, 0]⟩],
             sample_dep 1 1 1 DepType.CANDL_WAR ⟨1, false, 0⟩ ⟨1, true, 0⟩ 1 []],
    transdeps := [sample_dep 0 1 1 DepType.CANDL_WAR ⟨1, false, 0⟩ ⟨1, true, 0⟩ 1 []],
    npar := 0, params := [], context := { ncols := 1, rows := [] },
    hProps := [{ unroll := UnrollType.NO_UNROLL, prevec := 0, band_num := -1,
                 dep_prop := PlutoLoopType.UNKNOWN, type := PlutoHypType.H_LOOP }] }

/-- A statement without iterator (a single instance), with a one-row scalar schedule. -/
def point_stmt (id : Int) : Stmt :=
  { id := id, dim := 0, domain := { ncols := 1, rows := [] },
    trans := some { ncols := 1, val := [[0]] }, hyp_types := [PlutoHypType.H_SCALAR],
    iterators := [], is_orig_loop := [], reads := some [], writes := some [] }

/-- Flow dependence S0 -> S1 between the instances `i` of S0 and `j` of S1 with
`i = 2j` (S0 writes `A[i]`, S1 reads `A[2j]`): the single equality `i - 2j = 0`. -/
def evens_dep1 : Dep :=
  sample_dep 0 0 1 DepType.CANDL_RAW ⟨0, true, 0⟩ ⟨1, false, 0⟩ 0 [⟨true, [1, -2, 0]⟩]

/-- Anti dependence S1 -> S2 from every instance `j` of S1 to the single instance of S2:
no constraint, two columns (`j` and the constant). -/
def evens_dep2 : Dep :=
  { id := 1, src := 1, dest := 2, type := DepType.CANDL_WAR,
    dpolytope := { ncols := 2, rows := [] },
    src_acc := some ⟨1, false, 0⟩, dest_acc := some ⟨2, true, 0⟩,
    satisfied := true, satisfaction_level := 1 }

/-- Three statements S0, S1 (one iterator each) and S2 (no iterator), no parameter, and
the chained dependences `evens_dep1` and `evens_dep2`. -/
def evens_prog : PlutoProg :=
  { stmts := [sample_stmt 0, sample_stmt 1, point_stmt 2],
    deps := [evens_dep1, evens_dep2], transdeps := [],
    npar := 0, params := [], context := { ncols := 1, rows := [] },
    hProps := [{ unroll := UnrollType.NO_UNROLL, prevec := 0, band_num := -1,
                 dep_prop := PlutoLoopType.UNKNOWN, type := PlutoHypType.H_LOOP }] }

/-! ## External program description and the matrix converters (`program.c`, lines 103-245) -/

/-- The external matrix type `scoplib_matrix_p`: `p[0..NbRows-1][0..NbColumns-1]`;
`NbRows` is `p.length`. In a constraint matrix column 0 is the tag of the row
(0 for an equality, otherwise an inequality). -/
structure ScoplibMatrix where
  NbColumns : Nat
  p : List (List Int)
deriving DecidableEq, Repr

/-- Number of rows of an external matrix (`smat->NbRows`). -/
def ScoplibMatrix.NbRows (m : ScoplibMatrix) : Nat := m.p.length

/-- The matrix type `CandlMatrix` of the legacy dependence front-end, with the same
layout as `scoplib_matrix_p`. -/
structure CandlMatrix where
  NbColumns : Nat
  p : List (List Int)
deriving DecidableEq, Repr

/-- Modelled from the spec: the C conversion of an entry of an external matrix to the
entry type of the internal structures (written `(int)` at lines 185 and 238); the entry
types are declared in headers outside `program.c`, and section 6 calls the converters
bit-exact, so the conversion keeps the value. -/
def c_int (x : Int) : Int := x

/-- `scoplib_schedule_to_pluto_trans(smat)` (lines 103-120): every row must carry the
tag 0 (`assert(smat->p[i][0] == 0)`); the tag column is dropped. -/
def scoplib_schedule_to_pluto_trans (smat : ScoplibMatrix) : Except Fault PlutoMatrix :=
  match mapE (fun r : List Int =>
      if r.headD 0 = 0 then .ok r.tail else .error Fault.assertion) smat.p with
  | .error e => .error e
  | .ok rows => .ok { ncols := smat.NbColumns - 1, val := rows }

/-- `pluto_trans_to_scoplib_schedule(mat)` (lines 122-139): a tag column of zeros is
put in front. -/
def pluto_trans_to_scoplib_schedule (mat : PlutoMatrix) : ScoplibMatrix :=
  { NbColumns := mat.ncols + 1, p := mat.val.map fun r => 0 :: r }

/-- `scoplib_matrix_to_pluto_matrix(smat)` (lines 141-155): entry-wise copy. -/
def scoplib_matrix_to_pluto_matrix (smat : ScoplibMatrix) : PlutoMatrix :=
  { ncols := smat.NbColumns, val := smat.p }

/-- `pluto_matrix_to_scoplib_matrix(mat)` (lines 158-172): entry-wise copy. -/
def pluto_matrix_to_scoplib_matrix (mat : PlutoMatrix) : ScoplibMatrix :=
  { NbColumns := mat.ncols, p := mat.val }

/-- `scoplib_matrix_to_pluto_constraints(clanMatrix)` (lines 174-189):
`is_eq[i] = (p[i][0] == 0)` and `val[i][j] = (int) p[i][j+1]`. -/
def scoplib_matrix_to_pluto_constraints (clanMatrix : ScoplibMatrix) : PlutoConstraints :=
  { ncols := clanMatrix.NbColumns - 1,
    rows := clanMatrix.p.map fun (r : List Int) =>
      ({ is_eq := decide (r.headD 0 = 0), val := r.tail.map c_int } : CstRow) }

/-- `pluto_constraints_to_scoplib_matrix(cst)` (lines 191-205):
`p[i][0] = (is_eq[i] == 0)` and `p[i][j+1] = val[i][j]`. -/
def pluto_constraints_to_scoplib_matrix (cst : PlutoConstraints) : ScoplibMatrix :=
  { NbColumns := cst.ncols + 1,
    p := cst.rows.map fun r => (if r.is_eq then 0 else 1) :: r.val }

/-- `candl_matrix_to_pluto_constraints(candlMatrix)` (lines 221-245). -/
def candl_matrix_to_pluto_constraints (candlMatrix : CandlMatrix) : PlutoConstraints :=
  { ncols := candlMatrix.NbColumns - 1,
    rows := candlMatrix.p.map fun (r : List Int) =>
      ({ is_eq := decide (r.headD 0 = 0), val := r.tail.map c_int } : CstRow) }

/-- An external constraint matrix is well formed when every row has its `NbColumns`
entries, the tag column included. -/
def ScoplibMatrix.wf (m : ScoplibMatrix) : Bool :=
  decide (1 ≤ m.NbColumns) && m.p.all fun r => decide (r.length = m.NbColumns)

/-- Every tag of the external constraint matrix is 0 (equality) or 1 (inequality). -/
def ScoplibMatrix.tags01 (m : ScoplibMatrix) : Bool :=
  m.p.all fun r => decide (r.headD 0 = 0 ∨ r.headD 0 = 1)

/-! ## Legacy dependence front-end (`program.c`, lines 254-365) -/

/-- A statement of the Candl program as `deps_read` reads it: its label and its
concatenated write and read access matrices. -/
structure CandlStatement where
  label : Int
  written : CandlMatrix
  read : CandlMatrix
deriving DecidableEq, Repr

/-- One element of the list `CandlDependence *`, restricted to the fields `deps_read`
reads. -/
structure CandlDependence where
  type : DepType
  source : CandlStatement
  target : CandlStatement
  domain : CandlMatrix
  ref_source : Int
  ref_target : Int
deriving DecidableEq, Repr

/-- `get_access_position(accesses, ref)` (lines 254-266): the number of rows with a
non-zero array tag among the rows `0..ref`, minus one; `assert(num >= 0)`. Reading a
row beyond the matrix is undefined. -/
def get_access_position (accesses : CandlMatrix) (ref : Int) : Except Fault Int :=
  if ref < 0 then .error Fault.assertion
  else if ref.toNat < accesses.p.length then
    let num : Int :=
      ((accesses.p.take (ref.toNat + 1)).countP fun r => decide (r.headD 0 ≠ 0) : Nat) - 1
    if num ≥ 0 then .ok num else .error Fault.assertion
  else .error Fault.undefined

/-- The pointer `stmts[sid]->writes[num]` (or `->reads[num]`) loaded by `deps_read` and
`basic_map_extract`; a missing statement, a `NULL` array or an index outside the array
is undefined. -/
def acc_ref (stmts : List Stmt) (sid : Int) (is_write : Bool) (num : Int) :
    Except Fault (Option AccRef) := do
  let s ← cIndex stmts sid
  let arr ← cDeref (if is_write then s.writes else s.reads)
  let _ ← cIndex arr num
  pure (some { stmt := sid, is_write := is_write, num := num })

/-- Modelled from the spec: `pluto_constraints_remove_row(cst, pos)` of the constraint
library (section 4.2, all-zero rows "are dropped"; section 7): row `pos` is deleted,
`0 <= pos <= nrows - 1`. -/
def pluto_constraints_remove_row (c : PlutoConstraints) (pos : Int) :
    Except Fault PlutoConstraints :=
  if 0 ≤ pos ∧ pos < (c.nrows : Int) then
    .ok { c with rows := c.rows.eraseIdx pos.toNat }
  else .error Fault.assertion

/-- The flags `remove[r]` computed by `deps_read` (lines 333-345): row `r` has only
zero coefficients. -/
def zero_row_flags (c : PlutoConstraints) : List Bool :=
  c.rows.map fun r => r.val.all fun x => decide (x = 0)

/-- The loop `for (r = ...; r < orig_nrows; r++) if (remove[r]) {
pluto_constraints_remove_row(dpolytope, r - del_count); del_count++; }` of `deps_read`
(lines 348-353), entered at row `r` with the flags of the rows still to visit. -/
def remove_rows_loop : List Bool → Int → Int → PlutoConstraints → Except Fault PlutoConstraints
  | [], _, _, c => .ok c
  | flag :: rest, r, del_count, c =>
    if flag then
      match pluto_constraints_remove_row c (r - del_count) with
      | .error e => .error e
      | .ok c2 => remove_rows_loop rest (r + 1) (del_count + 1) c2
    else remove_rows_loop rest (r + 1) del_count c

/-- The block "Get rid of rows that are all zero" of `deps_read` (lines 331-354). -/
def drop_zero_rows (c : PlutoConstraints) : Except Fault PlutoConstraints :=
  remove_rows_loop (zero_row_flags c) 0 0 c

/-- Body of the loop of `deps_read` (lines 292-362) for the dependence number `i`;
`dep0` is the object that `pluto_dep_alloc` returned for it. -/
def deps_read_dep (prog : PlutoProg) (dep0 : Dep) (i : Nat) (candl_dep : CandlDependence) :
    Except Fault Dep := do
  let dep1 : Dep :=
    { dep0 with id := (i : Int), type := candl_dep.type, src := candl_dep.source.label,
                dest := candl_dep.target.label,
                dpolytope := candl_matrix_to_pluto_constraints candl_dep.domain }
  let accs ← (match dep1.type with
    | DepType.CANDL_RAW =>
      (get_access_position candl_dep.source.written candl_dep.ref_source).bind fun a =>
      (acc_ref prog.stmts dep1.src true a).bind fun sa =>
      (get_access_position candl_dep.target.read candl_dep.ref_target).bind fun b =>
      (acc_ref prog.stmts dep1.dest false b).bind fun da => .ok (sa, da)
    | DepType.CANDL_WAW =>
      (get_access_position candl_dep.source.written candl_dep.ref_source).bind fun a =>
      (acc_ref prog.stmts dep1.src true a).bind fun sa =>
      (get_access_position candl_dep.target.written candl_dep.ref_target).bind fun b =>
      (acc_ref prog.stmts dep1.dest true b).bind fun da => .ok (sa, da)
    | DepType.CANDL_WAR =>
      (get_access_position candl_dep.source.read candl_dep.ref_source).bind fun a =>
      (acc_ref prog.stmts dep1.src false a).bind fun sa =>
      (get_access_position candl_dep.target.written candl_dep.ref_target).bind fun b =>
      (acc_ref prog.stmts dep1.dest true b).bind fun da => .ok (sa, da)
    | DepType.CANDL_RAR =>
      (get_access_position candl_dep.source.read candl_dep.ref_source).bind fun a =>
      (acc_ref prog.stmts dep1.src false a).bind fun sa =>
      (get_access_position candl_dep.target.read candl_dep.ref_target).bind fun b =>
      (acc_ref prog.stmts dep1.dest false b).bind fun da => .ok (sa, da)
    | DepType.CANDL_UNSET => .error Fault.assertion)
  let poly ← drop_zero_rows dep1.dpolytope
  let s ← cIndex prog.stmts dep1.src
  let t ← cIndex prog.stmts dep1.dest
  cAssert ((candl_dep.domain.NbColumns : Int) - 1 = s.dim + t.dim + prog.npar + 1)
  pure { dep1 with src_acc := accs.1, dest_acc := accs.2, dpolytope := poly }

/-- The loop of `deps_read` over the list of Candl dependences, entered at index `i`. -/
def deps_read_loop (fresh : Dep) (prog : PlutoProg) : Nat → List CandlDependence →
    Except Fault (List Dep)
  | _, [] => .ok []
  | i, cd :: rest =>
    match deps_read_dep prog (pluto_dep_alloc fresh) i cd with
    | .error e => .error e
    | .ok d =>
      match deps_read_loop fresh prog (i + 1) rest with
      | .error e => .error e
      | .ok ds => .ok (d :: ds)

/-- `deps_read(candlDeps, prog)` (lines 270-365); `fresh` as in `Env`. -/
def deps_read (fresh : Dep) (candlDeps : List CandlDependence) (prog : PlutoProg) :
    Except Fault (List Dep) :=
  deps_read_loop fresh prog 0 candlDeps

/-- A one-dimensional statement over one parameter, `for (i = 0; i < M; i++)
a[i] = a[i-1]`, with one read and one write access. -/
def access_stmt (id : Int) : Stmt :=
  { id := id, dim := 1,
    domain := { ncols := 3, rows := [⟨false, [1, 0, 0]⟩, ⟨false, [-1, 1, -1]⟩] },
    trans := some { ncols := 3, val := [[1, 0, 0]] }, hyp_types := [PlutoHypType.H_LOOP],
    iterators := [some "i"], is_orig_loop := [true],
    reads := some [{ mat := { ncols := 3, val := [[1, 0, -1]] }, name := some "a" }],
    writes := some [{ mat := { ncols := 3, val := [[1, 0, 0]] }, name := some "a" }] }

/-- Two copies of `access_stmt` under the parameter `M`, with a flow dependence from
the first to the second and an output self-dependence of the second. -/
def access_prog : PlutoProg :=
  { stmts := [access_stmt 0, access_stmt 1],
    deps := [{ id := 0, src := 0, dest := 1, type := DepType.CANDL_RAW,
               dpolytope := { ncols := 4, rows := [⟨true, [1, -1, 0, 1]⟩, ⟨false, [1, 0, 0, 0]⟩] },
               src_acc := some ⟨0, true, 0⟩, dest_acc := some ⟨1, false, 0⟩,
               satisfied := false, satisfaction_level := -1 }],
    transdeps := [{ id := 0, src := 1, dest := 1, type := DepType.CANDL_WAW,
                    dpolytope := { ncols := 4, rows := [⟨false, [-1, 1, 0, -1]⟩] },
                    src_acc := some ⟨1, true, 0⟩, dest_acc := some ⟨1, true, 0⟩,
                    satisfied := false, satisfaction_level := -1 }],
    npar := 1, params := ["M"], context := { ncols := 2, rows := [⟨false, [1, -1]⟩] },
    hProps := [{ unroll := UnrollType.NO_UNROLL, prevec := 0, band_num := -1,
                 dep_prop := PlutoLoopType.UNKNOWN, type := PlutoHypType.H_LOOP }] }

/-- The Candl view of `access_stmt`: one write and one read of array number 1. -/
def access_candl_stmt (label : Int) : CandlStatement :=
  { label := label, written := { NbColumns := 4, p := [[1, 1, 0, 0]] },
    read := { NbColumns := 4, p := [[1, 1, 0, -1]] } }

/-- A Candl flow dependence between the statements of `access_prog` whose domain has
an all-zero row between two informative rows. -/
def access_candl_dep : CandlDependence :=
  { type := DepType.CANDL_RAW, source := access_candl_stmt 0, target := access_candl_stmt 1,
    domain := { NbColumns := 5, p := [[0, 1, -1, 0, 1], [1, 0, 0, 0, 0], [1, 1, 0, 0, 0]] },
    ref_source := 0, ref_target := 0 }

/-- A sufficient condition for `pluto_prog_add_param` to pass the checks of the
library calls, implied by invariants 1 to 3 together with a context over the
parameters: no negative dimensionality, every domain, schedule, dependence polytope
of the main list and the context have more than `npar` columns, every statement has a
schedule, and every access matrix has at least `dim + npar` columns. -/
def add_param_ready (prog : PlutoProg) : Bool :=
  prog.stmts.all (fun s =>
    decide (0 ≤ s.dim) && decide (prog.npar + 1 ≤ (s.domain.ncols : Int)) &&
    (match s.trans with
      | some t => decide (prog.npar + 1 ≤ (t.ncols : Int))
      | none => false) &&
    (s.writes.getD []).all (fun a => decide (s.dim + prog.npar ≤ (a.mat.ncols : Int))) &&
    (s.reads.getD []).all (fun a => decide (s.dim + prog.npar ≤ (a.mat.ncols : Int)))) &&
  prog.deps.all (fun d => decide (prog.npar + 1 ≤ (d.dpolytope.ncols : Int))) &&
  decide (prog.npar + 1 ≤ (prog.context.ncols : Int))

/-- Every row of the constraint system stores exactly `ncols` coefficients (the rows of
`val` are allocated with that many entries). -/
def PlutoConstraints.wf (c : PlutoConstraints) : Bool :=
  c.rows.all fun r => decide (r.val.length = c.ncols)

/-- Every row of the matrix stores exactly `ncols` entries. -/
def PlutoMatrix.wf (m : PlutoMatrix) : Bool :=
  m.val.all fun r => decide (r.length = m.ncols)

/-- The arrays of a statement have the sizes its counters announce: `dim` is not
negative, `iterators` and `is_orig_loop` hold `dim` entries, the statement has a
schedule, and the domain, the schedule and every access matrix store full rows. -/
def Stmt.wf (s : Stmt) : Bool :=
  decide (0 ≤ s.dim) && s.domain.wf &&
  (match s.trans with
    | some t => t.wf
    | none => false) &&
  (s.writes.getD []).all (fun a => a.mat.wf) && (s.reads.getD []).all (fun a => a.mat.wf) &&
  decide (s.iterators.length = s.dim.toNat) && decide (s.is_orig_loop.length = s.dim.toNat)

/-- Every statement is well formed and every dependence polytope of the main and of
the transitive list stores full rows. -/
def PlutoProg.wf (prog : PlutoProg) : Bool :=
  prog.stmts.all Stmt.wf && prog.deps.all (fun d => d.dpolytope.wf) &&
  prog.transdeps.all (fun d => d.dpolytope.wf)

/-- Invariant 1 on the access matrices, with `npar` not negative: every access matrix
of every statement has `dim + npar + 1` columns. -/
def acc_cols_ok (prog : PlutoProg) : Bool :=
  decide (0 ≤ prog.npar) &&
  prog.stmts.all fun s =>
    (s.writes.getD []).all (fun a => decide ((a.mat.ncols : Int) = s.dim + prog.npar + 1)) &&
    (s.reads.getD []).all (fun a => decide ((a.mat.ncols : Int) = s.dim + prog.npar + 1))

/-- A variant of `sample_prog` whose main list holds one input (RAR) dependence from
statement 0 to statement 1, not satisfied at the boundary level of depth 1. -/
def rar_prog : PlutoProg :=
  { sample_prog with
    deps := [sample_dep 0 0 1 DepType.CANDL_RAR ⟨0, false, 0⟩ ⟨1, false, 0⟩ 0
               [⟨true, [1, -1, 0]⟩]] }

/-- A variant of `sample_prog` whose main list holds an anti dependence from statement
0 to statement 1 (level 0) followed by a flow self-dependence of statement 1
(level 1) that starts at the write the first one ends at. -/
def war_raw_prog : PlutoProg :=
  { sample_prog with
    deps := [sample_dep 0 0 1 DepType.CANDL_WAR ⟨0, false, 0⟩ ⟨1, true, 0⟩ 0
               [⟨true, [1, -1, 0]⟩],
             sample_dep 1 1 1 DepType.CANDL_RAW ⟨1, true, 0⟩ ⟨1, false, 0⟩ 1 []] }

/-! ## Solver labels and the decoder `basic_map_extract` (`program.c`, lines 979-1053, 1129-1178)

A C string is the list of its characters before the terminating zero. -/

/-- Modelled from the spec: the conversion `%d` of `snprintf` (C standard library):
the decimal digits of the value, after a minus sign when it is negative. -/
def fmt_d (i : Int) : List Char :=
  if i < 0 then '-' :: Nat.toDigits 10 i.natAbs else Nat.toDigits 10 i.toNat

/-- Modelled from the spec: the effect of `snprintf(name, sizeof(name), ...)` on the
buffer `char name[20]`: at most 19 characters of the formatted text are stored. -/
def snprintf_name (text : List Char) : List Char := text.take 19

/-- The label `snprintf(name, sizeof(name), "S_%d", i)` of the compact encoding
(line 1137). -/
def compact_label (i : Int) : List Char :=
  snprintf_name (['S', '_'] ++ fmt_d i)

/-- The letter that stands for the access kind in a per-access label. -/
def AccKind.letter : AccKind → Char
  | AccKind.read => 'r'
  | AccKind.write => 'w'

/-- The labels `snprintf(name, sizeof(name), "S_%d_r%d", i, racc_num)` and
`snprintf(name, sizeof(name), "S_%d_w%d", i, wacc_num)` of the per-access encoding
(lines 1175-1179). -/
def access_label (kind : AccKind) (i n : Int) : List Char :=
  snprintf_name (['S', '_'] ++ fmt_d i ++ ['_', kind.letter] ++ fmt_d n)

/-- Value of a decimal digit character. -/
def digit_val (c : Char) : Option Nat :=
  if 48 ≤ c.toNat ∧ c.toNat ≤ 57 then some (c.toNat - 48) else none

/-- The digit loop of `atoi`: the value of the longest prefix of digits, continuing
from the value `acc` read so far. -/
def atoi_digits : List Char → Nat → Nat
  | [], acc => acc
  | c :: rest, acc =>
    match digit_val c with
    | some d => atoi_digits rest (10 * acc + d)
    | none => acc

/-- Modelled from the spec: `atoi` of the C standard library: white space is skipped,
an optional sign is read, then the longest run of decimal digits; the behaviour is
undefined when the value does not fit an `int`. -/
def atoi (s : List Char) : Except Fault Int :=
  let s1 := s.dropWhile fun c => decide (c.toNat = 32 ∨ (9 ≤ c.toNat ∧ c.toNat ≤ 13))
  let v : Int := match s1 with
    | [] => 0
    | c :: rest =>
      if c = '-' then -(atoi_digits rest 0 : Int)
      else if c = '+' then (atoi_digits rest 0 : Int)
      else (atoi_digits s1 0 : Int)
  if -2147483648 ≤ v ∧ v ≤ 2147483647 then .ok v else .error Fault.undefined

/-- The expression `atoi(isl_basic_map_get_tuple_name(bmap, ...) + 2)` (lines 1004-1005);
a name shorter than two characters is read beyond its end. -/
def label_stmt_id (name : List Char) : Except Fault Int :=
  if 2 ≤ name.length then atoi (name.drop 2) else .error Fault.undefined

/-- The loop `while (*name != 0 && *(name++) != '_');` (lines 1016, 1021): the text
that follows the first underscore, or the empty text when there is none. -/
def scan_underscore : List Char → List Char
  | [] => []
  | c :: rest => if c = '_' then rest else scan_underscore rest

/-- Lines 1015-1018 (and 1020-1023): the access number of a label, read after the
character that follows the first underscore behind `S_`; `assert(0)` when nothing
follows that underscore. -/
def label_acc_num (name : List Char) : Except Fault Int :=
  if 2 ≤ name.length then
    match scan_underscore (name.drop 2) with
    | [] => .error Fault.assertion
    | _ :: rest => atoi rest
  else .error Fault.undefined

/-- The test `stmts[dep->src]->reads != NULL && stmts[dep->dest]->reads != NULL`
(line 1011), the second operand being evaluated only when the first holds. -/
def accesses_available (stmts : List Stmt) (src dest : Int) : Except Fault Bool :=
  match cIndex stmts src with
  | .error e => .error e
  | .ok s =>
    if s.reads.isSome then
      match cIndex stmts dest with
      | .error e => .error e
      | .ok t => .ok t.reads.isSome
    else .ok false

/-- The `switch (info->type)` of `basic_map_extract` (lines 1025-1044): the source and
target access pointers. -/
def extract_accs (stmts : List Stmt) (type : DepType) (src dest src_acc_num dest_acc_num : Int) :
    Except Fault (Option AccRef × Option AccRef) :=
  match type with
  | DepType.CANDL_RAW =>
    (acc_ref stmts src true src_acc_num).bind fun sa =>
    (acc_ref stmts dest false dest_acc_num).bind fun da => .ok (sa, da)
  | DepType.CANDL_WAW =>
    (acc_ref stmts src true src_acc_num).bind fun sa =>
    (acc_ref stmts dest true dest_acc_num).bind fun da => .ok (sa, da)
  | DepType.CANDL_WAR =>
    (acc_ref stmts src false src_acc_num).bind fun sa =>
    (acc_ref stmts dest true dest_acc_num).bind fun da => .ok (sa, da)
  | DepType.CANDL_RAR =>
    (acc_ref stmts src false src_acc_num).bind fun sa =>
    (acc_ref stmts dest false dest_acc_num).bind fun da => .ok (sa, da)
  | DepType.CANDL_UNSET => .error Fault.assertion

/-- `basic_map_extract(bmap, user)` (lines 979-1053) on the dependence object
`dep0 = info->deps[info->index]`, with `stmts = info->stmts`, `type = info->type` and
`index = info->index`. What the function obtains from the solver is taken as
parameters: `in_name` and `out_name` are the tuple names of the input and of the
output space of `bmap`, `poly` is `isl_basic_map_to_pluto_constraints(bmap)`. -/
def basic_map_extract (stmts : List Stmt) (type : DepType) (index : Int) (dep0 : Dep)
    (in_name out_name : List Char) (poly : PlutoConstraints) : Except Fault Dep := do
  let src ← label_stmt_id in_name
  let dest ← label_stmt_id out_name
  let dep1 : Dep := { dep0 with id := index, dpolytope := poly, type := type,
                                src := src, dest := dest }
  let avail ← accesses_available stmts src dest
  let accs ← (if avail then
      (label_acc_num in_name).bind fun a =>
      (label_acc_num out_name).bind fun b => extract_accs stmts type src dest a b
    else .ok (none, none))
  pure { dep1 with src_acc := accs.1, dest_acc := accs.2 }

/-! ## Front-end adapter (`program.c`, lines 402-533, 1684-1821, 2396-2449) -/

/-- An element of the lists returned by `scoplib_access_get_write_access_list` and
`scoplib_access_get_read_access_list`: the access matrix and the identifier of its
symbol (`none` when `symbol` is `NULL`). -/
structure ScoplibAccess where
  matrix : ScoplibMatrix
  symbol : Option String
deriving DecidableEq, Repr

/-- A `scoplib_statement_p` list element, restricted to what the adapter reads;
`domain` is `domain->elt`, `write_list` and `read_list` are the access lists that the
ScopLib accessors return for the statement. -/
structure ScoplibStatement where
  nb_iterators : Int
  domain : ScoplibMatrix
  schedule : ScoplibMatrix
  iterators : List String
  write_list : List ScoplibAccess
  read_list : List ScoplibAccess
deriving DecidableEq, Repr

/-- A `scoplib_scop_p`, restricted to what the adapter reads. -/
structure Scop where
  nb_parameters : Int
  parameters : List String
  context : ScoplibMatrix
  statement : List ScoplibStatement
deriving DecidableEq, Repr

/-- Modelled from the spec: `pluto_matrix_dup` of the matrix library (section 2,
"duplicate"): a fresh copy with the same contents. -/
def pluto_matrix_dup (m : PlutoMatrix) : PlutoMatrix := m

/-- `pluto_stmt_alloc(dim, domain, trans)` (lines 2396-2449) for a non-`NULL` domain.
`is_orig_loop` is allocated but not initialised: `junk` is the content of the block. -/
def pluto_stmt_alloc (junk : Nat → Bool) (dim : Int) (domain : PlutoConstraints)
    (trans : Option PlutoMatrix) : Except Fault Stmt := do
  cAssert (trans ≠ none)
  let t ← cDeref trans
  let t1 := pluto_matrix_dup t
  pure { id := -1, dim := dim, domain := pluto_constraints_dup domain, trans := some t1,
         hyp_types := List.replicate t1.nrows PlutoHypType.H_LOOP,
         iterators := if dim ≥ 1 then List.replicate dim.toNat none else [],
         is_orig_loop := if dim ≥ 1 then (List.range dim.toNat).map junk else [],
         reads := none, writes := none }

/-- The loop `for (j = curr_sched_rows; j < max_sched_rows; j++)
pluto_stmt_add_hyperplane(stmts[i], H_SCALAR, j)` of `scoplib_to_pluto_stmts`
(lines 439-442), with `k` iterations left and the loop variable at `j`. -/
def add_hyperplanes_from : Nat → Int → Stmt → Except Fault Stmt
  | 0, _, s => .ok s
  | k + 1, j, s =>
    match pluto_stmt_add_hyperplane s PlutoHypType.H_SCALAR j with
    | .error e => .error e
    | .ok s2 => add_hyperplanes_from k (j + 1) s2

/-- The `PlutoAccess` built for one element of an access list (lines 486-516). -/
def scoplib_access_to_pluto (a : ScoplibAccess) : PlutoAccess :=
  { mat := scoplib_matrix_to_pluto_matrix a.matrix, name := a.symbol }

/-- The loop `max_sched_rows = PLMAX(max_sched_rows, scop_stmt->schedule->NbRows)`
(lines 419-423 and 1730-1734). -/
def max_sched_rows (stmts : List ScoplibStatement) : Nat :=
  stmts.foldl (fun m s => max m s.schedule.NbRows) 0

/-- Body of the main loop of `scoplib_to_pluto_stmts` (lines 430-529) for the
statement number `i`. The two access arrays are taken as allocated, also when they
hold no entry. -/
def scoplib_to_pluto_stmt (junk : Nat → Bool) (npar : Int) (max_rows : Nat) (i : Nat)
    (scop_stmt : ScoplibStatement) : Except Fault Stmt := do
  let domain := scoplib_matrix_to_pluto_constraints scop_stmt.domain
  let trans ← scoplib_schedule_to_pluto_trans scop_stmt.schedule
  let stmt0 ← pluto_stmt_alloc junk scop_stmt.nb_iterators domain (some trans)
  let t0 ← cDeref stmt0.trans
  let stmt1 ← add_hyperplanes_from (max_rows - t0.nrows) (t0.nrows : Int) stmt0
  cAssert ((scop_stmt.domain.NbColumns : Int) - 1 = stmt1.dim + npar + 1)
  let iterators ← mapE (fun j : Nat => (cIndex scop_stmt.iterators (j : Int)).map some)
    (List.range stmt1.dim.toNat)
  pure { stmt1 with id := (i : Int),
                    is_orig_loop := stmt1.is_orig_loop.map fun _ => true,
                    iterators := iterators,
                    writes := some (scop_stmt.write_list.map scoplib_access_to_pluto),
                    reads := some (scop_stmt.read_list.map scoplib_access_to_pluto) }

/-- The main loop of `scoplib_to_pluto_stmts`, entered at statement number `i`. -/
def scoplib_to_pluto_stmts_loop (junk : Nat → Bool) (npar : Int) (max_rows : Nat) :
    Nat → List ScoplibStatement → Except Fault (List Stmt)
  | _, [] => .ok []
  | i, st :: rest =>
    match scoplib_to_pluto_stmt junk npar max_rows i st with
    | .error e => .error e
    | .ok s =>
      match scoplib_to_pluto_stmts_loop junk npar max_rows (i + 1) rest with
      | .error e => .error e
      | .ok ss => .ok (s :: ss)

/-- `scoplib_to_pluto_stmts(scop)` (lines 402-533); for an empty statement list the
function returns `NULL`, the empty array. -/
def scoplib_to_pluto_stmts (junk : Nat → Bool) (scop : Scop) : Except Fault (List Stmt) :=
  if scop.statement.length = 0 then .ok []
  else scoplib_to_pluto_stmts_loop junk scop.nb_parameters (max_sched_rows scop.statement) 0
    scop.statement

/-- The options read by `scop_to_pluto_prog` itself. -/
structure FrontOptions where
  context : Int
  isldep : Int
  forceparallel : Int
deriving DecidableEq, Repr

/-- What `scop_to_pluto_prog` obtains from outside the modelled code: `junk` is the
content of freshly allocated blocks, `compute_deps` gives the main and the transitive
dependence list that `compute_deps` (lines 1094-1353) stores in the program after it
has driven the external solver, and `candl_dependence` is the list that the legacy
analysis (`candl_program_convert_scop`, `candl_dependence`) returns. -/
structure FrontEnv where
  junk : Nat → Bool
  compute_deps : Scop → PlutoProg → Except Fault (List Dep × List Dep)
  candl_dependence : Scop → List CandlDependence

/-- Modelled from the spec: `pluto_constraints_add_inequality` of the constraint
library (section 2, supplied library): an inequality row with all coefficients 0 is
appended to the system. -/
def pluto_constraints_add_inequality (c : PlutoConstraints) : PlutoConstraints :=
  { c with rows := c.rows ++ [{ is_eq := false, val := List.replicate c.ncols 0 }] }

/-- The assignment `cst->val[r][c] = v`; outside the system it is undefined. -/
def PlutoConstraints.setVal (cst : PlutoConstraints) (r c : Int) (v : Int) :
    Except Fault PlutoConstraints :=
  if 0 ≤ r ∧ r < (cst.nrows : Int) ∧ 0 ≤ c ∧ c < (cst.ncols : Int) then
    let row : CstRow := match cst.rows.get? r.toNat with
      | some row => { row with val := row.val.set c.toNat v }
      | none => { is_eq := false, val := [] }
    .ok { cst with rows := cst.rows.set r.toNat row }
  else .error Fault.undefined

/-- The loop of lines 1719-1723 of `scop_to_pluto_prog`, with `k` iterations left and
the loop variable at `i`; `bound` is `options->context`. -/
def context_loop (bound : Int) : Nat → Int → PlutoConstraints → Except Fault PlutoConstraints
  | 0, _, c => .ok c
  | k + 1, i, c =>
    let c1 := pluto_constraints_add_inequality c
    match c1.setVal i i 1 with
    | .error e => .error e
    | .ok c2 =>
      match c2.setVal i ((c2.ncols : Int) - 1) (-bound) with
      | .error e => .error e
      | .ok c3 => context_loop bound k (i + 1) c3

/-- The loop "Add hyperplanes" of `scop_to_pluto_prog` (lines 1768-1772), with `k`
iterations left and the loop variable at `i`. -/
def front_hyperplanes : Nat → Nat → PlutoProg → Except Fault PlutoProg
  | 0, _, p => .ok p
  | k + 1, i, p =>
    match pluto_prog_add_hyperplane p (p.num_hyperplanes : Int) PlutoHypType.H_UNKNOWN with
    | .error e => .error e
    | .ok p1 =>
      match cIndex p1.hProps ((p1.num_hyperplanes : Int) - 1) with
      | .error e => .error e
      | .ok h =>
        let h2 : HyperplaneProperties :=
          { h with type := if i % 2 ≠ 0 then PlutoHypType.H_LOOP else PlutoHypType.H_SCALAR }
        front_hyperplanes k (i + 1)
          { p1 with hProps := p1.hProps.set (p1.num_hyperplanes - 1) h2 }

/-- One step `if (options->forceparallel & bit) pluto_force_parallelize(prog, depth)`
of lines 1800-1817; `bit` is the bit number. -/
def force_parallel_step (env : Env) (global : PlutoOptions) (fuel : Nat) (forceparallel : Int)
    (bit : Nat) (depth : Int) (prog : PlutoProg) : Except Fault PlutoProg :=
  if forceparallel.toNat.testBit bit then pluto_force_parallelize env global fuel prog depth
  else .ok prog

/-- Lines 1797-1818 of `scop_to_pluto_prog`: forced parallelisation dimension by
dimension, from the innermost to the outermost. -/
def force_parallel_chain (env : Env) (global : PlutoOptions) (fuel : Nat) (forceparallel : Int)
    (prog : PlutoProg) : Except Fault PlutoProg :=
  if forceparallel ≥ 1 then do
    let p6 ← force_parallel_step env global fuel forceparallel 5 6 prog
    let p5 ← force_parallel_step env global fuel forceparallel 4 5 p6
    let p4 ← force_parallel_step env global fuel forceparallel 3 4 p5
    let p3 ← force_parallel_step env global fuel forceparallel 2 3 p4
    let p2 ← force_parallel_step env global fuel forceparallel 1 2 p3
    force_parallel_step env global fuel forceparallel 0 1 p2
  else .ok prog

/-- `scop_to_pluto_prog(scop, options)` (lines 1684-1821), without the data-name table
and the statement texts, which the model does not hold. `global` is the global option
record that `pluto_force_parallelize` reads and `fuel` bounds its loops. The first
statement is read before the statement count is tested, so an empty statement list
is undefined. -/
def scop_to_pluto_prog (fenv : FrontEnv) (env : Env) (global : PlutoOptions) (fuel : Nat)
    (scop : Scop) (options : FrontOptions) : Except Fault PlutoProg := do
  let npar := scop.nb_parameters
  let params ← mapE (fun i : Nat => cIndex scop.parameters (i : Int)) (List.range npar.toNat)
  let context0 := scoplib_matrix_to_pluto_constraints scop.context
  let context ← (if options.context ≠ -1 then
      context_loop options.context npar.toNat 0 context0
    else .ok context0)
  let _ ← cIndex scop.statement 0
  let max_rows := max_sched_rows scop.statement
  let stmts ← scoplib_to_pluto_stmts fenv.junk scop
  let prog1 : PlutoProg :=
    { stmts := stmts, deps := [], transdeps := [], npar := npar, params := params,
      context := context, hProps := [] }
  let prog2 ← (if options.isldep ≠ 0 then
      (fenv.compute_deps scop prog1).map fun r =>
        { prog1 with deps := r.1, transdeps := r.2 }
    else
      (deps_read env.fresh (fenv.candl_dependence scop) prog1).map fun deps =>
        { prog1 with deps := deps, transdeps := [] })
  let prog3 ← (if prog2.nstmts ≥ 1 then front_hyperplanes max_rows 0 prog2 else .ok prog2)
  force_parallel_chain env global fuel options.forceparallel prog3

/-- The input shape under which the statement loop of the adapter passes its checks:
every schedule row has tag 0, the domain has `nb_iterators + npar + 2` columns (tag
included), and the statement names at least `nb_iterators` iterators. -/
def scop_stmt_valid (npar : Int) (st : ScoplibStatement) : Bool :=
  st.schedule.p.all (fun r => decide (r.headD 0 = 0)) &&
  decide ((st.domain.NbColumns : Int) - 1 = st.nb_iterators + npar + 1) &&
  decide (st.nb_iterators.toNat ≤ st.iterators.length)

/-- An external description of two statements under one parameter: the first has one
iterator and three schedule rows, the second no iterator and one schedule row. -/
def sample_scop : Scop :=
  { nb_parameters := 1, parameters := ["N"], context := { NbColumns := 3, p := [] },
    statement :=
      [{ nb_iterators := 1,
         domain := { NbColumns := 4, p := [[1, 1, 0, 0], [1, -1, 1, -1]] },
         schedule := { NbColumns := 4, p := [[0, 0, 0, 0], [0, 1, 0, 0], [0, 0, 0, 0]] },
         iterators := ["i"],
         write_list := [{ matrix := { NbColumns := 4, p := [[1, 1, 0, 0]] },
                          symbol := some "a" }],
         read_list := [] },
       { nb_iterators := 0,
         domain := { NbColumns := 3, p := [] },
         schedule := { NbColumns := 3, p := [[0, 0, 1]] },
         iterators := [],
         write_list := [{ matrix := { NbColumns := 3, p := [[1, 0, 0]] },
                          symbol := some "a" }],
         read_list := [] }] }

/-- A front-end environment whose dependence analyses find no dependence. -/
def sample_front_env : FrontEnv :=
  { junk := fun _ => false, compute_deps := fun _ _ => .ok ([], []),
    candl_dependence := fun _ => [] }

/-- The depths for which lines 1797-1818 of `scop_to_pluto_prog` call
`pluto_force_parallelize`, in the order of the calls. -/
def force_parallel_depths (forceparallel : Int) : List Int :=
  if forceparallel ≥ 1 then
    (if forceparallel.toNat.testBit 5 then [6] else []) ++
    (if forceparallel.toNat.testBit 4 then [5] else []) ++
    (if forceparallel.toNat.testBit 3 then [4] else []) ++
    (if forceparallel.toNat.testBit 2 then [3] else []) ++
    (if forceparallel.toNat.testBit 1 then [2] else []) ++
    (if forceparallel.toNat.testBit 0 then [1] else [])
  else []

/-! ## Identity schedule (`program.c`, lines 1356-1369) -/

/-- The assignment `smat->p[r][c] = v`; outside the matrix it is undefined. -/
def ScoplibMatrix.setVal (m : ScoplibMatrix) (r c : Int) (v : Int) :
    Except Fault ScoplibMatrix :=
  if 0 ≤ r ∧ r < (m.NbRows : Int) ∧ 0 ≤ c ∧ c < (m.NbColumns : Int) then
    .ok { m with p := m.p.set r.toNat ((m.p.getD r.toNat []).set c.toNat v) }
  else .error Fault.undefined

/-- The loop `for (i = ...; i < dim; i++) smat->p[2*i-1][i] = 1` of
`get_identity_schedule` (lines 1364-1365), with `k` iterations left and the loop
variable at `i`. -/
def identity_schedule_loop : Nat → Int → ScoplibMatrix → Except Fault ScoplibMatrix
  | 0, _, m => .ok m
  | k + 1, i, m =>
    match m.setVal (2 * i - 1) i 1 with
    | .error e => .error e
    | .ok m2 => identity_schedule_loop k (i + 1) m2

/-- `get_identity_schedule(dim, npar)` (lines 1356-1369): a `(2*dim+1) x (dim+npar+2)`
matrix (`scoplib_matrix_malloc`) set to zero, then the loop that starts at `i = 1`. -/
def get_identity_schedule (dim npar : Int) : Except Fault ScoplibMatrix :=
  identity_schedule_loop (dim - 1).toNat 1
    { NbColumns := (dim + npar + 1 + 1).toNat,
      p := List.replicate (2 * dim + 1).toNat (List.replicate (dim + 1 + npar + 1).toNat 0) }

/-- Two statements without iterator and without access references, with an unchained
pair of dependences: `S0 -> S0` below the boundary level of depth 1 and `S1 -> S1` at
that level, both with unset access references. -/
def unset_acc_prog : PlutoProg :=
  { sample_prog with
    deps := [{ id := 0, src := 0, dest := 0, type := DepType.CANDL_RAW,
               dpolytope := { ncols := 3, rows := [] }, src_acc := none, dest_acc := none,
               satisfied := true, satisfaction_level := 0 },
             { id := 1, src := 1, dest := 1, type := DepType.CANDL_RAW,
               dpolytope := { ncols := 3, rows := [] }, src_acc := none, dest_acc := none,
               satisfied := true, satisfaction_level := 1 }] }

/-! ## Access stepping (`program.c`, lines 791-800, 1166-1227) -/

/-- The loop of `access_len` (lines 795-797) over the rows that follow `first`: the
number of rows passed before a row with a non-zero first entry, or before the end. -/
def access_len_loop : List (List Int) → Nat
  | [] => 0
  | r :: rest => if r.headD 0 ≠ 0 then 0 else 1 + access_len_loop rest

/-- `access_len(access, first)` (lines 791-800): the distance from `first` to the next
row with a non-zero first entry, or to the end of the matrix. A `first` below -1 makes
the loop read a row with a negative index. -/
def access_len (access : ScoplibMatrix) (first : Int) : Except Fault Int :=
  if first + 1 < 0 then .error Fault.undefined
  else .ok (1 + (access_len_loop (access.p.drop (first + 1).toNat) : Int))

/-- The loop `for (pos = 0; pos < read->NbRows + write->NbRows; pos += len)` of
`compute_deps` (lines 1166-1227), restricted to the position and the counters: for
every access visited, its kind, its first row in its own matrix and the ordinal
(`racc_num` or `wacc_num`) written into its label; the last component is `pos` at loop
exit. `fuel` bounds the number of iterations. -/
def access_label_loop (read write : ScoplibMatrix) :
    Nat → Int → Int → Int → Except Fault (List (AccKind × Int × Int) × Int)
  | 0, _, _, _ => .error Fault.fuel
  | fuel + 1, pos, racc_num, wacc_num =>
    if pos < (read.NbRows : Int) + (write.NbRows : Int) then
      if pos < (read.NbRows : Int) then
        match access_len read pos with
        | .error e => .error e
        | .ok len =>
          match access_label_loop read write fuel (pos + len) (racc_num + 1) wacc_num with
          | .error e => .error e
          | .ok r => .ok ((AccKind.read, pos, racc_num) :: r.1, r.2)
      else
        match access_len write (pos - (read.NbRows : Int)) with
        | .error e => .error e
        | .ok len =>
          match access_label_loop read write fuel (pos + len) racc_num (wacc_num + 1) with
          | .error e => .error e
          | .ok r => .ok ((AccKind.write, pos - (read.NbRows : Int), wacc_num) :: r.1, r.2)
    else .ok ([], pos)

/-- The rows of an access matrix that start an access (non-zero array tag), as
positions counted from `base`, in increasing order. -/
def tagged_rows : List (List Int) → Nat → List Nat
  | [], _ => []
  | r :: rest, base =>
    if r.headD 0 ≠ 0 then base :: tagged_rows rest (base + 1) else tagged_rows rest (base + 1)

/-- The Candl view of a ScopLib access matrix (same rows). -/
def ScoplibMatrix.toCandl (m : ScoplibMatrix) : CandlMatrix :=
  { NbColumns := m.NbColumns, p := m.p }

/-- The labels of the accesses that start at the positions `rows`, numbered from
`k`. -/
def numbered (kind : AccKind) : List Nat → Nat → List (AccKind × Int × Int)
  | [], _ => []
  | r :: rest, k => (kind, (r : Int), (k : Int)) :: numbered kind rest (k + 1)

/-- An access matrix with two accesses: rows 0-1 (array 1, two rows) and row 2
(array 2). -/
def sample_access_matrix : ScoplibMatrix :=
  { NbColumns := 4, p := [[1, 1, 0, 0], [0, 0, 0, 1], [2, 1, 0, -1]] }

/-! ## Bound expressions (`program.c`, lines 2631-2878) -/

/-- Modelled from the spec: `pluto_constraints_alloc(max_rows, max_cols)` of the
constraint library (section 2): a system over `max_cols` columns with room for
`max_rows` rows and no row yet (the callers at lines 179-180 and 226-227 set `nrows`
themselves, and lines 2862-2863 test `nrows` after filling). -/
def pluto_constraints_alloc (_max_rows max_cols : Nat) : PlutoConstraints :=
  { ncols := max_cols, rows := [] }

/-- Modelled from the spec: `pluto_constraints_select_row(cst, pos)` of the constraint
library (section 2): a new system that holds row `pos` of `cst` alone. -/
def pluto_constraints_select_row (cst : PlutoConstraints) (pos : Int) :
    Except Fault PlutoConstraints :=
  if 0 ≤ pos then
    match cst.rows.get? pos.toNat with
    | some r => .ok { ncols := cst.ncols, rows := [r] }
    | none => .error Fault.assertion
  else .error Fault.assertion

/-- Modelled from the spec: `pluto_constraints_negate_row(cst, pos)` of the constraint
library (section 2): every coefficient of row `pos`, the constant included, changes
sign. -/
def pluto_constraints_negate_row (cst : PlutoConstraints) (pos : Int) :
    Except Fault PlutoConstraints :=
  if 0 ≤ pos then
    match cst.rows.get? pos.toNat with
    | some r =>
      .ok { cst with rows := cst.rows.set pos.toNat { r with val := r.val.map fun x => -x } }
    | none => .error Fault.assertion
  else .error Fault.assertion

/-- The bound type `MINF` (line 2630). -/
def MINF : Int := 0

/-- The bound type `MAXF` (line 2631). -/
def MAXF : Int := 1

/-- `get_expr(cst, pos, params, bound_type)` (lines 2636-2706), restricted to what
decides whether it returns: the read of `cst->val[pos][0]` and the assertion on its
sign (lines 2647-2648). The text of the expression built afterwards is not
modelled. -/
def get_expr (cst : PlutoConstraints) (pos : Int) (bound_type : Int) : Except Fault Unit :=
  if 0 ≤ pos then
    match cst.rows.get? pos.toNat with
    | none => .error Fault.undefined
    | some r =>
      match r.val.head? with
      | none => .error Fault.undefined
      | some v =>
        if bound_type = MINF then
          if v ≤ -1 then .ok () else .error Fault.assertion
        else
          if v ≥ 1 then .ok () else .error Fault.assertion
  else .error Fault.undefined

/-- `get_func_of_expr(cst, offset, bound_type, params)` (lines 2713-2740), restricted
to the calls of `get_expr` it makes: one for row `offset`, then the recursive call
for `offset + 1` unless row `offset` is the last one. `fuel` bounds the depth of the
recursion. -/
def get_func_of_expr (cst : PlutoConstraints) : Nat → Int → Int → Except Fault Unit
  | 0, _, _ => .error Fault.fuel
  | fuel + 1, offset, bound_type =>
    if (cst.nrows : Int) - offset = 1 then get_expr cst offset bound_type
    else
      match get_expr cst offset bound_type with
      | .error e => .error e
      | .ok _ => get_func_of_expr cst fuel (offset + 1) bound_type

/-- One iteration of the loop at lines 2838-2860 of `get_lb_ub_expr`: row `i` of
`dup` is added to the lower bounds `lbs` and, negated, to the upper bounds `ubs`
when it is an equality with a non-zero leading coefficient; then it is added to
`lbs` when the leading coefficient is at least 1 and to `ubs` when it is at
most -1. -/
def lb_ub_step (dup : PlutoConstraints) (acc : PlutoConstraints × PlutoConstraints)
    (i : Nat) : Except Fault (PlutoConstraints × PlutoConstraints) :=
  match dup.rows.get? i with
  | none => .error Fault.undefined
  | some r =>
    match r.val.head? with
    | none => .error Fault.undefined
    | some v => do
      let acc1 ←
        if r.is_eq = true ∧ v ≠ 0 then do
          let lb ← pluto_constraints_select_row dup i
          let lbs ← pluto_constraints_add acc.1 lb
          let ub ← pluto_constraints_select_row dup i
          let ub ← pluto_constraints_negate_row ub 0
          let ubs ← pluto_constraints_add acc.2 ub
          pure (lbs, ubs)
        else pure acc
      if v ≥ 1 then do
        let lb ← pluto_constraints_select_row dup i
        let lbs ← pluto_constraints_add acc1.1 lb
        pure (lbs, acc1.2)
      else if v ≤ -1 then do
        let ub ← pluto_constraints_select_row dup i
        let ubs ← pluto_constraints_add acc1.2 ub
        pure (acc1.1, ubs)
      else pure acc1

/-- The lower-bound and upper-bound systems that lines 2835-2860 of `get_lb_ub_expr`
collect from the projected system `dup`. -/
def lb_ub_rows (dup : PlutoConstraints) :
    Except Fault (PlutoConstraints × PlutoConstraints) :=
  (List.range dup.nrows).foldlM (lb_ub_step dup)
    (pluto_constraints_alloc dup.nrows dup.ncols, pluto_constraints_alloc dup.nrows dup.ncols)

/-- `get_lb_ub_expr(cst, pos, npar, params, &lbexpr, &ubexpr)` (lines 2817-2878),
restricted to the constraint systems: the two projections, the collection of the
bound rows, the two assertions on their number and the two calls of
`get_func_of_expr`; the strings are not modelled and the collected systems are
returned in their place. `fuel` bounds the recursion of `get_func_of_expr`. -/
def get_lb_ub_expr (env : Env) (fuel : Nat) (cst : PlutoConstraints) (pos npar : Int) :
    Except Fault (PlutoConstraints × PlutoConstraints) := do
  let dup0 ← env.project_out (pluto_constraints_dup cst) 0 pos
  let dup ← env.project_out dup0 1 ((dup0.ncols : Int) - npar - 1 - 1)
  let b ← lb_ub_rows dup
  if b.1.nrows ≥ 1 then
    if b.2.nrows ≥ 1 then do
      get_func_of_expr b.1 fuel 0 MAXF
      get_func_of_expr b.2 fuel 0 MINF
      pure b
    else .error Fault.assertion
  else .error Fault.assertion

/-- A `project_out` that leaves the system as it is when no column is projected out
(`num = 0`) and answers like `project_out_universe` otherwise. -/
def project_out_keep (c : PlutoConstraints) (start num : Int) :
    Except Fault PlutoConstraints :=
  if num = 0 then .ok c else project_out_universe c start num

/-- The environment `sample_env` with `project_out_keep` as projection. -/
def keep_env : Env := { sample_env with project_out := project_out_keep }

/-- The system `x = N` over (x, N, 1), written `-x + N = 0`. -/
def neg_eq_cst : PlutoConstraints := { ncols := 3, rows := [⟨true, [-1, 1, 0]⟩] }

/-- The system `x = N` over (x, N, 1), written `x - N = 0`. -/
def pos_eq_cst : PlutoConstraints := { ncols := 3, rows := [⟨true, [1, -1, 0]⟩] }

/-- The system `0 <= x <= N - 1` over (x, N, 1). -/
def ineq_cst : PlutoConstraints :=
  { ncols := 3, rows := [⟨false, [1, 0, 0]⟩, ⟨false, [-1, 1, -1]⟩] }


/-! ## A program on which the transitive-closure loop keeps finding new pairs -/

/-- An output dependence from the write of S0 to the write of S1 of `access_prog`,
satisfied at level 0, with an unconstrained polytope. -/
def chain_dep (id : Int) : Dep :=
  { id := id, src := 0, dest := 1, type := DepType.CANDL_WAW,
    dpolytope := { ncols := 4, rows := [] },
    src_acc := some ⟨0, true, 0⟩, dest_acc := some ⟨1, true, 0⟩,
    satisfied := true, satisfaction_level := 0 }

/-- An output self-dependence of the write of S1 of `access_prog`, satisfied at level 1
(the boundary level of depth 1), with an unconstrained polytope. -/
def cycle_dep : Dep :=
  { id := 1, src := 1, dest := 1, type := DepType.CANDL_WAW,
    dpolytope := { ncols := 4, rows := [] },
    src_acc := some ⟨1, true, 0⟩, dest_acc := some ⟨1, true, 0⟩,
    satisfied := true, satisfaction_level := 1 }

/-- The statements of `access_prog` with the main list `chain_dep 0`, `cycle_dep`
followed by `n` further copies of `chain_dep` (ids 2, 3, ...); `chain_prog 0` is the
input, the others are the programs the closure loop passes through. -/
def chain_prog (n : Nat) : PlutoProg :=
  { access_prog with
    deps := [chain_dep 0, cycle_dep] ++ (List.range n).map fun (k : Nat) => chain_dep ((k : Int) + 2),
    transdeps := [] }



/-! ## Remapping matrix (`program.c`, lines 2966-3077) -/

/-- The row `r` with every entry negated. -/
def negRow (r : List Int) : List Int := r.map fun x => -x

/-- The matrix `m` has `w` columns and the `R` rows `F 0, ..., F (R-1)`, each of
length `w`. -/
def Rep (m : PlutoMatrix) (R w : Nat) (F : Nat → List Int) : Prop :=
  m.ncols = w ∧ m.val = (List.range R).map F ∧ ∀ k, k < R → (F k).length = w

theorem bind_eq_ok {α β : Type} {x : Except Fault α} {f : α → Except Fault β} {b : β} :
    (x >>= f) = .ok b ↔ ∃ a, x = .ok a ∧ f a = .ok b := by
  cases x with
  | error e => simp [bind, Except.bind]
  | ok a => simp [bind, Except.bind]

theorem pure_eq_ok {α : Type} {a b : α} : (pure a : Except Fault α) = .ok b ↔ a = b := by
  simp [pure, Except.pure]

theorem cAssert_eq_ok {c : Prop} [Decidable c] {u : Unit} : cAssert c = .ok u ↔ c := by
  unfold cAssert
  split <;> simp_all

/-! ## C7, C8: the kind of a composed dependence -/

/-- C7 (counterexample): the claim reads the first column of the table as the kinds
input and flow; for an anti dependence composed with an input dependence the table
then gives input, but the switch of `pluto_force_parallelize` yields anti. -/
theorem compose_dep_type_differs_from_table :
    compose_dep_type DepType.CANDL_WAR DepType.CANDL_RAR = .ok DepType.CANDL_WAR ∧
    spec_kind_table DepType.CANDL_WAR DepType.CANDL_RAR = DepType.CANDL_RAR ∧
    compose_dep_type DepType.CANDL_WAR DepType.CANDL_RAR
      ≠ .ok (spec_kind_table DepType.CANDL_WAR DepType.CANDL_RAR) := by
  refine ⟨rfl, rfl, ?_⟩
  intro h
  cases h

/-- C7 (amended): for every pair of kinds among flow, anti, output and input the switch
of `pluto_force_parallelize` returns a kind without aborting: for `k1` anti it is input
when `k2` is flow and anti otherwise; for `k1` flow it is flow when `k2` is input and
output otherwise; for `k1` output or input it is `k2`. This agrees with the table of
section 4.3 on every pair except (anti, input) and (flow, flow). -/
theorem compose_dep_type_total (k1 k2 : DepType) (h1 : k1 ≠ DepType.CANDL_UNSET)
    (h2 : k2 ≠ DepType.CANDL_UNSET) :
    ∃ r, compose_dep_type k1 k2 = .ok r ∧
      (k1 = DepType.CANDL_WAR →
        r = if k2 = DepType.CANDL_RAW then DepType.CANDL_RAR else DepType.CANDL_WAR) ∧
      (k1 = DepType.CANDL_RAW →
        r = if k2 = DepType.CANDL_RAR then DepType.CANDL_RAW else DepType.CANDL_WAW) ∧
      (k1 = DepType.CANDL_WAW ∨ k1 = DepType.CANDL_RAR → r = k2) ∧
      (¬ (k1 = DepType.CANDL_WAR ∧ k2 = DepType.CANDL_RAR) →
        ¬ (k1 = DepType.CANDL_RAW ∧ k2 = DepType.CANDL_RAW) → r = spec_kind_table k1 k2) := by
  cases k1 <;> cases k2 <;>
    simp_all [compose_dep_type, IS_RAW, IS_RAR, spec_kind_table]

/-- Witness of `compose_dep_type_total` at the pair (anti, flow). -/
theorem compose_dep_type_total_witness :
    ∃ r, compose_dep_type DepType.CANDL_WAR DepType.CANDL_RAW = .ok r ∧
      (DepType.CANDL_WAR = DepType.CANDL_WAR →
        r = if DepType.CANDL_RAW = DepType.CANDL_RAW then DepType.CANDL_RAR
            else DepType.CANDL_WAR) ∧
      (DepType.CANDL_WAR = DepType.CANDL_RAW →
        r = if DepType.CANDL_RAW = DepType.CANDL_RAR then DepType.CANDL_RAW
            else DepType.CANDL_WAW) ∧
      (DepType.CANDL_WAR = DepType.CANDL_WAW ∨ DepType.CANDL_WAR = DepType.CANDL_RAR →
        r = DepType.CANDL_RAW) ∧
      (¬ (DepType.CANDL_WAR = DepType.CANDL_WAR ∧ DepType.CANDL_RAW = DepType.CANDL_RAR) →
        ¬ (DepType.CANDL_WAR = DepType.CANDL_RAW ∧ DepType.CANDL_RAW = DepType.CANDL_RAW) →
        r = spec_kind_table DepType.CANDL_WAR DepType.CANDL_RAW) :=
  compose_dep_type_total DepType.CANDL_WAR DepType.CANDL_RAW (by decide) (by decide)

/-- C8: reading flow as write->read, anti as read->write, output as write->write and
input as read->read, for every pair of kinds that can chain through one access (the
destination access kind of `k1` is the source access kind of `k2`) the switch returns
the unique kind whose source access kind is that of `k1` and whose destination access
kind is that of `k2`; and flow composed with anti is output. -/
theorem compose_dep_type_chain (k1 k2 : DepType) (h1 : k1 ≠ DepType.CANDL_UNSET)
    (h2 : k2 ≠ DepType.CANDL_UNSET) (hchain : k1.destKind = k2.srcKind) :
    (∃ r, compose_dep_type k1 k2 = .ok r ∧ r.srcKind = k1.srcKind ∧
      r.destKind = k2.destKind ∧
      ∀ r2 : DepType, r2.srcKind = k1.srcKind → r2.destKind = k2.destKind → r2 = r) ∧
    compose_dep_type DepType.CANDL_RAW DepType.CANDL_WAR = .ok DepType.CANDL_WAW := by
  refine ⟨?_, rfl⟩
  cases k1 <;> cases k2 <;>
    simp_all [compose_dep_type, IS_RAW, IS_RAR, DepType.srcKind, DepType.destKind] <;>
    (intro r2; cases r2 <;> simp [DepType.srcKind, DepType.destKind])

/-- Witness of `compose_dep_type_chain` at the pair (flow, anti). -/
theorem compose_dep_type_chain_witness :
    (∃ r, compose_dep_type DepType.CANDL_RAW DepType.CANDL_WAR = .ok r ∧
      r.srcKind = DepType.CANDL_RAW.srcKind ∧ r.destKind = DepType.CANDL_WAR.destKind ∧
      ∀ r2 : DepType, r2.srcKind = DepType.CANDL_RAW.srcKind →
        r2.destKind = DepType.CANDL_WAR.destKind → r2 = r) ∧
    compose_dep_type DepType.CANDL_RAW DepType.CANDL_WAR = .ok DepType.CANDL_WAW :=
  compose_dep_type_chain DepType.CANDL_RAW DepType.CANDL_WAR (by decide) (by decide) rfl


/-! ## C9, C10: the deletion step of `pluto_force_parallelize` -/

theorem compact_loop_eq (keep : Dep → Bool) (l : List Dep) :
    ∀ (count : Nat) (out : List Dep), out.length = count →
      compact_loop keep l count out = out ++ renumber count (l.filter keep) := by
  induction l with
  | nil => intro count out _; simp [compact_loop, renumber]
  | cons d rest ih =>
    intro count out hlen
    unfold compact_loop
    by_cases hk : keep d = true
    · simp only [hk, if_true, List.filter_cons_of_pos]
      rw [ih (count + 1) _ (by simp [hlen])]
      simp [renumber, hlen]
    · simp only [hk, if_false, Bool.false_eq_true]
      rw [List.filter_cons_of_neg (by simpa using hk)]
      exact ih count out hlen

theorem compact_deps_eq (keep : Dep → Bool) (l : List Dep) :
    compact_deps keep l = renumber 0 (l.filter keep) := by
  unfold compact_deps
  rw [compact_loop_eq keep l 0 [] rfl]
  simp

theorem renumber_length (l : List Dep) : ∀ n, (renumber n l).length = l.length := by
  induction l with
  | nil => intro n; rfl
  | cons d ds ih => intro n; simp [renumber, ih]

theorem renumber_eraseId (l : List Dep) :
    ∀ n, (renumber n l).map Dep.eraseId = l.map Dep.eraseId := by
  induction l with
  | nil => intro n; rfl
  | cons d ds ih => intro n; simp [renumber, ih, Dep.eraseId]

theorem renumber_get? (l : List Dep) :
    ∀ n i d, (renumber n l).get? i = some d → d.id = ((n + i : Nat) : Int) := by
  induction l with
  | nil => intro n i d h; simp [renumber] at h
  | cons a as ih =>
    intro n i d h
    cases i with
    | zero =>
      simp [renumber] at h
      subst h
      simp
    | succ i =>
      simp [renumber] at h
      have h1 := ih (n + 1) i d (by simpa using h)
      rw [h1]; push_cast; ring

theorem renumber_mem (l : List Dep) :
    ∀ n d, d ∈ renumber n l → ∃ d0 ∈ l, d.eraseId = d0.eraseId := by
  induction l with
  | nil => intro n d h; simp [renumber] at h
  | cons a as ih =>
    intro n d h
    simp only [renumber, List.mem_cons] at h
    rcases h with h | h
    · exact ⟨a, by simp, by subst h; simp [Dep.eraseId]⟩
    · obtain ⟨d0, hd0, he⟩ := ih (n + 1) d h
      exact ⟨d0, by simp [hd0], he⟩

theorem delete_satisfied_level (depth : Int) (l : List Dep) (d : Dep)
    (h : d ∈ delete_satisfied depth l) : d.satisfaction_level ≠ 2 * depth - 1 := by
  unfold delete_satisfied at h
  rw [compact_deps_eq] at h
  obtain ⟨d0, hd0, he⟩ := renumber_mem _ _ _ h
  have hk := (List.mem_filter.mp hd0).2
  have hl : d.satisfaction_level = d0.satisfaction_level := by
    have := congrArg Dep.satisfaction_level he
    simpa [Dep.eraseId] using this
  rw [hl]
  simpa using hk

theorem delete_satisfied_stable (depth : Int) (l : List Dep) :
    (delete_satisfied depth l).map Dep.eraseId
        = (l.filter fun d => decide (d.satisfaction_level ≠ 2 * depth - 1)).map Dep.eraseId ∧
    (∀ i d, (delete_satisfied depth l).get? i = some d → d.id = (i : Int)) ∧
    (delete_satisfied depth l).length
        = l.countP fun d => decide (d.satisfaction_level ≠ 2 * depth - 1) := by
  unfold delete_satisfied
  rw [compact_deps_eq]
  refine ⟨renumber_eraseId _ 0, ?_, ?_⟩
  · intro i d h
    have := renumber_get? _ 0 i d h
    simpa using this
  · rw [renumber_length, List.countP_eq_length_filter]

/-- C9: whenever `pluto_force_parallelize(prog, depth)` returns, in the last-writer and in
the other configuration alike, no dependence left in the main list and no dependence
left in the transitive list has `satisfaction_level` equal to `2*depth - 1`. -/
theorem force_parallelize_no_boundary_dep (env : Env) (options : PlutoOptions)
    (fuel : Nat) (prog : PlutoProg) (depth : Int) (prog2 : PlutoProg)
    (h : pluto_force_parallelize env options fuel prog depth = .ok prog2) :
    (∀ d ∈ prog2.deps, d.satisfaction_level ≠ 2 * depth - 1) ∧
    (∀ d ∈ prog2.transdeps, d.satisfaction_level ≠ 2 * depth - 1) := by
  unfold pluto_force_parallelize at h
  obtain ⟨p, _, hp⟩ := bind_eq_ok.mp h
  have hp2 := pure_eq_ok.mp hp
  subst hp2
  exact ⟨fun d hd => delete_satisfied_level depth _ d hd,
         fun d hd => delete_satisfied_level depth _ d hd⟩

/-- Witness of `force_parallelize_no_boundary_dep`: under last-writer the pass composes
the two dependences of `sample_prog`, then deletes the level-1 ones at depth 1. -/
theorem force_parallelize_no_boundary_dep_witness :
    ∃ prog2, pluto_force_parallelize sample_env ⟨1, 0⟩ 10 sample_prog 1 = .ok prog2 ∧
      prog2.deps.length = 2 ∧
      (∀ d ∈ prog2.deps, d.satisfaction_level ≠ 2 * 1 - 1) ∧
      (∀ d ∈ prog2.transdeps, d.satisfaction_level ≠ 2 * 1 - 1) :=
  ⟨_, rfl, by decide,
    force_parallelize_no_boundary_dep sample_env ⟨1, 0⟩ 10 sample_prog 1 _ rfl⟩

/-- C10: the deletion step of `pluto_force_parallelize` is a stable filter with dense
renumbering on each of the two lists: up to the `id` field the new list is the old list
filtered by `satisfaction_level != 2*depth - 1` (same survivors, same relative order),
the dependence at position `i` has `id = i`, and the length is the number of
survivors; nothing else of the program changes. -/
theorem force_parallelize_delete_stable (depth : Int) (prog : PlutoProg) :
    ((force_parallelize_delete depth prog).deps.map Dep.eraseId
        = (prog.deps.filter fun d =>
            decide (d.satisfaction_level ≠ 2 * depth - 1)).map Dep.eraseId ∧
      (∀ i d, (force_parallelize_delete depth prog).deps.get? i = some d → d.id = (i : Int)) ∧
      (force_parallelize_delete depth prog).deps.length
        = prog.deps.countP fun d => decide (d.satisfaction_level ≠ 2 * depth - 1)) ∧
    ((force_parallelize_delete depth prog).transdeps.map Dep.eraseId
        = (prog.transdeps.filter fun d =>
            decide (d.satisfaction_level ≠ 2 * depth - 1)).map Dep.eraseId ∧
      (∀ i d, (force_parallelize_delete depth prog).transdeps.get? i = some d →
        d.id = (i : Int)) ∧
      (force_parallelize_delete depth prog).transdeps.length
        = prog.transdeps.countP fun d => decide (d.satisfaction_level ≠ 2 * depth - 1)) ∧
    (force_parallelize_delete depth prog).stmts = prog.stmts ∧
    (∀ env options fuel prog0 prog2,
      pluto_force_parallelize env options fuel prog0 depth = .ok prog2 →
      ∃ p, force_parallelize_closure env options fuel prog0 depth = .ok p ∧
        prog2 = force_parallelize_delete depth p) := by
  refine ⟨delete_satisfied_stable depth prog.deps,
          delete_satisfied_stable depth prog.transdeps, rfl, ?_⟩
  intro env options fuel prog0 prog2 h
  unfold pluto_force_parallelize at h
  obtain ⟨p, hp1, hp⟩ := bind_eq_ok.mp h
  exact ⟨p, hp1, (pure_eq_ok.mp hp).symm⟩


/-! ## Inversion lemmas for the helpers and the library model -/

theorem cIndex_eq_ok {α : Type} {l : List α} {i : Int} {a : α} :
    cIndex l i = .ok a ↔ 0 ≤ i ∧ l.get? i.toNat = some a := by
  unfold cIndex
  by_cases hi : 0 ≤ i
  · simp only [hi, if_true, true_and]
    cases hg : l.get? i.toNat with
    | none => simp
    | some x => simp
  · simp [hi]

theorem cIndex_nat {α : Type} {l : List α} {i : Nat} {a : α} :
    cIndex l (i : Int) = .ok a ↔ l.get? i = some a := by
  rw [cIndex_eq_ok]
  simp

theorem cDeref_eq_ok {α : Type} {p : Option α} {a : α} : cDeref p = .ok a ↔ p = some a := by
  unfold cDeref
  cases p <;> simp

theorem constraints_add_dim_ok {c c2 : PlutoConstraints} {pos : Int} :
    pluto_constraints_add_dim c pos = .ok c2 ↔
      (0 ≤ pos ∧ pos + 1 ≤ (c.ncols : Int)) ∧
      c2 = { ncols := c.ncols + 1,
             rows := c.rows.map fun r => { r with val := insertAt r.val pos.toNat 0 } } := by
  unfold pluto_constraints_add_dim
  split
  · rename_i h; simp [h, eq_comm]
  · rename_i h; simp [h]

theorem constraints_remove_dim_ok {c c2 : PlutoConstraints} {pos : Int} :
    pluto_constraints_remove_dim c pos = .ok c2 ↔
      (0 ≤ pos ∧ pos + 2 ≤ (c.ncols : Int)) ∧
      c2 = { ncols := c.ncols - 1,
             rows := c.rows.map fun r => { r with val := r.val.eraseIdx pos.toNat } } := by
  unfold pluto_constraints_remove_dim
  split
  · rename_i h; simp [h, eq_comm]
  · rename_i h; simp [h]

theorem matrix_add_col_ok {m m2 : PlutoMatrix} {pos : Int} :
    pluto_matrix_add_col m pos = .ok m2 ↔
      (0 ≤ pos ∧ pos ≤ (m.ncols : Int)) ∧
      m2 = { ncols := m.ncols + 1, val := m.val.map fun r => insertAt r pos.toNat 0 } := by
  unfold pluto_matrix_add_col
  split
  · rename_i h; simp [h, eq_comm]
  · rename_i h; simp [h]

theorem matrix_remove_col_ok {m m2 : PlutoMatrix} {pos : Int} :
    pluto_matrix_remove_col m pos = .ok m2 ↔
      (0 ≤ pos ∧ pos + 1 ≤ (m.ncols : Int)) ∧
      m2 = { ncols := m.ncols - 1, val := m.val.map fun r => r.eraseIdx pos.toNat } := by
  unfold pluto_matrix_remove_col
  split
  · rename_i h; simp [h, eq_comm]
  · rename_i h; simp [h]

theorem matrix_add_row_ok {m m2 : PlutoMatrix} {pos : Int} :
    pluto_matrix_add_row m pos = .ok m2 ↔
      (0 ≤ pos ∧ pos ≤ (m.nrows : Int)) ∧
      m2 = { ncols := m.ncols, val := insertAt m.val pos.toNat (List.replicate m.ncols 0) } := by
  unfold pluto_matrix_add_row
  split
  · rename_i h; simp [h, eq_comm]
  · rename_i h; simp [h]

theorem setVal_ok {m m2 : PlutoMatrix} {r c v : Int} (h : m.setVal r c v = .ok m2) :
    m2.ncols = m.ncols ∧ m2.nrows = m.nrows := by
  unfold PlutoMatrix.setVal at h
  split at h
  · cases h; simp [PlutoMatrix.nrows]
  · cases h

theorem insertAt_length {α : Type} (l : List α) (p : Nat) (x : α) :
    (insertAt l p x).length = l.length + 1 := by
  unfold insertAt
  simp
  omega

theorem add_dim_time_row_ok {t1 : PlutoMatrix} {hyp : List PlutoHypType} {pos tp : Int}
    {ht : PlutoHypType} {th : PlutoMatrix × List PlutoHypType}
    (h : add_dim_time_row t1 hyp pos tp ht = .ok th) :
    th.1.ncols = t1.ncols ∧ (tp = -1 → th = (t1, hyp)) ∧
    (tp ≠ -1 → th.1.nrows = t1.nrows + 1) := by
  unfold add_dim_time_row at h
  by_cases htp : tp = -1
  · simp only [htp, ne_eq, not_true_eq_false, if_false, pure_eq_ok] at h
    subst h
    simp [htp]
  · simp only [htp, ne_eq, not_false_eq_true, if_true, bind_eq_ok, pure_eq_ok] at h
    obtain ⟨t, hadd, t2, hset, rfl⟩ := h
    obtain ⟨_, rfl⟩ := matrix_add_row_ok.mp hadd
    obtain ⟨hc, hr⟩ := setVal_ok hset
    refine ⟨by simpa using hc, fun h => absurd h htp, fun _ => ?_⟩
    simp only [hr]
    simp [PlutoMatrix.nrows, insertAt_length]

theorem mapE_forall2 {α β : Type} (f : α → Except Fault β) :
    ∀ (l : List α) (l2 : List β), mapE f l = .ok l2 →
      List.Forall₂ (fun a b => f a = .ok b) l l2 := by
  intro l
  induction l with
  | nil => intro l2 h; simp [mapE] at h; subst h; exact List.Forall₂.nil
  | cons a as ih =>
    intro l2 h
    unfold mapE at h
    split at h
    · cases h
    · rename_i b hb
      split at h
      · cases h
      · rename_i bs hbs
        cases h
        exact List.Forall₂.cons hb (ih bs hbs)

theorem forall2_mem_right {α β : Type} {R : α → β → Prop} {l : List α} {l2 : List β}
    (h : List.Forall₂ R l l2) : ∀ b ∈ l2, ∃ a ∈ l, R a b := by
  induction h with
  | nil => intro b hb; simp at hb
  | cons hab _ ih =>
    intro b' hb'
    simp only [List.mem_cons] at hb'
    rcases hb' with rfl | hb'
    · exact ⟨_, by simp, hab⟩
    · obtain ⟨a', ha', hfa'⟩ := ih b' hb'
      exact ⟨a', by simp [ha'], hfa'⟩

theorem forall2_get? {α β : Type} {R : α → β → Prop} {l : List α} {l2 : List β}
    (h : List.Forall₂ R l l2) :
    ∀ i a b, l.get? i = some a → l2.get? i = some b → R a b := by
  induction h with
  | nil => intro i a b ha; simp at ha
  | cons hab _ ih =>
    intro i a b ha hb
    cases i with
    | zero => simp at ha hb; subst ha; subst hb; exact hab
    | succ i => exact ih i a b (by simpa using ha) (by simpa using hb)

theorem mapE_mem {α β : Type} (f : α → Except Fault β) (l : List α) (l2 : List β)
    (h : mapE f l = .ok l2) : ∀ b ∈ l2, ∃ a ∈ l, f a = .ok b :=
  forall2_mem_right (mapE_forall2 f l l2 h)

theorem mapE_length {α β : Type} (f : α → Except Fault β) (l : List α) (l2 : List β)
    (h : mapE f l = .ok l2) : l2.length = l.length :=
  (List.Forall₂.length_eq (mapE_forall2 f l l2 h)).symm


/-! ## C1: column counts of domains and schedules under the mutations -/

theorem stmt_cols_ok_iff {prog : PlutoProg} :
    stmt_cols_ok prog = true ↔
      ∀ s ∈ prog.stmts, (s.domain.ncols : Int) = s.dim + prog.npar + 1 := by
  simp [stmt_cols_ok, List.all_eq_true]

theorem sched_cols_ok_iff {prog : PlutoProg} :
    sched_cols_ok prog = true ↔
      ∀ s ∈ prog.stmts, ∃ t, s.trans = some t ∧ t.ncols = s.domain.ncols := by
  simp only [sched_cols_ok, List.all_eq_true]
  constructor
  · intro h s hs
    have := h s hs
    cases ht : s.trans with
    | none => simp [ht] at this
    | some t => exact ⟨t, rfl, by simpa [ht] using this⟩
  · intro h s hs
    obtain ⟨t, ht, hc⟩ := h s hs
    simp [ht, hc]

theorem add_dim_stmt_cols (prog prog2 : PlutoProg) (si : Nat) (pos tp : Int) (iter : String)
    (ht : PlutoHypType) (h1 : stmt_cols_ok prog = true) (h2 : sched_cols_ok prog = true)
    (h : pluto_stmt_add_dim prog si pos tp iter ht = .ok prog2) :
    stmt_cols_ok prog2 = true ∧ sched_cols_ok prog2 = true := by
  rw [stmt_cols_ok_iff] at h1 ⊢
  rw [sched_cols_ok_iff] at h2 ⊢
  simp only [pluto_stmt_add_dim, bind_eq_ok, pure_eq_ok, cAssert_eq_ok] at h
  obtain ⟨a, ha, _, _, t0, ht0, _, _, _, _, dom, hdom, t1, ht1, th, hth, w, _, r, _,
    deps, _, tdeps, _, rfl⟩ := h
  have hmem : a ∈ prog.stmts := List.get?_mem (cIndex_nat.mp ha)
  obtain ⟨_, rfl⟩ := constraints_add_dim_ok.mp hdom
  obtain ⟨_, rfl⟩ := matrix_add_col_ok.mp ht1
  have hthc := (add_dim_time_row_ok hth).1
  rw [cDeref_eq_ok] at ht0
  obtain ⟨t, htt, htc⟩ := h2 a hmem
  rw [ht0] at htt
  cases htt
  have ha1 := h1 a hmem
  constructor
  · intro s hs
    rcases List.mem_or_eq_of_mem_set hs with hs | rfl
    · exact h1 s hs
    · simp only
      push_cast
      omega
  · intro s hs
    rcases List.mem_or_eq_of_mem_set hs with hs | rfl
    · exact h2 s hs
    · exact ⟨th.1, rfl, by simp [hthc, htc]⟩

theorem remove_dim_stmt_cols (prog prog2 : PlutoProg) (si : Nat) (pos : Int)
    (h1 : stmt_cols_ok prog = true) (h2 : sched_cols_ok prog = true)
    (h : pluto_stmt_remove_dim prog si pos = .ok prog2) :
    stmt_cols_ok prog2 = true ∧ sched_cols_ok prog2 = true := by
  rw [stmt_cols_ok_iff] at h1 ⊢
  rw [sched_cols_ok_iff] at h2 ⊢
  simp only [pluto_stmt_remove_dim, bind_eq_ok, pure_eq_ok, cAssert_eq_ok] at h
  obtain ⟨a, ha, _, _, _, _, dom, hdom, _, _, t0, ht0, t1, ht1, w, _, r, _,
    deps, _, tdeps, _, rfl⟩ := h
  have hmem : a ∈ prog.stmts := List.get?_mem (cIndex_nat.mp ha)
  obtain ⟨hd, rfl⟩ := constraints_remove_dim_ok.mp hdom
  obtain ⟨_, rfl⟩ := matrix_remove_col_ok.mp ht1
  rw [cDeref_eq_ok] at ht0
  obtain ⟨t, htt, htc⟩ := h2 a hmem
  rw [ht0] at htt
  cases htt
  have ha1 := h1 a hmem
  constructor
  · intro s hs
    rcases List.mem_or_eq_of_mem_set hs with hs | rfl
    · exact h1 s hs
    · simp only
      have : 1 ≤ a.domain.ncols := by omega
      push_cast [Nat.cast_sub this]
      omega
  · intro s hs
    rcases List.mem_or_eq_of_mem_set hs with hs | rfl
    · exact h2 s hs
    · exact ⟨_, rfl, by simp [htc]⟩

theorem add_param_stmt_ok {npar pos : Int} {s s2 : Stmt}
    (h : add_param_stmt npar pos s = .ok s2) :
    s2.dim = s.dim ∧ s2.id = s.id ∧ s2.domain.ncols = s.domain.ncols + 1 ∧
    s2.domain.rows.length = s.domain.rows.length ∧
    s2.hyp_types = s.hyp_types ∧
    ∃ t t2, s.trans = some t ∧ s2.trans = some t2 ∧ t2.ncols = t.ncols + 1 ∧
      t2.nrows = t.nrows := by
  simp only [add_param_stmt, bind_eq_ok, pure_eq_ok] at h
  obtain ⟨dom, hdom, t0, ht0, t1, ht1, w, _, r, _, rfl⟩ := h
  obtain ⟨_, rfl⟩ := constraints_add_dim_ok.mp hdom
  obtain ⟨_, rfl⟩ := matrix_add_col_ok.mp ht1
  rw [cDeref_eq_ok] at ht0
  exact ⟨rfl, rfl, rfl, by simp, rfl, t0, _, ht0, rfl, rfl, by simp [PlutoMatrix.nrows]⟩

theorem add_param_ok_inv {prog prog2 : PlutoProg} {param : String} {pos : Int}
    (h : pluto_prog_add_param prog param pos = .ok prog2) :
    ∃ stmts deps context,
      mapE (add_param_stmt prog.npar pos) prog.stmts = .ok stmts ∧
      mapE (add_param_dep prog.npar pos) prog.deps = .ok deps ∧
      pluto_constraints_add_dim prog.context
        ((prog.context.ncols : Int) - 1 - prog.npar + pos) = .ok context ∧
      (0 ≤ pos ∧ pos ≤ prog.npar) ∧
      prog2 = { prog with stmts := stmts, deps := deps, context := context,
                          params := insertAt prog.params pos.toNat param,
                          npar := prog.npar + 1 } := by
  simp only [pluto_prog_add_param, bind_eq_ok] at h
  obtain ⟨stmts, hs, deps, hd, context, hc, h⟩ := h
  split at h
  · rename_i hp
    exact ⟨stmts, deps, context, hs, hd, hc, hp, (pure_eq_ok.mp h).symm⟩
  · cases h

theorem add_param_stmt_cols (prog prog2 : PlutoProg) (param : String) (pos : Int)
    (h1 : stmt_cols_ok prog = true) (h2 : sched_cols_ok prog = true)
    (h : pluto_prog_add_param prog param pos = .ok prog2) :
    stmt_cols_ok prog2 = true ∧ sched_cols_ok prog2 = true := by
  rw [stmt_cols_ok_iff] at h1 ⊢
  rw [sched_cols_ok_iff] at h2 ⊢
  obtain ⟨stmts, deps, context, hs, _, _, _, rfl⟩ := add_param_ok_inv h
  constructor
  · intro s2 hs2
    obtain ⟨s, hsm, hf⟩ := mapE_mem _ _ _ hs s2 hs2
    obtain ⟨hdim, _, hcol, _⟩ := add_param_stmt_ok hf
    have := h1 s hsm
    simp only [hdim, hcol]
    push_cast
    omega
  · intro s2 hs2
    obtain ⟨s, hsm, hf⟩ := mapE_mem _ _ _ hs s2 hs2
    obtain ⟨_, _, hcol, _, _, t, t2, ht, ht2, htc, _⟩ := add_param_stmt_ok hf
    obtain ⟨t', ht', hc'⟩ := h2 s hsm
    rw [ht] at ht'
    cases ht'
    exact ⟨t2, ht2, by omega⟩

/-- C1 (counterexample): `wide_sched_prog` satisfies `domain.columns = dim + npar + 1`
in its only statement, `pluto_stmt_add_dim` at position 0 returns, and afterwards the
schedule has 6 columns while the domain has 2. -/
theorem add_dim_sched_cols_counterexample :
    stmt_cols_ok wide_sched_prog = true ∧
    ∃ prog2, pluto_stmt_add_dim wide_sched_prog 0 0 (-1) "i" PlutoHypType.H_LOOP = .ok prog2 ∧
      stmt_cols_ok prog2 = true ∧ sched_cols_ok prog2 = false :=
  ⟨by decide, _, rfl, by decide, by decide⟩

/-- C1 (amended): for every program in which each statement satisfies
`domain.columns = dim + npar + 1` and `schedule.columns = domain.columns`, after any
single call of `pluto_stmt_add_dim`, `pluto_stmt_remove_dim` or `pluto_prog_add_param`
that returns (whatever the position), every statement again satisfies both equalities,
with `dim` and `npar` read after the call. -/
theorem mutation_keeps_stmt_columns (prog : PlutoProg) (h1 : stmt_cols_ok prog = true)
    (h2 : sched_cols_ok prog = true) :
    (∀ si pos time_pos iter hyp_type prog2,
      pluto_stmt_add_dim prog si pos time_pos iter hyp_type = .ok prog2 →
      stmt_cols_ok prog2 = true ∧ sched_cols_ok prog2 = true) ∧
    (∀ si pos prog2, pluto_stmt_remove_dim prog si pos = .ok prog2 →
      stmt_cols_ok prog2 = true ∧ sched_cols_ok prog2 = true) ∧
    (∀ param pos prog2, pluto_prog_add_param prog param pos = .ok prog2 →
      stmt_cols_ok prog2 = true ∧ sched_cols_ok prog2 = true) :=
  ⟨fun si pos tp iter ht prog2 h => add_dim_stmt_cols prog prog2 si pos tp iter ht h1 h2 h,
   fun si pos prog2 h => remove_dim_stmt_cols prog prog2 si pos h1 h2 h,
   fun param pos prog2 h => add_param_stmt_cols prog prog2 param pos h1 h2 h⟩

/-- Witness of `mutation_keeps_stmt_columns` on `sample_prog`: each of the three calls
returns and the result satisfies both equalities. -/
theorem mutation_keeps_stmt_columns_witness :
    (∃ prog2, pluto_stmt_add_dim sample_prog 0 0 0 "j" PlutoHypType.H_LOOP = .ok prog2 ∧
      stmt_cols_ok prog2 = true ∧ sched_cols_ok prog2 = true) ∧
    (∃ prog2, pluto_stmt_remove_dim sample_prog 0 0 = .ok prog2 ∧
      stmt_cols_ok prog2 = true ∧ sched_cols_ok prog2 = true) ∧
    (∃ prog2, pluto_prog_add_param sample_prog "N" 0 = .ok prog2 ∧
      stmt_cols_ok prog2 = true ∧ sched_cols_ok prog2 = true) :=
  ⟨⟨_, rfl, (mutation_keeps_stmt_columns sample_prog (by decide) (by decide)).1
      0 0 0 "j" PlutoHypType.H_LOOP _ rfl⟩,
   ⟨_, rfl, (mutation_keeps_stmt_columns sample_prog (by decide) (by decide)).2.1 0 0 _ rfl⟩,
   ⟨_, rfl, (mutation_keeps_stmt_columns sample_prog (by decide) (by decide)).2.2
      "N" 0 _ rfl⟩⟩


/-! ## C2: row counts of the schedules under the mutations -/

theorem sched_rows_ok_iff {prog : PlutoProg} :
    sched_rows_ok prog = true ↔
      ∀ s ∈ prog.stmts, ∃ t, s.trans = some t ∧ t.nrows = prog.num_hyperplanes := by
  simp only [sched_rows_ok, List.all_eq_true]
  constructor
  · intro h s hs
    have := h s hs
    cases ht : s.trans with
    | none => simp [ht] at this
    | some t => exact ⟨t, rfl, by simpa [ht] using this⟩
  · intro h s hs
    obtain ⟨t, ht, hc⟩ := h s hs
    simp [ht, hc]

theorem add_dim_sched_rows (prog prog2 : PlutoProg) (si : Nat) (pos tp : Int) (iter : String)
    (ht : PlutoHypType) (h1 : sched_rows_ok prog = true)
    (h : pluto_stmt_add_dim prog si pos tp iter ht = .ok prog2) :
    prog2.num_hyperplanes = prog.num_hyperplanes ∧
    (∀ j, j ≠ si → prog2.stmts.get? j = prog.stmts.get? j) ∧
    (∃ s2 t2, prog2.stmts.get? si = some s2 ∧ s2.trans = some t2 ∧
      t2.nrows = prog.num_hyperplanes + (if tp = -1 then 0 else 1)) := by
  rw [sched_rows_ok_iff] at h1
  simp only [pluto_stmt_add_dim, bind_eq_ok, pure_eq_ok, cAssert_eq_ok] at h
  obtain ⟨a, ha, _, _, t0, ht0, _, _, _, _, dom, hdom, t1, ht1, th, hth, w, _, r, _,
    deps, _, tdeps, _, rfl⟩ := h
  have hget := cIndex_nat.mp ha
  have hmem : a ∈ prog.stmts := List.get?_mem hget
  have hlt : si < prog.stmts.length := by
    rcases List.get?_eq_some.mp hget with ⟨hl, _⟩
    exact hl
  obtain ⟨_, rfl⟩ := matrix_add_col_ok.mp ht1
  obtain ⟨_, hth1, hth2⟩ := add_dim_time_row_ok hth
  rw [cDeref_eq_ok] at ht0
  obtain ⟨t, htt, htr⟩ := h1 a hmem
  rw [ht0] at htt
  cases htt
  refine ⟨rfl, ?_, ?_⟩
  · intro j hj
    simp only [List.get?_eq_getElem?]
    rw [List.getElem?_set_ne (Ne.symm hj)]
  · have hg : ∀ x : Stmt, (prog.stmts.set si x).get? si = some x := by
      intro x
      simp only [List.get?_eq_getElem?]
      rw [List.getElem?_set_self hlt]
    refine ⟨_, th.1, hg _, rfl, ?_⟩
    · by_cases htp : tp = -1
      · rw [hth1 htp]
        simpa [htp, PlutoMatrix.nrows] using htr
      · rw [hth2 htp]
        simp only [htp, if_false]
        simpa [PlutoMatrix.nrows] using htr

theorem remove_dim_sched_rows (prog prog2 : PlutoProg) (si : Nat) (pos : Int)
    (h1 : sched_rows_ok prog = true)
    (h : pluto_stmt_remove_dim prog si pos = .ok prog2) :
    sched_rows_ok prog2 = true := by
  rw [sched_rows_ok_iff] at h1 ⊢
  simp only [pluto_stmt_remove_dim, bind_eq_ok, pure_eq_ok, cAssert_eq_ok] at h
  obtain ⟨a, ha, _, _, _, _, dom, hdom, _, _, t0, ht0, t1, ht1, w, _, r, _,
    deps, _, tdeps, _, rfl⟩ := h
  have hmem : a ∈ prog.stmts := List.get?_mem (cIndex_nat.mp ha)
  obtain ⟨_, rfl⟩ := matrix_remove_col_ok.mp ht1
  rw [cDeref_eq_ok] at ht0
  obtain ⟨t, htt, htr⟩ := h1 a hmem
  rw [ht0] at htt
  cases htt
  intro s hs
  rcases List.mem_or_eq_of_mem_set hs with hs | rfl
  · exact h1 s hs
  · exact ⟨_, rfl, by simpa [PlutoMatrix.nrows, PlutoProg.num_hyperplanes] using htr⟩

theorem add_param_sched_rows (prog prog2 : PlutoProg) (param : String) (pos : Int)
    (h1 : sched_rows_ok prog = true)
    (h : pluto_prog_add_param prog param pos = .ok prog2) :
    sched_rows_ok prog2 = true := by
  rw [sched_rows_ok_iff] at h1 ⊢
  obtain ⟨stmts, deps, context, hs, _, _, _, rfl⟩ := add_param_ok_inv h
  intro s2 hs2
  obtain ⟨s, hsm, hf⟩ := mapE_mem _ _ _ hs s2 hs2
  obtain ⟨_, _, _, _, _, t, t2, ht, ht2, _, htr⟩ := add_param_stmt_ok hf
  obtain ⟨t', ht', hc'⟩ := h1 s hsm
  rw [ht] at ht'
  cases ht'
  exact ⟨t2, ht2, by simpa [PlutoProg.num_hyperplanes, htr] using hc'⟩

theorem stmt_add_hyperplane_rows {s s2 : Stmt} {ty : PlutoHypType} {pos : Int}
    (h : pluto_stmt_add_hyperplane s ty pos = .ok s2) :
    ∃ t t2, s.trans = some t ∧ s2.trans = some t2 ∧ t2.nrows = t.nrows + 1 ∧
      t2.ncols = t.ncols := by
  simp only [pluto_stmt_add_hyperplane, bind_eq_ok, pure_eq_ok, cAssert_eq_ok] at h
  obtain ⟨t0, ht0, _, _, t1, ht1, rfl⟩ := h
  obtain ⟨_, rfl⟩ := matrix_add_row_ok.mp ht1
  rw [cDeref_eq_ok] at ht0
  exact ⟨t0, _, ht0, rfl, by simp [PlutoMatrix.nrows, insertAt_length], rfl⟩

theorem prog_add_hyperplane_rows {prog prog2 : PlutoProg} {pos : Int} {ty : PlutoHypType}
    (h : pluto_prog_add_hyperplane prog pos ty = .ok prog2) :
    prog2.num_hyperplanes = prog.num_hyperplanes + 1 ∧ prog2.stmts = prog.stmts := by
  unfold pluto_prog_add_hyperplane at h
  split at h
  · cases h
    simp [PlutoProg.num_hyperplanes, insertAt_length]
  · cases h

theorem pad_max_nrows_foldl (n : Nat) (l : List Stmt)
    (h : ∀ s ∈ l, ∃ t, s.trans = some t ∧ t.nrows = n) :
    ∀ m, m ≤ n →
      l.foldl (fun m s => match s.trans with
        | some t => max m t.nrows
        | none => m) m = if l = [] then m else n := by
  induction l with
  | nil => intro m _; simp
  | cons a as ih =>
    intro m hm
    obtain ⟨t, ht, hn⟩ := h a (by simp)
    simp only [List.foldl_cons, ht]
    rw [ih (fun s hs => h s (by simp [hs])) (max m t.nrows) (by omega)]
    by_cases has : as = []
    · simp [has]; omega
    · simp [has]

theorem mapE_id_of_forall {α : Type} (f : α → Except Fault α) (l : List α)
    (h : ∀ a ∈ l, f a = .ok a) : mapE f l = .ok l := by
  induction l with
  | nil => rfl
  | cons a as ih =>
    unfold mapE
    rw [h a (by simp), ih (fun b hb => h b (by simp [hb]))]

theorem pad_sched_rows (prog : PlutoProg) (h1 : sched_rows_ok prog = true) :
    pluto_pad_stmt_transformations prog = .ok prog := by
  rw [sched_rows_ok_iff] at h1
  unfold pluto_pad_stmt_transformations
  have hmax : pad_max_nrows prog.stmts
      = if prog.stmts = [] then 0 else prog.num_hyperplanes := by
    unfold pad_max_nrows
    exact pad_max_nrows_foldl _ _ h1 0 (Nat.zero_le _)
  rw [hmax]
  by_cases hnil : prog.stmts = []
  · simp only [hnil, if_true]
    rfl
  · simp only [hnil, if_false]
    by_cases hge : prog.num_hyperplanes ≥ 1
    · simp only [hge, if_true]
      have hm : mapE (pad_stmt prog.npar prog.num_hyperplanes) prog.stmts = .ok prog.stmts := by
        apply mapE_id_of_forall
        intro s hs
        obtain ⟨t, ht, hn⟩ := h1 s hs
        simp [pad_stmt, ht, cDeref, hn, iterE, bind, Except.bind]
      simp [hm, bind, Except.bind, iterE]
    · simp only [hge, if_false]
      rfl

/-- C2 (counterexample): in `sample_prog` every schedule has `num_hyperplanes` rows;
`pluto_stmt_add_dim` with `time_pos = 0` returns a program in which the schedule of
statement 0 has two rows while `num_hyperplanes` is still 1. -/
theorem add_dim_time_row_breaks_rows :
    sched_rows_ok sample_prog = true ∧
    ∃ prog2, pluto_stmt_add_dim sample_prog 0 0 0 "j" PlutoHypType.H_LOOP = .ok prog2 ∧
      prog2.num_hyperplanes = 1 ∧
      (prog2.stmts.get? 0).bind (fun s => s.trans.map PlutoMatrix.nrows) = some 2 ∧
      sched_rows_ok prog2 = false :=
  ⟨by decide, _, rfl, by decide, by decide, by decide⟩

/-- C2 (amended): for every program in which each statement's schedule has exactly
`num_hyperplanes` rows, a returning call of `pluto_stmt_add_dim` with `time_pos = -1`,
of `pluto_stmt_remove_dim`, of `pluto_pad_stmt_transformations` (which returns the
program unchanged) or of `pluto_prog_add_param` leaves every schedule with exactly
`num_hyperplanes` rows. A returning `pluto_stmt_add_dim` with another `time_pos`, and
`pluto_stmt_add_hyperplane`, give the one statement they work on `num_hyperplanes + 1`
rows and leave `num_hyperplanes` and the other statements as they are;
`pluto_prog_add_hyperplane` raises `num_hyperplanes` by one and leaves every schedule as
it is. -/
theorem mutation_sched_rows (prog : PlutoProg) (h1 : sched_rows_ok prog = true) :
    (∀ si pos iter hyp_type prog2,
      pluto_stmt_add_dim prog si pos (-1) iter hyp_type = .ok prog2 →
      sched_rows_ok prog2 = true) ∧
    (∀ si pos time_pos iter hyp_type prog2, time_pos ≠ -1 →
      pluto_stmt_add_dim prog si pos time_pos iter hyp_type = .ok prog2 →
      prog2.num_hyperplanes = prog.num_hyperplanes ∧
      (∀ j, j ≠ si → prog2.stmts.get? j = prog.stmts.get? j) ∧
      ∃ s2 t2, prog2.stmts.get? si = some s2 ∧ s2.trans = some t2 ∧
        t2.nrows = prog.num_hyperplanes + 1) ∧
    (∀ si pos prog2, pluto_stmt_remove_dim prog si pos = .ok prog2 →
      sched_rows_ok prog2 = true) ∧
    (∀ s ∈ prog.stmts, ∀ type pos s2, pluto_stmt_add_hyperplane s type pos = .ok s2 →
      ∃ t2, s2.trans = some t2 ∧ t2.nrows = prog.num_hyperplanes + 1) ∧
    (∀ pos hyp_type prog2, pluto_prog_add_hyperplane prog pos hyp_type = .ok prog2 →
      prog2.num_hyperplanes = prog.num_hyperplanes + 1 ∧ prog2.stmts = prog.stmts) ∧
    pluto_pad_stmt_transformations prog = .ok prog ∧
    (∀ param pos prog2, pluto_prog_add_param prog param pos = .ok prog2 →
      sched_rows_ok prog2 = true) := by
  refine ⟨?_, ?_, ?_, ?_, ?_, pad_sched_rows prog h1, ?_⟩
  · intro si pos iter ht prog2 h
    obtain ⟨hn, hother, s2, t2, hs2, ht2, hr⟩ :=
      add_dim_sched_rows prog prog2 si pos (-1) iter ht h1 h
    rw [sched_rows_ok_iff] at h1 ⊢
    intro s hs
    obtain ⟨j, hj⟩ := List.get?_of_mem hs
    by_cases hjs : j = si
    · subst hjs
      rw [hs2] at hj
      cases hj
      exact ⟨t2, ht2, by simpa [hn] using hr⟩
    · rw [hother j hjs] at hj
      obtain ⟨t, ht, htr⟩ := h1 s (List.get?_mem hj)
      exact ⟨t, ht, by rw [hn]; exact htr⟩
  · intro si pos tp iter ht prog2 htp h
    obtain ⟨hn, hother, s2, t2, hs2, ht2, hr⟩ :=
      add_dim_sched_rows prog prog2 si pos tp iter ht h1 h
    exact ⟨hn, hother, s2, t2, hs2, ht2, by simpa [htp] using hr⟩
  · intro si pos prog2 h
    exact remove_dim_sched_rows prog prog2 si pos h1 h
  · intro s hs ty pos s2 h
    obtain ⟨t, t2, ht, ht2, hr, _⟩ := stmt_add_hyperplane_rows h
    obtain ⟨t', ht', hr'⟩ := (sched_rows_ok_iff.mp h1) s hs
    rw [ht] at ht'
    cases ht'
    exact ⟨t2, ht2, by omega⟩
  · intro pos ty prog2 h
    exact prog_add_hyperplane_rows h
  · intro param pos prog2 h
    exact add_param_sched_rows prog prog2 param pos h1 h

/-- Witness of `mutation_sched_rows` on `sample_prog`: the calls return and have the
stated effect. -/
theorem mutation_sched_rows_witness :
    (∃ prog2, pluto_stmt_add_dim sample_prog 0 0 (-1) "j" PlutoHypType.H_LOOP = .ok prog2 ∧
      sched_rows_ok prog2 = true) ∧
    (∃ prog2, pluto_prog_add_hyperplane sample_prog 1 PlutoHypType.H_SCALAR = .ok prog2 ∧
      prog2.num_hyperplanes = sample_prog.num_hyperplanes + 1 ∧
      prog2.stmts = sample_prog.stmts) ∧
    pluto_pad_stmt_transformations sample_prog = .ok sample_prog :=
  ⟨⟨_, rfl, (mutation_sched_rows sample_prog (by decide)).1 0 0 "j" PlutoHypType.H_LOOP _ rfl⟩,
   ⟨_, rfl, (mutation_sched_rows sample_prog (by decide)).2.2.2.2.1 1
      PlutoHypType.H_SCALAR _ rfl⟩,
   (mutation_sched_rows sample_prog (by decide)).2.2.2.2.2.1⟩


/-! ## C3: effect of `pluto_stmt_add_dim` on the dependence polytopes -/

theorem insertAt_getD (l : List Int) : ∀ (p j : Nat),
    (insertAt l p 0).getD j 0
      = if j < p then l.getD j 0 else if j = p then 0 else l.getD (j - 1) 0 := by
  induction l with
  | nil =>
    intro p j
    have h1 : insertAt ([] : List Int) p 0 = [0] := by simp [insertAt]
    rw [h1]
    cases j <;> simp
  | cons a as ih =>
    intro p j
    cases p with
    | zero =>
      have h1 : insertAt (a :: as) 0 0 = 0 :: a :: as := by simp [insertAt]
      rw [h1]
      cases j <;> simp
    | succ p =>
      have h1 : insertAt (a :: as) (p + 1) 0 = a :: insertAt as p 0 := by simp [insertAt]
      rw [h1]
      cases j with
      | zero => simp
      | succ j =>
        simp only [List.getD_cons_succ, ih p j, Nat.add_lt_add_iff_right,
          Nat.add_right_cancel_iff, Nat.add_sub_cancel]
        by_cases h1 : j < p
        · simp [h1]
        · by_cases h2 : j = p
          · simp [h2]
          · simp only [h1, h2, if_false]
            obtain ⟨k, rfl⟩ : ∃ k, j = k + 1 := ⟨j - 1, by omega⟩
            simp

theorem constraints_add_dim_zero_col {c c2 : PlutoConstraints} {pos : Int}
    (h : pluto_constraints_add_dim c pos = .ok c2) :
    ZeroColInserted c c2 pos.toNat := by
  obtain ⟨_, rfl⟩ := constraints_add_dim_ok.mp h
  refine ⟨rfl, by simp, ?_⟩
  intro i r1 r2 h1 h2
  rw [List.get?_eq_getElem?] at h1 h2
  rw [List.getElem?_map, h1] at h2
  simp only [Option.map_some', Option.some.injEq] at h2
  subst h2
  exact ⟨rfl, insertAt_length _ _ _, insertAt_getD _ _⟩

theorem dep_cols_ok_iff {prog : PlutoProg} {d : Dep} :
    dep_cols_ok prog d = true ↔
      ∃ s t, cIndex prog.stmts d.src = .ok s ∧ cIndex prog.stmts d.dest = .ok t ∧
        (d.dpolytope.ncols : Int) = s.dim + t.dim + prog.npar + 1 := by
  unfold dep_cols_ok
  cases hs : cIndex prog.stmts d.src with
  | error e => simp
  | ok s =>
    cases ht : cIndex prog.stmts d.dest with
    | error e => simp
    | ok t => simp

theorem cIndex_set {l : List Stmt} {si : Nat} {x a : Stmt} {i : Int}
    (hlt : si < l.length) :
    cIndex (l.set si x) i = .ok a ↔
      (i = (si : Int) ∧ a = x) ∨ (i ≠ (si : Int) ∧ cIndex l i = .ok a) := by
  rw [cIndex_eq_ok, cIndex_eq_ok]
  by_cases hi : i = (si : Int)
  · subst hi
    simp only [Int.toNat_ofNat, List.get?_eq_getElem?, ne_eq, not_true_eq_false, false_and,
      or_false, true_and, Int.natCast_nonneg]
    rw [List.getElem?_set_self hlt]
    simp [eq_comm]
  · simp only [hi, false_and, ne_eq, not_false_eq_true, true_and, false_or]
    constructor
    · rintro ⟨h0, h⟩
      refine ⟨h0, ?_⟩
      simp only [List.get?_eq_getElem?] at h ⊢
      rwa [List.getElem?_set_ne] at h
      intro hc
      apply hi
      rw [hc]
      exact (Int.toNat_of_nonneg h0).symm
    · rintro ⟨h0, h⟩
      refine ⟨h0, ?_⟩
      simp only [List.get?_eq_getElem?] at h ⊢
      rwa [List.getElem?_set_ne]
      intro hc
      apply hi
      rw [hc]
      exact (Int.toNat_of_nonneg h0).symm

theorem add_dim_dep_effect {stmts : List Stmt} {si : Nat} {x : Stmt} {pos : Int} {d d2 : Dep}
    (hlt : si < stmts.length)
    (h : add_dim_dep (stmts.set si x) (si : Int) pos d = .ok d2) :
    AddDimDepEffect stmts si (x.dim - 1) pos d d2 := by
  simp only [add_dim_dep, bind_eq_ok, pure_eq_ok] at h
  obtain ⟨p1, hp1, p2, hp2, rfl⟩ := h
  refine ⟨rfl, ?_, ?_, ?_, ?_⟩
  · intro hs hd
    simp only [hs, if_true] at hp1
    simp only [hd, if_false] at hp2
    cases hp2
    exact constraints_add_dim_zero_col hp1
  · intro hs hd
    simp only [hs, if_false] at hp1
    cases hp1
    simp only [hd, if_true] at hp2
    obtain ⟨s, hsi, hadd⟩ := bind_eq_ok.mp hp2
    rcases (cIndex_set hlt).mp hsi with ⟨hc, _⟩ | ⟨_, hc⟩
    · exact absurd hc hs
    · exact ⟨s, hc, constraints_add_dim_zero_col hadd⟩
  · intro hs hd
    simp only [hs, if_true] at hp1
    simp only [hd, if_true] at hp2
    obtain ⟨s, hsi, hadd⟩ := bind_eq_ok.mp hp2
    rcases (cIndex_set hlt).mp hsi with ⟨_, hc⟩ | ⟨hc, _⟩
    · subst hc
      refine ⟨p1, constraints_add_dim_zero_col hp1, ?_⟩
      have := constraints_add_dim_zero_col hadd
      simpa using this
    · exact absurd hs hc
  · intro hs hd
    simp only [hs, if_false] at hp1
    cases hp1
    simp only [hd, if_false] at hp2
    cases hp2
    rfl


theorem add_dim_effect_cols {stmts : List Stmt} {si : Nat} {sdim pos : Int} {d d2 : Dep}
    (h : AddDimDepEffect stmts si sdim pos d d2) :
    d2.src = d.src ∧ d2.dest = d.dest ∧
    d2.dpolytope.ncols = d.dpolytope.ncols + (if d.src = (si : Int) then 1 else 0)
      + (if d.dest = (si : Int) then 1 else 0) := by
  obtain ⟨heq, h1, h2, h3, h4⟩ := h
  refine ⟨by rw [heq], by rw [heq], ?_⟩
  by_cases hs : d.src = (si : Int) <;> by_cases hd : d.dest = (si : Int)
  · obtain ⟨mid, hm1, hm2⟩ := h3 hs hd
    simp [hs, hd, hm1.1, hm2.1]
  · simp [hs, hd, (h1 hs hd).1]
  · obtain ⟨s, _, hz⟩ := h2 hs hd
    simp [hs, hd, hz.1]
  · simp [hs, hd, h4 hs hd]

theorem dep_cols_ok_congr {p q : PlutoProg} (h1 : p.stmts = q.stmts) (h2 : p.npar = q.npar)
    (d : Dep) : dep_cols_ok p d = dep_cols_ok q d := by
  unfold dep_cols_ok
  rw [h1, h2]

theorem add_dim_deps_list {prog prog2 : PlutoProg} {si : Nat} {sid : Int} {x stmt : Stmt}
    {pos : Int} {l l2 : List Dep} (hs : prog.stmts.get? si = some stmt)
    (hsid : sid = (si : Int))
    (hst : prog2.stmts = prog.stmts.set si x) (hnp : prog2.npar = prog.npar)
    (hx : x.dim = stmt.dim + 1)
    (hinv : ∀ d ∈ l, dep_cols_ok prog d = true)
    (h : mapE (add_dim_dep (prog.stmts.set si x) sid pos) l = .ok l2) :
    (l2.length = l.length ∧
      ∀ i d d2, l.get? i = some d → l2.get? i = some d2 →
        AddDimDepEffect prog.stmts si stmt.dim pos d d2) ∧
    ∀ d2 ∈ l2, dep_cols_ok prog2 d2 = true := by
  subst hsid
  have hcg : ∀ d, dep_cols_ok prog2 d
      = dep_cols_ok { prog with stmts := prog.stmts.set si x } d :=
    fun d => dep_cols_ok_congr (q := { prog with stmts := prog.stmts.set si x }) hst hnp d
  simp only [hcg]
  have hlt : si < prog.stmts.length := (List.get?_eq_some.mp hs).1
  have hf := mapE_forall2 _ _ _ h
  have heff : ∀ d d2, add_dim_dep (prog.stmts.set si x) (si : Int) pos d = .ok d2 →
      AddDimDepEffect prog.stmts si stmt.dim pos d d2 := by
    intro d d2 hd
    have := add_dim_dep_effect hlt hd
    rw [hx] at this
    simpa using this
  refine ⟨⟨mapE_length _ _ _ h, fun i d d2 h1 h2 => heff d d2 (forall2_get? hf i d d2 h1 h2)⟩, ?_⟩
  intro d2 hd2
  obtain ⟨d, hd, hfd⟩ := forall2_mem_right hf d2 hd2
  obtain ⟨hsrc, hdest, hcols⟩ := add_dim_effect_cols (heff d d2 hfd)
  obtain ⟨s, t, hcs, hct, hn⟩ := dep_cols_ok_iff.mp (hinv d hd)
  have hstmt : cIndex prog.stmts (si : Int) = .ok stmt := cIndex_nat.mpr hs
  rw [dep_cols_ok_iff]
  simp only [hsrc, hdest]
  by_cases h1 : d.src = (si : Int) <;> by_cases h2 : d.dest = (si : Int)
  · rw [h1] at hcs; rw [h2] at hct
    rw [hstmt] at hcs hct
    cases hcs; cases hct
    refine ⟨x, x, (cIndex_set hlt).mpr (Or.inl ⟨h1, rfl⟩),
      (cIndex_set hlt).mpr (Or.inl ⟨h2, rfl⟩), ?_⟩
    simp only [hcols, h1, h2, if_true, hx]
    push_cast
    omega
  · rw [h1] at hcs
    rw [hstmt] at hcs
    cases hcs
    refine ⟨x, t, (cIndex_set hlt).mpr (Or.inl ⟨h1, rfl⟩),
      (cIndex_set hlt).mpr (Or.inr ⟨h2, hct⟩), ?_⟩
    simp only [hcols, h1, h2, if_true, if_false, hx]
    push_cast
    omega
  · rw [h2] at hct
    rw [hstmt] at hct
    cases hct
    refine ⟨s, x, (cIndex_set hlt).mpr (Or.inr ⟨h1, hcs⟩),
      (cIndex_set hlt).mpr (Or.inl ⟨h2, rfl⟩), ?_⟩
    simp only [hcols, h1, h2, if_true, if_false, hx]
    push_cast
    omega
  · refine ⟨s, t, (cIndex_set hlt).mpr (Or.inr ⟨h1, hcs⟩),
      (cIndex_set hlt).mpr (Or.inr ⟨h2, hct⟩), ?_⟩
    simp only [hcols, h1, h2, if_false]
    push_cast
    omega

theorem deps_cols_ok_iff {prog : PlutoProg} :
    deps_cols_ok prog = true ↔
      (∀ d ∈ prog.deps, dep_cols_ok prog d = true) ∧
      (∀ d ∈ prog.transdeps, dep_cols_ok prog d = true) := by
  simp [deps_cols_ok, List.all_eq_true]

/-- C3: for every program satisfying the dependence-column invariant and every
statement `s` of it (at position `si`, with `id = si`), a returning call
`pluto_stmt_add_dim(s, pos, ...)` (which requires `0 <= pos <= s.dim`) keeps both
dependence lists in place and changes each dependence only in its polytope: one zero
column at index `pos` if `s` is the source only, one at index (source dimensionality +
`pos`) if `s` is the destination only, both for a self-dependence (the second index
counted with the dimensionality already incremented), nothing otherwise; every
dependence still has `columns = src.dim + dest.dim + npar + 1`. For `pos = 0` and `s`
the source only, the polytope gains one zero column at offset 0 and every former
column `j` is found unchanged at `j + 1`. -/
theorem add_dim_dependences (prog prog2 : PlutoProg) (si : Nat) (pos time_pos : Int)
    (iter : String) (hyp_type : PlutoHypType) (stmt : Stmt)
    (hinv : deps_cols_ok prog = true)
    (hs : prog.stmts.get? si = some stmt) (hid : stmt.id = (si : Int))
    (h : pluto_stmt_add_dim prog si pos time_pos iter hyp_type = .ok prog2) :
    (0 ≤ pos ∧ pos ≤ stmt.dim) ∧
    (prog2.deps.length = prog.deps.length ∧
      ∀ i d d2, prog.deps.get? i = some d → prog2.deps.get? i = some d2 →
        AddDimDepEffect prog.stmts si stmt.dim pos d d2) ∧
    (prog2.transdeps.length = prog.transdeps.length ∧
      ∀ i d d2, prog.transdeps.get? i = some d → prog2.transdeps.get? i = some d2 →
        AddDimDepEffect prog.stmts si stmt.dim pos d d2) ∧
    deps_cols_ok prog2 = true ∧
    (pos = 0 → ∀ i d d2, prog.deps.get? i = some d → prog2.deps.get? i = some d2 →
      d.src = (si : Int) → d.dest ≠ (si : Int) →
      d2.dpolytope.ncols = d.dpolytope.ncols + 1 ∧
      ∀ k r1 r2, d.dpolytope.rows.get? k = some r1 → d2.dpolytope.rows.get? k = some r2 →
        r2.val.getD 0 0 = 0 ∧ ∀ j, r2.val.getD (j + 1) 0 = r1.val.getD j 0) := by
  rw [deps_cols_ok_iff] at hinv
  simp only [pluto_stmt_add_dim, bind_eq_ok, pure_eq_ok, cAssert_eq_ok] at h
  obtain ⟨a, ha, _, hpos, t0, ht0, _, _, _, _, dom, hdom, t1, ht1, th, hth, w, _, r, _,
    deps, hdeps, tdeps, htdeps, hp2⟩ := h
  have ha2 := cIndex_nat.mp ha
  rw [hs] at ha2
  cases ha2
  obtain ⟨⟨hpos0, _⟩, _⟩ := constraints_add_dim_ok.mp hdom
  have hst := congrArg PlutoProg.stmts hp2.symm
  have hnp : prog2.npar = prog.npar := by rw [← hp2]
  have hde : prog2.deps = deps := by rw [← hp2]
  have htd : prog2.transdeps = tdeps := by rw [← hp2]
  obtain ⟨hd1, hd2⟩ := add_dim_deps_list hs hid hst hnp rfl hinv.1 hdeps
  obtain ⟨ht1, ht2⟩ := add_dim_deps_list hs hid hst hnp rfl hinv.2 htdeps
  rw [hde, htd]
  refine ⟨⟨hpos0, hpos⟩, hd1, ht1, ?_, ?_⟩
  · rw [deps_cols_ok_iff, hde, htd]
    exact ⟨hd2, ht2⟩
  · intro hp0 i d d2 h1 h2 hsrc hdest
    obtain ⟨_, hz, _⟩ := hd1.2 i d d2 h1 h2
    have hz := hz hsrc hdest
    subst hp0
    refine ⟨hz.1, ?_⟩
    intro k r1 r2 hr1 hr2
    obtain ⟨_, _, hj⟩ := hz.2.2 k r1 r2 hr1 hr2
    refine ⟨by simpa using hj 0, fun j => ?_⟩
    simpa using hj (j + 1)

/-- Witness of `add_dim_dependences`: a new outer dimension at position 0 of statement 0
of `sample_prog`, the source of the first dependence. -/
theorem add_dim_dependences_witness :
    ∃ prog2, pluto_stmt_add_dim sample_prog 0 0 (-1) "j" PlutoHypType.H_LOOP = .ok prog2 ∧
      (prog2.deps.map fun d => d.dpolytope)
        = [{ ncols := 4, rows := [⟨true, [0, 1, -1, 0]⟩] }, { ncols := 3, rows := [] }] ∧
      deps_cols_ok prog2 = true := by
  refine ⟨_, rfl, by decide, ?_⟩
  have h := add_dim_dependences sample_prog _ 0 0 (-1) "j" PlutoHypType.H_LOOP (sample_stmt 0)
    (by decide) rfl rfl
    (rfl : pluto_stmt_add_dim sample_prog 0 0 (-1) "j" PlutoHypType.H_LOOP = .ok _)
  exact h.2.2.2.1


/-! ## C4: `pluto_prog_add_param` and the dependence polytopes -/

theorem add_param_transdeps_unchanged (prog prog2 : PlutoProg) (param : String) (pos : Int)
    (h : pluto_prog_add_param prog param pos = .ok prog2) :
    prog2.transdeps = prog.transdeps ∧ prog2.npar = prog.npar + 1 := by
  obtain ⟨stmts, deps, context, _, _, _, _, rfl⟩ := add_param_ok_inv h
  exact ⟨rfl, rfl⟩

/-- C4 (failing input): `sample_prog` satisfies the dependence-column invariant on both
lists; `pluto_prog_add_param(prog, "N", 0)` returns with `npar = 1`, the main list
extended by one column and still consistent, but the transitive list exactly as it was,
so that its dependence has 3 columns where `src.dim + dest.dim + npar + 1` is 4. -/
theorem add_param_skips_transdeps :
    deps_cols_ok sample_prog = true ∧
    ∃ prog2, pluto_prog_add_param sample_prog "N" 0 = .ok prog2 ∧
      prog2.npar = 1 ∧
      prog2.deps.all (dep_cols_ok prog2) = true ∧
      prog2.transdeps = sample_prog.transdeps ∧
      (prog2.transdeps.map fun d => d.dpolytope.ncols) = [3] ∧
      prog2.transdeps.all (dep_cols_ok prog2) = false :=
  ⟨by decide, _, rfl, by decide, by decide, by decide, by decide, by decide⟩


/-! ## C5, C6: the polytope and the result of `pluto_dep_compose` -/

theorem dot_insertAt (r : List Int) : ∀ (p : Nat) (x : List Int),
    dot (insertAt r p 0) x = dot r (x.eraseIdx p) := by
  induction r with
  | nil =>
    intro p x
    have h1 : insertAt ([] : List Int) p 0 = [0] := by simp [insertAt]
    rw [h1]
    cases x <;> simp [dot]
  | cons a as ih =>
    intro p x
    cases p with
    | zero =>
      have h1 : insertAt (a :: as) 0 0 = 0 :: a :: as := by simp [insertAt]
      rw [h1]
      cases x with
      | nil => simp [dot]
      | cons b bs => simp [dot]
    | succ p =>
      have h1 : insertAt (a :: as) (p + 1) 0 = a :: insertAt as p 0 := by simp [insertAt]
      rw [h1]
      cases x with
      | nil => simp [dot]
      | cons b bs => simp [dot, ih p bs]

theorem eraseIdx_append_one (pt : List Int) (p : Nat) (h : p < pt.length) :
    (pt ++ [1]).eraseIdx p = pt.eraseIdx p ++ [1] := by
  rw [List.eraseIdx_append_of_lt_length h]

theorem holds_insertAt (r : CstRow) (p : Nat) (pt : List Int) (h : p < pt.length) :
    CstRow.holds { r with val := insertAt r.val p 0 } pt = r.holds (pt.eraseIdx p) := by
  unfold CstRow.holds
  simp only [dot_insertAt, eraseIdx_append_one pt p h]

theorem sat_add_dim {c c2 : PlutoConstraints} {pos : Int}
    (h : pluto_constraints_add_dim c pos = .ok c2) (pt : List Int)
    (hlen : pt.length + 1 = c2.ncols) :
    c2.sat pt = c.sat (pt.eraseIdx pos.toNat) := by
  obtain ⟨⟨h0, h1⟩, rfl⟩ := constraints_add_dim_ok.mp h
  simp only at hlen
  have hp : pos.toNat < pt.length := by omega
  unfold PlutoConstraints.sat
  have hl : (pt.eraseIdx pos.toNat).length + 1 = c.ncols := by
    rw [List.length_eraseIdx]
    simp only [hp, if_true]
    omega
  simp only [hlen, hl, decide_True, Bool.true_and, List.all_map]
  congr 1
  funext r
  exact holds_insertAt r _ pt hp

theorem eraseIdx_take_drop (pt : List Int) (q k : Nat) (hq : q + k < pt.length) :
    (pt.take q ++ pt.drop (q + k)).eraseIdx q = pt.take q ++ pt.drop (q + (k + 1)) := by
  have hlen : (pt.take q).length = q := by
    rw [List.length_take]; omega
  rw [List.eraseIdx_append_of_length_le (by omega)]
  simp only [hlen, Nat.sub_self]
  congr 1
  cases hd : pt.drop (q + k) with
  | nil =>
    have := congrArg List.length hd
    simp only [List.length_drop, List.length_nil] at this
    omega
  | cons a as =>
    simp only [List.eraseIdx_cons_zero]
    have : pt.drop (q + (k + 1)) = (pt.drop (q + k)).drop 1 := by
      rw [List.drop_drop]; congr 1
    rw [this, hd]
    rfl

theorem iter_add_dim (q : Int) (hq : 0 ≤ q) : ∀ (k : Nat) (c : PlutoConstraints),
    q + 1 ≤ (c.ncols : Int) →
    ∃ c2, iterE (fun c => pluto_constraints_add_dim c q) k c = .ok c2 ∧
      c2.ncols = c.ncols + k ∧
      ∀ pt : List Int, pt.length + 1 = c2.ncols →
        c2.sat pt = c.sat (pt.take q.toNat ++ pt.drop (q.toNat + k)) := by
  intro k
  induction k with
  | zero =>
    intro c _
    refine ⟨c, rfl, rfl, ?_⟩
    intro pt _
    simp
  | succ k ih =>
    intro c hc
    have hadd : pluto_constraints_add_dim c q
        = .ok { ncols := c.ncols + 1,
                rows := c.rows.map fun r => { r with val := insertAt r.val q.toNat 0 } } :=
      constraints_add_dim_ok.mpr ⟨⟨hq, hc⟩, rfl⟩
    obtain ⟨c2, hc2, hn, hsat⟩ := ih
      { ncols := c.ncols + 1,
        rows := c.rows.map fun r => { r with val := insertAt r.val q.toNat 0 } }
      (by show q + 1 ≤ ((c.ncols + 1 : Nat) : Int); push_cast; omega)
    refine ⟨c2, ?_, ?_, ?_⟩
    · simp only [iterE, hadd]
      exact hc2
    · rw [hn]; simp only; omega
    · intro pt hlen
      rw [hsat pt hlen]
      have hl2 : pt.length = c.ncols + 1 + k - 1 := by
        rw [hn] at hlen; simp only at hlen; omega
      have hqk : q.toNat + k < pt.length := by omega
      rw [sat_add_dim hadd]
      · rw [eraseIdx_take_drop pt q.toNat k hqk]
      · simp only [List.length_append, List.length_take, List.length_drop]
        omega

theorem sat_constraints_add {c1 c2 c3 : PlutoConstraints}
    (h : pluto_constraints_add c1 c2 = .ok c3) (pt : List Int) :
    c3.ncols = c1.ncols ∧ c1.ncols = c2.ncols ∧ c3.sat pt = (c1.sat pt && c2.sat pt) := by
  unfold pluto_constraints_add at h
  split at h
  · rename_i hn
    cases h
    refine ⟨rfl, hn, ?_⟩
    unfold PlutoConstraints.sat
    simp only [← hn, List.all_append]
    cases decide (pt.length + 1 = c1.ncols) <;> simp
  · cases h


theorem dot_pair (r : List Int) : ∃ a b : Int, ∀ x : Int, dot r [x, 1] = a * x + b := by
  cases r with
  | nil => exact ⟨0, 0, fun x => by simp [dot]⟩
  | cons a as =>
    cases as with
    | nil => exact ⟨a, 0, fun x => by simp [dot]⟩
    | cons b bs =>
      refine ⟨a, b, fun x => ?_⟩
      cases bs <;> simp [dot]

theorem holds_between (r : CstRow) (a m b : Int) (ham : a ≤ m) (hmb : m ≤ b)
    (ha : r.holds [a] = true) (hb : r.holds [b] = true) : r.holds [m] = true := by
  obtain ⟨α, β, hab⟩ := dot_pair r.val
  unfold CstRow.holds at ha hb ⊢
  simp only [List.cons_append, List.nil_append, hab] at ha hb ⊢
  cases hr : r.is_eq
  · simp only [hr, Bool.false_eq_true, if_false, decide_eq_true_eq] at ha hb ⊢
    rcases le_total 0 α with h | h
    · nlinarith [mul_le_mul_of_nonneg_left ham h]
    · nlinarith [mul_le_mul_of_nonpos_left hmb h]
  · simp only [hr, if_true, decide_eq_true_eq] at ha hb ⊢
    have h1 : α * (b - a) = 0 := by linarith
    rcases mul_eq_zero.mp h1 with h | h
    · subst h
      simp only [zero_mul, zero_add] at ha ⊢
      exact ha
    · have : m = a := by omega
      rw [this]
      exact ha

theorem sat_between (c : PlutoConstraints) (a m b : Int) (ham : a ≤ m) (hmb : m ≤ b)
    (ha : c.sat [a] = true) (hb : c.sat [b] = true) : c.sat [m] = true := by
  unfold PlutoConstraints.sat at ha hb ⊢
  simp only [Bool.and_eq_true, decide_eq_true_eq, List.all_eq_true, List.length_singleton]
    at ha hb ⊢
  exact ⟨ha.1, fun r hr => holds_between r a m b ham hmb (ha.2 r hr) (hb.2 r hr)⟩

theorem evens_not_finite_union (polys : List PlutoConstraints) :
    ¬ ∀ x : Int, (∃ c ∈ polys, c.sat [x] = true) ↔ ∃ y : Int, x = 2 * y := by
  intro h
  have hcov : ∀ k : Fin (polys.length + 1),
      ∃ i : Fin polys.length, (polys.get i).sat [2 * ((k : Nat) : Int)] = true := by
    intro k
    obtain ⟨c, hc, hs⟩ := (h (2 * ((k : Nat) : Int))).mpr ⟨((k : Nat) : Int), rfl⟩
    obtain ⟨i, hi⟩ := List.mem_iff_get.mp hc
    exact ⟨i, by rw [hi]; exact hs⟩
  choose f hf using hcov
  obtain ⟨k1, k2, hne, heq⟩ := Fintype.exists_ne_map_eq_of_card_lt f (by simp)
  have key : ∀ a b : Fin (polys.length + 1), (a : Nat) < (b : Nat) → f a = f b → False := by
    intro a b hlt hfab
    have ha := hf a
    have hb := hf b
    rw [← hfab] at hb
    have hm := sat_between (polys.get (f a)) (2 * ((a : Nat) : Int))
      (2 * ((a : Nat) : Int) + 1) (2 * ((b : Nat) : Int)) (by omega) (by omega) ha hb
    obtain ⟨y, hy⟩ := (h (2 * ((a : Nat) : Int) + 1)).mp ⟨_, List.get_mem _ _ _, hm⟩
    omega
  rcases Nat.lt_or_gt_of_ne (fun hc => hne (Fin.ext hc)) with hlt | hgt
  · exact key k1 k2 hlt heq
  · exact key k2 k1 hgt heq.symm

theorem evens_dep1_sat (x y : Int) :
    evens_dep1.dpolytope.sat [x, y] = true ↔ x = 2 * y := by
  simp [evens_dep1, sample_dep, PlutoConstraints.sat, CstRow.holds, dot]
  omega

theorem evens_dep2_sat (y : Int) : evens_dep2.dpolytope.sat [y] = true := by
  simp [evens_dep2, PlutoConstraints.sat]

/-- C5 (counterexample): `evens_dep1` (`i = 2j`) and `evens_dep2` (no constraint) are
chained and satisfy the column invariant in `evens_prog`. With the projection
`project_out_universe` the composer builds a polytope that contains the S0 instance 1
although no S1 instance `y` has `1 = 2y`. Whatever the projection and whatever polytope
the composer builds, its integer points are not exactly the instances `x` of S0 for
which an S1 instance `y` lies in both dependences: these are the even `x`, which are
not the integer points of a conjunction of affine constraints, nor of a finite union
of such conjunctions. -/
theorem compose_not_exact_projection :
    evens_dep1.dest = evens_dep2.src ∧
    dep_cols_ok evens_prog evens_dep1 = true ∧ dep_cols_ok evens_prog evens_dep2 = true ∧
    (∃ poly, compose_poly sample_env evens_dep1 evens_dep2 evens_prog = .ok poly ∧
      poly.sat [1] = true ∧
      ¬ ∃ y : Int, evens_dep1.dpolytope.sat [1, y] = true ∧
        evens_dep2.dpolytope.sat [y] = true) ∧
    (¬ ∃ (env : Env) (poly : PlutoConstraints),
      compose_poly env evens_dep1 evens_dep2 evens_prog = .ok poly ∧
      ∀ x : Int, poly.sat [x] = true ↔
        ∃ y : Int, evens_dep1.dpolytope.sat [x, y] = true ∧
          evens_dep2.dpolytope.sat [y] = true) ∧
    ¬ ∃ polys : List PlutoConstraints,
      ∀ x : Int, (∃ c ∈ polys, c.sat [x] = true) ↔
        ∃ y : Int, evens_dep1.dpolytope.sat [x, y] = true ∧
          evens_dep2.dpolytope.sat [y] = true := by
  have hex : ∀ x : Int, (∃ y : Int, evens_dep1.dpolytope.sat [x, y] = true ∧
      evens_dep2.dpolytope.sat [y] = true) ↔ ∃ y : Int, x = 2 * y := by
    intro x
    constructor
    · rintro ⟨y, hy, _⟩
      exact ⟨y, (evens_dep1_sat x y).mp hy⟩
    · rintro ⟨y, hy⟩
      exact ⟨y, (evens_dep1_sat x y).mpr hy, evens_dep2_sat y⟩
  refine ⟨rfl, by decide, by decide, ⟨_, rfl, by decide, ?_⟩, ?_, ?_⟩
  · rw [hex]
    rintro ⟨y, hy⟩
    omega
  · rintro ⟨env, poly, _, hiff⟩
    apply evens_not_finite_union [poly]
    intro x
    rw [← hex x, ← hiff x]
    simp
  · rintro ⟨polys, hiff⟩
    apply evens_not_finite_union polys
    intro x
    rw [← hex x]
    exact hiff x

theorem take_drop_outer (x y z p : List Int) :
    (x ++ y ++ z ++ p).take (x.length + y.length)
      ++ (x ++ y ++ z ++ p).drop (x.length + y.length + z.length) = x ++ y ++ p := by
  have e1 : x ++ y ++ z ++ p = (x ++ y) ++ (z ++ p) := by simp
  have e2 : x ++ y ++ z ++ p = (x ++ y ++ z) ++ p := by simp
  have t : ((x ++ y) ++ (z ++ p)).take (x.length + y.length) = x ++ y := by
    rw [List.take_left' (by simp only [List.length_append])]
  have d : ((x ++ y ++ z) ++ p).drop (x.length + y.length + z.length) = p := by
    rw [List.drop_left' (by simp only [List.length_append])]
  rw [← e1] at t
  rw [← e2] at d
  rw [t, d]

theorem take_drop_inner (x y z p : List Int) :
    (x ++ y ++ z ++ p).take x.length
      ++ (x ++ y ++ z ++ p).drop (x.length + y.length) = x ++ (z ++ p) := by
  have e1 : x ++ y ++ z ++ p = x ++ (y ++ z ++ p) := by simp
  have e2 : x ++ y ++ z ++ p = (x ++ y) ++ (z ++ p) := by simp
  have t : (x ++ (y ++ z ++ p)).take x.length = x := by
    rw [List.take_left' rfl]
  have d : ((x ++ y) ++ (z ++ p)).drop (x.length + y.length) = z ++ p := by
    rw [List.drop_left' (by simp only [List.length_append])]
  rw [← e1] at t
  rw [← e2] at d
  rw [t, d]

theorem drop_front (x y z p : List Int) :
    (x ++ y ++ z ++ p).take 0 ++ (x ++ y ++ z ++ p).drop (0 + x.length) = y ++ z ++ p := by
  have e1 : x ++ y ++ z ++ p = x ++ (y ++ z ++ p) := by simp
  have d : (x ++ (y ++ z ++ p)).drop x.length = y ++ z ++ p := by
    rw [List.drop_left' rfl]
  rw [← e1] at d
  simp only [List.take_zero, List.nil_append, Nat.zero_add]
  exact d

/-- C5 (amended): for chained dependences `dep1 : S1 -> S2` and `dep2 : S2 -> S3` whose
polytopes satisfy the column invariant (dimensionalities and `npar` non-negative),
`pluto_dep_compose` builds the conjunction `d3` of the two embedded polytopes: it has
`S1.dim + S2.dim + S3.dim + npar + 1` columns and contains `(x, y, z, p)` exactly when
`(x, y, p)` is in `dep1` and `(y, z, p)` in `dep2`. The polytope of the result is the
library projection of `d3` over the columns of S2; when that projection is sound
(`ProjectOutSound`) it has `S1.dim + S3.dim + npar + 1` columns and contains every
`(x, z, p)` for which an S2 iteration `y` lies in both dependences. -/
theorem compose_poly_spec (env : Env) (prog : PlutoProg) (dep1 dep2 : Dep) (s1 s2 s3 : Stmt)
    (hchain : dep1.dest = dep2.src)
    (h1 : cIndex prog.stmts dep1.src = .ok s1) (h2 : cIndex prog.stmts dep2.src = .ok s2)
    (h3 : cIndex prog.stmts dep2.dest = .ok s3)
    (hc1 : (dep1.dpolytope.ncols : Int) = s1.dim + s2.dim + prog.npar + 1)
    (hc2 : (dep2.dpolytope.ncols : Int) = s2.dim + s3.dim + prog.npar + 1)
    (hd1 : 0 ≤ s1.dim) (hd2 : 0 ≤ s2.dim) (hd3 : 0 ≤ s3.dim) (hnp : 0 ≤ prog.npar) :
    ∃ d3, compose_conj dep1 dep2 prog = .ok (d3, s1.dim, s2.dim) ∧
      compose_poly env dep1 dep2 prog = env.project_out d3 s1.dim s2.dim ∧
      (d3.ncols : Int) = s1.dim + s2.dim + s3.dim + prog.npar + 1 ∧
      (∀ x y z p : List Int, (x.length : Int) = s1.dim → (y.length : Int) = s2.dim →
        (z.length : Int) = s3.dim → (p.length : Int) = prog.npar →
        d3.sat (x ++ y ++ z ++ p)
          = (dep1.dpolytope.sat (x ++ y ++ p) && dep2.dpolytope.sat (y ++ z ++ p))) ∧
      (ProjectOutSound env → ∀ poly, compose_poly env dep1 dep2 prog = .ok poly →
        (poly.ncols : Int) = s1.dim + s3.dim + prog.npar + 1 ∧
        ∀ x y z p : List Int, (x.length : Int) = s1.dim → (y.length : Int) = s2.dim →
          (z.length : Int) = s3.dim → (p.length : Int) = prog.npar →
          dep1.dpolytope.sat (x ++ y ++ p) = true → dep2.dpolytope.sat (y ++ z ++ p) = true →
          poly.sat (x ++ z ++ p) = true) := by
  obtain ⟨d1a, hd1a, hn1, hsat1⟩ :=
    iter_add_dim (s1.dim + s2.dim) (by omega) s3.dim.toNat dep1.dpolytope (by omega)
  obtain ⟨d2a, hd2a, hn2, hsat2⟩ :=
    iter_add_dim 0 (le_refl 0) s1.dim.toNat dep2.dpolytope (by omega)
  have hcols : d1a.ncols = d2a.ncols := by omega
  have hadd : pluto_constraints_add d1a d2a
      = .ok { ncols := d1a.ncols, rows := d1a.rows ++ d2a.rows } := by
    unfold pluto_constraints_add
    rw [if_pos hcols]
  have hconj : compose_conj dep1 dep2 prog
      = .ok ({ ncols := d1a.ncols, rows := d1a.rows ++ d2a.rows }, s1.dim, s2.dim) := by
    simp only [compose_conj, bind, Except.bind, cAssert, hchain, if_true, h1, h2, h3,
      pluto_constraints_dup, hd1a, hd2a, hadd, pure, Except.pure]
  have hd3cols : ((d1a.ncols : Nat) : Int) = s1.dim + s2.dim + s3.dim + prog.npar + 1 := by
    omega
  have hsat : ∀ x y z p : List Int, (x.length : Int) = s1.dim → (y.length : Int) = s2.dim →
      (z.length : Int) = s3.dim → (p.length : Int) = prog.npar →
      PlutoConstraints.sat { ncols := d1a.ncols, rows := d1a.rows ++ d2a.rows }
          (x ++ y ++ z ++ p)
        = (dep1.dpolytope.sat (x ++ y ++ p) && dep2.dpolytope.sat (y ++ z ++ p)) := by
    intro x y z p hx hy hz hp
    rw [(sat_constraints_add hadd (x ++ y ++ z ++ p)).2.2]
    have hlen : (x ++ y ++ z ++ p).length + 1 = d1a.ncols := by
      simp only [List.length_append]
      omega
    rw [hsat1 _ hlen, hsat2 _ (by omega)]
    have e1 : (s1.dim + s2.dim).toNat = x.length + y.length := by omega
    have e2 : s3.dim.toNat = z.length := by omega
    have e3 : s1.dim.toNat = x.length := by omega
    have e4 : (0 : Int).toNat = 0 := rfl
    rw [e1, e2, e3, e4, take_drop_outer, drop_front]
  have hpoly : compose_poly env dep1 dep2 prog
      = env.project_out { ncols := d1a.ncols, rows := d1a.rows ++ d2a.rows } s1.dim s2.dim := by
    simp only [compose_poly, hconj, bind, Except.bind]
  refine ⟨_, hconj, hpoly, hd3cols, hsat, ?_⟩
  intro hsound poly hp
  rw [hpoly] at hp
  obtain ⟨hn, hmem⟩ := hsound _ s1.dim s2.dim poly hd1 hd2 (by simp only; omega) hp
  simp only at hn
  refine ⟨by omega, ?_⟩
  intro x y z p hx hy hz hpp hs1 hs2
  have h := hmem (x ++ y ++ z ++ p) (by rw [hsat x y z p hx hy hz hpp, hs1, hs2]; rfl)
  have e1 : s1.dim.toNat = x.length := by omega
  have e2 : s2.dim.toNat = y.length := by omega
  rw [e1, e2, take_drop_inner] at h
  simpa using h

theorem project_out_universe_sound : ProjectOutSound sample_env := by
  intro c start num r h0 h1 h2 h
  simp only [sample_env, project_out_universe] at h
  cases h
  refine ⟨by simp only; omega, ?_⟩
  intro pt hpt
  unfold PlutoConstraints.sat at hpt ⊢
  simp only [Bool.and_eq_true, decide_eq_true_eq] at hpt
  simp only [List.all_nil, Bool.and_true, decide_eq_true_eq, List.length_append,
    List.length_take, List.length_drop]
  omega

/-- Witness of `compose_poly_spec` on the chained dependences of `evens_prog`, with the
sound projection of `sample_env`: the conjunction has 3 columns and the built polytope
contains the S0 instance 4 (through the S1 instance 2). -/
theorem compose_poly_spec_witness :
    ∃ d3, compose_conj evens_dep1 evens_dep2 evens_prog = .ok (d3, 1, 1) ∧
      (d3.ncols : Int) = 3 ∧
      d3.sat [4, 2] = true ∧
      ∀ poly, compose_poly sample_env evens_dep1 evens_dep2 evens_prog = .ok poly →
        (poly.ncols : Int) = 2 ∧ poly.sat [4] = true := by
  obtain ⟨d3, h1, _, h3, h4, h5⟩ :=
    compose_poly_spec sample_env evens_prog evens_dep1 evens_dep2 (sample_stmt 0)
      (sample_stmt 1) (point_stmt 2) rfl rfl rfl rfl (by decide) (by decide) (by decide)
      (by decide) (by decide) (by decide)
  refine ⟨d3, h1, by simpa using h3, ?_, ?_⟩
  · have := h4 [4] [2] [] [] rfl rfl rfl rfl
    simp only [List.append_nil] at this
    rw [show ([4] : List Int) ++ [2] = [4, 2] from rfl] at this
    rw [this]
    decide
  · intro poly hp
    obtain ⟨hc, hm⟩ := h5 project_out_universe_sound poly hp
    refine ⟨by simpa using hc, ?_⟩
    have := hm [4] [2] [] [] rfl rfl rfl rfl (by decide) (by decide)
    simpa using this


theorem compose_conj_chained {dep1 dep2 : Dep} {prog : PlutoProg}
    {r : PlutoConstraints × Int × Int} (h : compose_conj dep1 dep2 prog = .ok r) :
    dep1.dest = dep2.src := by
  simp only [compose_conj, bind_eq_ok, cAssert_eq_ok] at h
  obtain ⟨_, hc, _⟩ := h
  exact hc

/-- C6: whenever the projection of `pluto_dep_compose(dep1, dep2, prog)` yields the
composed polytope `poly` (which requires `dep1.dest = dep2.src`) and the library's
emptiness test is exact on it, the call returns; it returns no dependence exactly when
the test finds `poly` empty, that is exactly when `poly` has no integer point, and
otherwise a new dependence (as `pluto_dep_alloc`
leaves it) with `src = dep1.src`, `dest = dep2.dest`, the source access of `dep1`, the
destination access of `dep2` and polytope `poly`; in both cases `dep1` and `dep2`,
polytopes included, are as before the call. -/
theorem dep_compose_result (env : Env) (dep1 dep2 : Dep) (prog : PlutoProg)
    (poly : PlutoConstraints)
    (hp : compose_poly env dep1 dep2 prog = .ok poly)
    (hempty : env.is_empty poly = true ↔ ∀ pt, poly.sat pt = false) :
    dep1.dest = dep2.src ∧
    ∃ out, pluto_dep_compose env dep1 dep2 prog = .ok out ∧
      (out.ret = none ↔ env.is_empty poly = true) ∧
      (out.ret = none ↔ ∀ pt, poly.sat pt = false) ∧
      (∀ dep, out.ret = some dep →
        dep.src = dep1.src ∧ dep.dest = dep2.dest ∧ dep.src_acc = dep1.src_acc ∧
        dep.dest_acc = dep2.dest_acc ∧ dep.dpolytope = poly ∧
        dep.id = -1 ∧ dep.satisfied = false ∧ dep.satisfaction_level = -1) ∧
      out.dep1 = dep1 ∧ out.dep2 = dep2 := by
  constructor
  · simp only [compose_poly, bind_eq_ok] at hp
    obtain ⟨c, hc, _⟩ := hp
    exact compose_conj_chained hc
  · by_cases he : env.is_empty poly = true
    · refine ⟨{ dep1 := dep1, dep2 := dep2, ret := none }, ?_, ?_, ?_, ?_, rfl, rfl⟩
      · simp only [pluto_dep_compose, hp, bind, Except.bind, he, if_true, pure, Except.pure]
      · simp only [he]
      · simp only [true_iff]
        exact hempty.mp he
      · intro dep hd
        cases hd
    · refine ⟨{ dep1 := dep1, dep2 := dep2,
                ret := some { pluto_dep_alloc env.fresh with
                  src := dep1.src, dest := dep2.dest, src_acc := dep1.src_acc,
                  dest_acc := dep2.dest_acc, dpolytope := poly } }, ?_, ?_, ?_, ?_, ?_, ?_⟩
      · simp only [pluto_dep_compose, hp, bind, Except.bind, he, Bool.false_eq_true, if_false,
          pure, Except.pure]
      · simp only [he, reduceCtorEq]
      · simp only [false_iff, reduceCtorEq]
        exact fun h => he (hempty.mpr h)
      · intro dep hd
        cases hd
        simp [pluto_dep_alloc]
      · rfl
      · rfl

/-- Witness of `dep_compose_result` on the chained dependences of `evens_prog`: the
composed polytope has the integer point 0, so a dependence S0 -> S2 is returned. -/
theorem dep_compose_result_witness :
    evens_dep1.dest = evens_dep2.src ∧
    ∃ out, pluto_dep_compose sample_env evens_dep1 evens_dep2 evens_prog = .ok out ∧
      (out.ret = none ↔ sample_env.is_empty { ncols := 2, rows := [] } = true) ∧
      (out.ret = none ↔
        ∀ pt, PlutoConstraints.sat { ncols := 2, rows := [] } pt = false) ∧
      (∀ dep, out.ret = some dep →
        dep.src = evens_dep1.src ∧ dep.dest = evens_dep2.dest ∧
        dep.src_acc = evens_dep1.src_acc ∧ dep.dest_acc = evens_dep2.dest_acc ∧
        dep.dpolytope = { ncols := 2, rows := [] } ∧
        dep.id = -1 ∧ dep.satisfied = false ∧ dep.satisfaction_level = -1) ∧
      out.dep1 = evens_dep1 ∧ out.dep2 = evens_dep2 := by
  refine dep_compose_result sample_env evens_dep1 evens_dep2 evens_prog
    { ncols := 2, rows := [] } rfl ⟨fun h => ?_, fun h => ?_⟩
  · cases h
  · have h0 := h [0]
    revert h0
    decide


/-! ## C12, C19: the matrix converters -/

theorem mapE_ok_of_forall {α β : Type} (f : α → Except Fault β) (g : α → β) (l : List α)
    (h : ∀ a ∈ l, f a = .ok (g a)) : mapE f l = .ok (l.map g) := by
  induction l with
  | nil => rfl
  | cons a as ih =>
    simp [mapE, h a (by simp), ih (fun b hb => h b (by simp [hb]))]

theorem map_c_int (v : List Int) : v.map c_int = v := by
  induction v with
  | nil => rfl
  | cons a as ih => rw [List.map_cons, ih]; rfl

theorem mapE_guard {α β : Type} (P : α → Prop) [DecidablePred P] (g : α → β) (l : List α) :
    mapE (fun a => if P a then Except.ok (g a) else Except.error Fault.assertion) l
      = if ∀ a ∈ l, P a then .ok (l.map g) else .error Fault.assertion := by
  induction l with
  | nil => simp [mapE]
  | cons a as ih =>
    unfold mapE
    by_cases hp : P a
    · simp only [hp, if_true, ih]
      by_cases hall : ∀ b ∈ as, P b
      · rw [if_pos hall, if_pos (by simpa [hp] using hall)]
        rfl
      · rw [if_neg hall, if_neg (by simpa [hp] using hall)]
    · rw [if_neg hp, if_neg (fun h => hp (h a (by simp)))]

/-- C12 (counterexample): the one-row external matrix `[2 7]` (tag 2, one coefficient)
comes back from the round trip as `[1 7]`: the tag is normalised to 1. -/
theorem constraints_roundtrip_tag_counterexample :
    pluto_constraints_to_scoplib_matrix
        (scoplib_matrix_to_pluto_constraints { NbColumns := 2, p := [[2, 7]] })
      = { NbColumns := 2, p := [[1, 7]] } ∧
    pluto_constraints_to_scoplib_matrix
        (scoplib_matrix_to_pluto_constraints { NbColumns := 2, p := [[2, 7]] })
      ≠ { NbColumns := 2, p := [[2, 7]] } := by
  decide

/-- C12 (amended): for every internal constraint system `c`,
`scoplib_matrix_to_pluto_constraints(pluto_constraints_to_scoplib_matrix(c))` is `c`
(same columns, rows, equality flags and coefficients); and for every external tagged
matrix `m` whose rows have their `NbColumns >= 1` entries,
`pluto_constraints_to_scoplib_matrix(scoplib_matrix_to_pluto_constraints(m))` is `m`
with the tag of every row replaced by 0 when it is 0 and by 1 otherwise: the
coefficients of every row are unchanged, a row with tag 0 or 1 comes back as it was, a
row with any other tag comes back with tag 1, and the round trip returns `m` itself,
entry for entry, exactly when every tag is 0 or 1. -/
theorem constraints_roundtrip (c : PlutoConstraints) (m : ScoplibMatrix)
    (hwf : m.wf = true) :
    scoplib_matrix_to_pluto_constraints (pluto_constraints_to_scoplib_matrix c) = c ∧
    pluto_constraints_to_scoplib_matrix (scoplib_matrix_to_pluto_constraints m)
      = { NbColumns := m.NbColumns,
          p := m.p.map fun r => (if r.headD 0 = 0 then 0 else 1) :: r.tail } ∧
    (∀ (i : Nat) (r : List Int), m.p.get? i = some r →
      ∃ r2, (pluto_constraints_to_scoplib_matrix
              (scoplib_matrix_to_pluto_constraints m)).p.get? i = some r2 ∧
        r2.tail = r.tail ∧ r2.length = r.length ∧
        (r.headD 0 = 0 ∨ r.headD 0 = 1 → r2 = r) ∧
        (r.headD 0 ≠ 0 → r2.headD 0 = 1)) ∧
    (pluto_constraints_to_scoplib_matrix (scoplib_matrix_to_pluto_constraints m) = m ↔
      m.tags01 = true) := by
  have hwf2 := hwf
  simp only [ScoplibMatrix.wf, Bool.and_eq_true, decide_eq_true_eq, List.all_eq_true]
    at hwf2
  have hrow : ∀ r ∈ m.p, ∃ a as, r = a :: as := by
    intro r hr
    have hlen := hwf2.2 r hr
    cases r with
    | nil => simp at hlen; omega
    | cons a as => exact ⟨a, as, rfl⟩
  have hform : pluto_constraints_to_scoplib_matrix (scoplib_matrix_to_pluto_constraints m)
      = { NbColumns := m.NbColumns,
          p := m.p.map fun r => (if r.headD 0 = 0 then 0 else 1) :: r.tail } := by
    obtain ⟨n, p⟩ := m
    have h1 : 1 ≤ n := hwf2.1
    simp only [scoplib_matrix_to_pluto_constraints, pluto_constraints_to_scoplib_matrix,
      List.map_map, ScoplibMatrix.mk.injEq]
    refine ⟨by omega, ?_⟩
    apply List.map_congr_left
    intro r _
    by_cases h0 : r.headD 0 = 0 <;> simp [h0, map_c_int]
  refine ⟨?_, hform, ?_, ?_⟩
  · obtain ⟨n, rows⟩ := c
    simp only [scoplib_matrix_to_pluto_constraints, pluto_constraints_to_scoplib_matrix,
      Nat.add_sub_cancel, List.map_map, PlutoConstraints.mk.injEq, true_and]
    conv_rhs => rw [← List.map_id rows]
    apply List.map_congr_left
    intro r _
    obtain ⟨e, v⟩ := r
    cases e <;> simp [map_c_int]
  · intro i r hi
    rw [hform]
    refine ⟨(if r.headD 0 = 0 then 0 else 1) :: r.tail, ?_, rfl, ?_, ?_, ?_⟩
    · simp only [List.get?_eq_getElem?, List.getElem?_map] at hi ⊢
      rw [hi]
      rfl
    · obtain ⟨a, as, rfl⟩ := hrow r (List.get?_mem hi)
      simp
    · obtain ⟨a, as, rfl⟩ := hrow r (List.get?_mem hi)
      intro ht
      simp only [List.headD_cons] at ht ⊢
      rcases ht with rfl | rfl <;> simp
    · intro hne
      rw [List.headD_cons, if_neg hne]
  · rw [hform]
    constructor
    · intro h
      have hp : (m.p.map fun r => (if r.headD 0 = 0 then (0 : Int) else 1) :: r.tail) = m.p := by
        have := congrArg ScoplibMatrix.p h
        exact this
      simp only [ScoplibMatrix.tags01, List.all_eq_true, decide_eq_true_eq]
      intro r hr
      obtain ⟨i, hi⟩ := List.get?_of_mem hr
      have h2 := congrArg (fun l => l.get? i) hp
      simp only [List.get?_eq_getElem?, List.getElem?_map] at h2 hi
      rw [hi] at h2
      simp only [Option.map_some', Option.some.injEq] at h2
      by_cases h0 : r.headD 0 = 0
      · exact Or.inl h0
      · right
        rw [if_neg h0] at h2
        rw [← h2]
        rfl
    · intro ht
      simp only [ScoplibMatrix.tags01, List.all_eq_true, decide_eq_true_eq] at ht
      obtain ⟨n, p⟩ := m
      simp only [ScoplibMatrix.mk.injEq, true_and]
      conv_rhs => rw [← List.map_id p]
      apply List.map_congr_left
      intro r hr
      obtain ⟨a, as, rfl⟩ := hrow r hr
      have := ht _ hr
      simp only [List.headD_cons] at this ⊢
      rcases this with rfl | rfl <;> simp

/-- Witness of `constraints_roundtrip`: a system with an equality and an inequality,
and the external matrix with the rows `[0 1 -1]`, `[1 0 3]` and `[2 5 5]`, whose last
tag comes back as 1. -/
theorem constraints_roundtrip_witness :
    ({ NbColumns := 3, p := [[0, 1, -1], [1, 0, 3], [2, 5, 5]] } : ScoplibMatrix).wf = true ∧
    scoplib_matrix_to_pluto_constraints (pluto_constraints_to_scoplib_matrix
        { ncols := 2, rows := [⟨true, [1, -1]⟩, ⟨false, [0, 3]⟩] })
      = { ncols := 2, rows := [⟨true, [1, -1]⟩, ⟨false, [0, 3]⟩] } ∧
    pluto_constraints_to_scoplib_matrix (scoplib_matrix_to_pluto_constraints
        { NbColumns := 3, p := [[0, 1, -1], [1, 0, 3], [2, 5, 5]] })
      = { NbColumns := 3, p := [[0, 1, -1], [1, 0, 3], [1, 5, 5]] } :=
  ⟨by decide,
    (constraints_roundtrip { ncols := 2, rows := [⟨true, [1, -1]⟩, ⟨false, [0, 3]⟩] }
      { NbColumns := 3, p := [[0, 1, -1], [1, 0, 3], [2, 5, 5]] } (by decide)).1,
    (constraints_roundtrip { ncols := 2, rows := [⟨true, [1, -1]⟩, ⟨false, [0, 3]⟩] }
      { NbColumns := 3, p := [[0, 1, -1], [1, 0, 3], [2, 5, 5]] } (by decide)).2.1⟩

theorem schedule_to_trans_eq (smat : ScoplibMatrix) :
    scoplib_schedule_to_pluto_trans smat
      = if ∀ r ∈ smat.p, r.headD 0 = 0 then
          .ok { ncols := smat.NbColumns - 1, val := smat.p.map List.tail }
        else .error Fault.assertion := by
  unfold scoplib_schedule_to_pluto_trans
  rw [mapE_guard (fun r : List Int => r.headD 0 = 0) List.tail smat.p]
  by_cases h : ∀ r ∈ smat.p, r.headD 0 = 0
  · rw [if_pos h, if_pos h]
  · rw [if_neg h, if_neg h]

/-- C19: `scoplib_schedule_to_pluto_trans` aborts (assertion) if and only if some row of
the input schedule has a non-zero tag in column 0; otherwise it returns the matrix with
`NbRows` rows and `NbColumns - 1` columns whose entry `(i, j)` is the input entry
`(i, j+1)`; and `pluto_trans_to_scoplib_schedule` followed by
`scoplib_schedule_to_pluto_trans` returns the original matrix. -/
theorem schedule_to_trans_spec (smat : ScoplibMatrix) (mat : PlutoMatrix) :
    (scoplib_schedule_to_pluto_trans smat = .error Fault.assertion ↔
      ∃ r ∈ smat.p, r.headD 0 ≠ 0) ∧
    ((¬ ∃ r ∈ smat.p, r.headD 0 ≠ 0) →
      ∃ res, scoplib_schedule_to_pluto_trans smat = .ok res ∧
        res.nrows = smat.NbRows ∧ res.ncols = smat.NbColumns - 1 ∧
        ∀ i r, smat.p.get? i = some r →
          ∃ r2, res.val.get? i = some r2 ∧ r2.length = r.length - 1 ∧
            ∀ j, r2.getD j 0 = r.getD (j + 1) 0) ∧
    scoplib_schedule_to_pluto_trans (pluto_trans_to_scoplib_schedule mat) = .ok mat := by
  refine ⟨?_, ?_, ?_⟩
  · rw [schedule_to_trans_eq]
    by_cases h : ∀ r ∈ smat.p, r.headD 0 = 0
    · rw [if_pos h]
      constructor
      · intro hc
        cases hc
      · rintro ⟨r, hr, hne⟩
        exact absurd (h r hr) hne
    · rw [if_neg h]
      push_neg at h
      exact ⟨fun _ => h, fun _ => rfl⟩
  · intro h
    push_neg at h
    rw [schedule_to_trans_eq, if_pos h]
    refine ⟨_, rfl, by simp [PlutoMatrix.nrows, ScoplibMatrix.NbRows], rfl, ?_⟩
    intro i r hr
    refine ⟨r.tail, ?_, by simp, ?_⟩
    · simp only [List.get?_eq_getElem?] at hr ⊢
      simp [hr]
    · intro j
      cases r <;> simp
  · rw [schedule_to_trans_eq]
    obtain ⟨n, v⟩ := mat
    simp [pluto_trans_to_scoplib_schedule]
    conv_rhs => rw [← List.map_id v]
    apply List.map_congr_left
    intro r _
    simp

/-! ## C20: `deps_read` drops the all-zero rows -/

theorem remove_rows_loop_spec (n : Nat) (rest kept : List CstRow) (r del_count : Int)
    (h : r - del_count = (kept.length : Int)) :
    remove_rows_loop (rest.map fun x => x.val.all fun y => decide (y = 0)) r del_count
        { ncols := n, rows := kept ++ rest } =
      .ok { ncols := n,
            rows := kept ++ rest.filter fun x => !(x.val.all fun y => decide (y = 0)) } := by
  induction rest generalizing kept r del_count with
  | nil => rfl
  | cons a as ih =>
    rw [List.map_cons, remove_rows_loop]
    by_cases hz : (a.val.all fun y => decide (y = 0)) = true
    · rw [if_pos hz]
      have hrm : pluto_constraints_remove_row { ncols := n, rows := kept ++ a :: as }
          (r - del_count) = .ok { ncols := n, rows := kept ++ as } := by
        unfold pluto_constraints_remove_row
        rw [if_pos]
        · rw [h]
          simp only [Int.toNat_ofNat]
          congr 2
          rw [List.eraseIdx_append_of_length_le (le_refl _)]
          simp
        · rw [h]
          simp [PlutoConstraints.nrows]
      rw [hrm]
      simp only []
      rw [ih kept (r + 1) (del_count + 1) (by omega)]
      simp [List.filter_cons, hz]
    · rw [if_neg hz]
      have := ih (kept ++ [a]) (r + 1) del_count (by simp; omega)
      simp only [List.append_assoc, List.singleton_append] at this
      rw [this]
      simp [List.filter_cons, hz]

theorem drop_zero_rows_eq (c : PlutoConstraints) :
    drop_zero_rows c =
      .ok { ncols := c.ncols,
            rows := c.rows.filter fun x => !(x.val.all fun y => decide (y = 0)) } := by
  have := remove_rows_loop_spec c.ncols c.rows [] 0 0 (by simp)
  simpa [drop_zero_rows, zero_row_flags] using this

theorem deps_read_dep_polytope (prog : PlutoProg) (dep0 dep : Dep) (i : Nat)
    (cd : CandlDependence) (h : deps_read_dep prog dep0 i cd = .ok dep) :
    drop_zero_rows (candl_matrix_to_pluto_constraints cd.domain) = .ok dep.dpolytope := by
  simp only [deps_read_dep, bind_eq_ok, pure_eq_ok, cAssert_eq_ok] at h
  obtain ⟨accs, -, poly, hp, s, -, t, -, -, -, rfl⟩ := h
  exact hp

theorem deps_read_loop_polytope (fresh : Dep) (prog : PlutoProg) (cds : List CandlDependence) :
    ∀ (i : Nat) (deps : List Dep), deps_read_loop fresh prog i cds = .ok deps →
      List.Forall₂ (fun cd d =>
        drop_zero_rows (candl_matrix_to_pluto_constraints cd.domain) = .ok d.dpolytope)
        cds deps := by
  induction cds with
  | nil =>
    intro i deps h
    simp only [deps_read_loop] at h
    cases h
    exact List.Forall₂.nil
  | cons cd rest ih =>
    intro i deps h
    rw [deps_read_loop] at h
    cases hd : deps_read_dep prog (pluto_dep_alloc fresh) i cd with
    | error e => rw [hd] at h; cases h
    | ok d =>
      rw [hd] at h
      cases hr : deps_read_loop fresh prog (i + 1) rest with
      | error e => rw [hr] at h; cases h
      | ok ds =>
        rw [hr] at h
        cases h
        exact List.Forall₂.cons (deps_read_dep_polytope _ _ _ _ _ hd) (ih _ _ hr)

/-- C20: for every dependence read by `deps_read`, the finalized polytope consists of
exactly the rows of the converted input polytope that have a non-zero coefficient, in
their original order, with unchanged coefficients and equality flags, and no all-zero
row remains; the block that drops the rows always returns. -/
theorem deps_read_drops_zero_rows (fresh : Dep) (prog : PlutoProg)
    (candlDeps : List CandlDependence) (deps : List Dep)
    (h : deps_read fresh candlDeps prog = .ok deps) :
    (∀ c : PlutoConstraints, ∃ c2, drop_zero_rows c = .ok c2) ∧
    deps.length = candlDeps.length ∧
    ∀ (i : Nat) (cd : CandlDependence), candlDeps.get? i = some cd →
      ∃ d, deps.get? i = some d ∧
        d.dpolytope.ncols = (candl_matrix_to_pluto_constraints cd.domain).ncols ∧
        d.dpolytope.rows =
          (candl_matrix_to_pluto_constraints cd.domain).rows.filter
            (fun r => r.val.any fun x => decide (x ≠ 0)) ∧
        ∀ r ∈ d.dpolytope.rows, ∃ x ∈ r.val, x ≠ 0 := by
  have hall := deps_read_loop_polytope fresh prog candlDeps 0 deps h
  have hfilt : ∀ c : PlutoConstraints,
      (c.rows.filter fun x => !(x.val.all fun y => decide (y = 0))) =
        c.rows.filter (fun r => r.val.any fun x => decide (x ≠ 0)) := by
    intro c
    congr 1
    funext r
    induction r.val with
    | nil => rfl
    | cons a as ih =>
      simp only [List.all_cons, List.any_cons, Bool.not_and, ih]
      by_cases ha : a = 0 <;> simp [ha]
  refine ⟨fun c => ⟨_, drop_zero_rows_eq c⟩, hall.length_eq.symm, ?_⟩
  intro i cd hi
  obtain ⟨d, hd, hpd⟩ : ∃ d, deps.get? i = some d ∧
      drop_zero_rows (candl_matrix_to_pluto_constraints cd.domain) = .ok d.dpolytope := by
    clear h
    induction hall generalizing i with
    | nil => simp at hi
    | cons hab _ ih =>
      cases i with
      | zero =>
        simp only [List.get?_cons_zero, Option.some.injEq] at hi
        subst hi
        exact ⟨_, rfl, hab⟩
      | succ k => exact ih k hi
  rw [drop_zero_rows_eq, hfilt] at hpd
  have hpd2 := (Except.ok.inj hpd).symm
  refine ⟨d, hd, ?_, ?_, ?_⟩
  · rw [hpd2]
  · rw [hpd2]
  · intro r hr
    rw [hpd2] at hr
    have := (List.mem_filter.mp hr).2
    obtain ⟨x, hx, hx0⟩ := List.any_eq_true.mp this
    exact ⟨x, hx, of_decide_eq_true hx0⟩

theorem deps_read_drops_zero_rows_witness :
    ∃ deps, deps_read sample_env.fresh [access_candl_dep] access_prog = .ok deps ∧
      (deps.map fun d => d.dpolytope) =
        [{ ncols := 4, rows := [⟨true, [1, -1, 0, 1]⟩, ⟨false, [1, 0, 0, 0]⟩] }] ∧
      ∀ (i : Nat) (cd : CandlDependence), [access_candl_dep].get? i = some cd →
        ∃ d, deps.get? i = some d ∧
          d.dpolytope.rows =
            (candl_matrix_to_pluto_constraints cd.domain).rows.filter
              (fun r => r.val.any fun x => decide (x ≠ 0)) :=
  ⟨_, rfl, rfl, fun i cd hi =>
    let ⟨d, hd, _, hr, _⟩ :=
      (deps_read_drops_zero_rows sample_env.fresh access_prog [access_candl_dep] _ rfl).2.2 i cd hi
    ⟨d, hd, hr⟩⟩

/-! ## C17: effect of `pluto_prog_add_param` -/

theorem mapE_isOk {α β : Type} (f : α → Except Fault β) (l : List α)
    (h : ∀ a ∈ l, ∃ b, f a = .ok b) : ∃ l2, mapE f l = .ok l2 := by
  induction l with
  | nil => exact ⟨[], rfl⟩
  | cons a as ih =>
    obtain ⟨b, hb⟩ := h a (List.mem_cons_self _ _)
    obtain ⟨bs, hbs⟩ := ih fun x hx => h x (List.mem_cons_of_mem _ hx)
    exact ⟨b :: bs, by simp only [mapE, hb, hbs]⟩

theorem addColAccs_isOk (accs : Option (List PlutoAccess)) (pos : Int)
    (h : ∀ a ∈ accs.getD [], 0 ≤ pos ∧ pos ≤ (a.mat.ncols : Int)) :
    ∃ r, addColAccs accs pos = .ok r := by
  cases accs with
  | none => exact ⟨none, rfl⟩
  | some l =>
    obtain ⟨l2, hl2⟩ := mapE_isOk
      (fun a : PlutoAccess =>
        (pluto_matrix_add_col a.mat pos).map fun m => ({ a with mat := m } : PlutoAccess)) l
      (by
        intro a ha
        have := h a (by simpa using ha)
        simp only [pluto_matrix_add_col, if_pos this]
        exact ⟨_, rfl⟩)
    exact ⟨some l2, by simp only [addColAccs, hl2]⟩

theorem add_param_returns (prog : PlutoProg) (param : String) (pos : Int)
    (hpos : 0 ≤ pos ∧ pos ≤ prog.npar) (hr : add_param_ready prog = true) :
    ∃ prog2, pluto_prog_add_param prog param pos = .ok prog2 := by
  simp only [add_param_ready, Bool.and_eq_true, List.all_eq_true, decide_eq_true_eq] at hr
  obtain ⟨⟨hs, hd⟩, hc⟩ := hr
  have h1 : ∃ stmts, mapE (add_param_stmt prog.npar pos) prog.stmts = .ok stmts := by
    apply mapE_isOk
    intro s hsm
    obtain ⟨⟨⟨⟨hdim, hdom⟩, ht⟩, hw⟩, hrd⟩ := hs s hsm
    cases htr : s.trans with
    | none => rw [htr] at ht; cases ht
    | some t =>
      rw [htr] at ht
      simp only [decide_eq_true_eq] at ht
      obtain ⟨w, hw2⟩ := addColAccs_isOk s.writes (s.dim + pos)
        (fun a ha => by have := hw a ha; constructor <;> omega)
      obtain ⟨r, hr2⟩ := addColAccs_isOk s.reads (s.dim + pos)
        (fun a ha => by have := hrd a ha; constructor <;> omega)
      simp only [add_param_stmt, bind_eq_ok, pure_eq_ok, cDeref_eq_ok, htr]
      exact ⟨_, _, constraints_add_dim_ok.mpr ⟨by constructor <;> omega, rfl⟩,
        _, rfl, _, matrix_add_col_ok.mpr ⟨by constructor <;> omega, rfl⟩, w, hw2, r, hr2, rfl⟩
  have h2 : ∃ deps, mapE (add_param_dep prog.npar pos) prog.deps = .ok deps := by
    apply mapE_isOk
    intro d hdm
    have := hd d hdm
    simp only [add_param_dep, bind_eq_ok, pure_eq_ok]
    exact ⟨_, _, constraints_add_dim_ok.mpr ⟨by constructor <;> omega, rfl⟩, rfl⟩
  obtain ⟨stmts, hst⟩ := h1
  obtain ⟨deps, hdp⟩ := h2
  simp only [pluto_prog_add_param, bind_eq_ok, if_pos hpos, pure_eq_ok]
  exact ⟨_, stmts, hst, deps, hdp, _,
    constraints_add_dim_ok.mpr ⟨by constructor <;> omega, rfl⟩, rfl⟩

/-- C17: for `0 <= pos <= npar`, `pluto_prog_add_param(prog, name, pos)` returns on a
program whose column counts follow the invariants, and whenever it returns the
parameter list is the old list with `name` inserted at index `pos`, `npar` is
increased by exactly 1, and every statement domain and the context are widened by
exactly one zero column at index (old columns - 1 - old npar + pos), all other
coefficients unchanged. -/
theorem add_param_effect (prog : PlutoProg) (name : String) (pos : Int)
    (hpos : 0 ≤ pos ∧ pos ≤ prog.npar) :
    (add_param_ready prog = true → ∃ prog2, pluto_prog_add_param prog name pos = .ok prog2) ∧
    ∀ prog2, pluto_prog_add_param prog name pos = .ok prog2 →
      prog2.params = prog.params.take pos.toNat ++ name :: prog.params.drop pos.toNat ∧
      prog2.npar = prog.npar + 1 ∧
      prog2.stmts.length = prog.stmts.length ∧
      (∀ (i : Nat) (s : Stmt), prog.stmts.get? i = some s →
        ∃ s2, prog2.stmts.get? i = some s2 ∧
          0 ≤ (s.domain.ncols : Int) - 1 - prog.npar + pos ∧
          ZeroColInserted s.domain s2.domain
            ((s.domain.ncols : Int) - 1 - prog.npar + pos).toNat) ∧
      0 ≤ (prog.context.ncols : Int) - 1 - prog.npar + pos ∧
      ZeroColInserted prog.context prog2.context
        ((prog.context.ncols : Int) - 1 - prog.npar + pos).toNat := by
  refine ⟨add_param_returns prog name pos hpos, ?_⟩
  intro prog2 h
  obtain ⟨stmts, deps, context, hs, _, hc, _, rfl⟩ := add_param_ok_inv h
  refine ⟨rfl, rfl, mapE_length _ _ _ hs, ?_, (constraints_add_dim_ok.mp hc).1.1,
    constraints_add_dim_zero_col hc⟩
  intro i s hi
  have hlen := mapE_length _ _ _ hs
  have hlt : i < stmts.length := by
    rw [hlen]
    exact (List.get?_eq_some.mp hi).1
  obtain ⟨s2, hs2⟩ : ∃ s2, stmts.get? i = some s2 := ⟨_, List.get?_eq_get hlt⟩
  have hf := forall2_get? (mapE_forall2 _ _ _ hs) i s s2 hi hs2
  simp only [add_param_stmt, bind_eq_ok, pure_eq_ok] at hf
  obtain ⟨dom, hdom, _, _, _, _, _, _, _, _, rfl⟩ := hf
  exact ⟨_, hs2, (constraints_add_dim_ok.mp hdom).1.1, constraints_add_dim_zero_col hdom⟩

theorem add_param_effect_witness :
    ∃ prog2, pluto_prog_add_param access_prog "N" 0 = .ok prog2 ∧
      prog2.params = ["N", "M"] ∧ prog2.npar = 2 ∧
      prog2.context = { ncols := 3, rows := [⟨false, [0, 1, -1]⟩] } ∧
      ZeroColInserted access_prog.context prog2.context 0 :=
  ⟨_, rfl,
    ((add_param_effect access_prog "N" 0 (by decide)).2 _
      (rfl : pluto_prog_add_param access_prog "N" 0 = .ok _)).1,
    rfl, rfl,
    ((add_param_effect access_prog "N" 0 (by decide)).2 _
      (rfl : pluto_prog_add_param access_prog "N" 0 = .ok _)).2.2.2.2.2⟩

/-! ## C15: `pluto_pad_stmt_transformations` is idempotent -/

theorem insertAt_of_length_le {α : Type} (l : List α) (p : Nat) (x : α) (h : l.length ≤ p) :
    insertAt l p x = l ++ [x] := by
  unfold insertAt
  rw [List.take_of_length_le h, List.drop_of_length_le h]

theorem stmt_add_hyperplane_end (st : Stmt) (t : PlutoMatrix) (ht : st.trans = some t) :
    pluto_stmt_add_hyperplane st PlutoHypType.H_SCALAR (t.nrows : Int) =
      .ok { st with trans := some { ncols := t.ncols,
                                    val := t.val ++ [List.replicate t.ncols 0] },
                    hyp_types := insertAt st.hyp_types t.nrows PlutoHypType.H_SCALAR } := by
  have hrow : pluto_matrix_add_row t (t.nrows : Int) =
      .ok { ncols := t.ncols, val := t.val ++ [List.replicate t.ncols 0] } := by
    rw [matrix_add_row_ok]
    refine ⟨⟨by omega, le_refl _⟩, ?_⟩
    rw [Int.toNat_ofNat, insertAt_of_length_le t.val t.nrows _ (le_refl _)]
  simp only [pluto_stmt_add_hyperplane, ht, cDeref, cAssert, le_refl, if_true, hrow,
    bind, Except.bind, pure, Except.pure, Int.toNat_ofNat]

theorem iter_add_hyperplane (k : Nat) : ∀ (st : Stmt) (t : PlutoMatrix), st.trans = some t →
    ∃ st2, iterE (fun st => cDeref st.trans >>= fun t =>
        pluto_stmt_add_hyperplane st PlutoHypType.H_SCALAR (t.nrows : Int)) k st = .ok st2 ∧
      st2 = { st with trans := some { ncols := t.ncols,
                                      val := t.val ++
                                        List.replicate k (List.replicate t.ncols 0) },
                      hyp_types := st2.hyp_types } ∧
      (st.hyp_types.length ≤ t.nrows →
        st2.hyp_types = st.hyp_types ++ List.replicate k PlutoHypType.H_SCALAR) := by
  induction k with
  | zero =>
    intro st t ht
    refine ⟨st, rfl, ?_, fun _ => by simp⟩
    cases st
    simp only [List.replicate_zero, List.append_nil] at ht ⊢
    simp only [ht]
  | succ n ih =>
    intro st t ht
    have hstep : (cDeref st.trans >>= fun t =>
        pluto_stmt_add_hyperplane st PlutoHypType.H_SCALAR (t.nrows : Int)) =
          .ok { st with trans := some { ncols := t.ncols,
                                        val := t.val ++ [List.replicate t.ncols 0] },
                        hyp_types := insertAt st.hyp_types t.nrows PlutoHypType.H_SCALAR } := by
      rw [ht]
      exact stmt_add_hyperplane_end st t ht
    obtain ⟨st2, h2, heq, hhyp⟩ := ih
      { st with trans := some { ncols := t.ncols,
                                val := t.val ++ [List.replicate t.ncols 0] },
                hyp_types := insertAt st.hyp_types t.nrows PlutoHypType.H_SCALAR } _ rfl
    refine ⟨st2, ?_, ?_, ?_⟩
    · rw [iterE]
      simp only [hstep]
      exact h2
    · rw [heq]
      simp only [List.append_assoc, List.singleton_append, List.replicate_succ]
    · intro hle
      have := hhyp (by
        simp only [insertAt_length, PlutoMatrix.nrows, List.length_append, List.length_singleton]
        simp only [PlutoMatrix.nrows] at hle
        omega)
      rw [this, insertAt_of_length_le _ _ _ hle]
      simp only [List.append_assoc, List.singleton_append, List.replicate_succ]

theorem pad_stmt_spec (npar : Int) (m : Nat) (s : Stmt) (t1 : PlutoMatrix)
    (ht1 : s.trans.getD (pluto_matrix_alloc_empty (s.dim + npar + 1)) = t1) :
    ∃ s2, pad_stmt npar m s = .ok s2 ∧
      s2 = { s with trans := some { ncols := t1.ncols,
                                    val := t1.val ++
                                      List.replicate (m - t1.nrows) (List.replicate t1.ncols 0) },
                    hyp_types := s2.hyp_types } ∧
      (s.hyp_types.length ≤ t1.nrows →
        s2.hyp_types = s.hyp_types ++ List.replicate (m - t1.nrows) PlutoHypType.H_SCALAR) := by
  cases htr : s.trans with
  | none =>
    rw [htr] at ht1
    simp only [Option.getD_none] at ht1
    obtain ⟨s2, h2, heq, hh⟩ := iter_add_hyperplane (m - t1.nrows)
      { s with trans := some t1 } t1 rfl
    refine ⟨s2, ?_, heq, hh⟩
    simp only [pad_stmt, htr, ht1, cDeref, bind, Except.bind]
    exact h2
  | some t =>
    rw [htr] at ht1
    simp only [Option.getD_some] at ht1
    subst ht1
    obtain ⟨s2, h2, heq, hh⟩ := iter_add_hyperplane (m - t.nrows) s t htr
    refine ⟨s2, ?_, heq, hh⟩
    simp only [pad_stmt, htr, cDeref, bind, Except.bind]
    exact h2

theorem foldl_max_ge (l : List Stmt) : ∀ m : Nat,
    m ≤ l.foldl (fun m s => match s.trans with
        | some t => max m t.nrows
        | none => m) m ∧
    ∀ s ∈ l, ∀ t, s.trans = some t →
      t.nrows ≤ l.foldl (fun m s => match s.trans with
        | some t => max m t.nrows
        | none => m) m := by
  induction l with
  | nil => intro m; simp
  | cons a as ih =>
    intro m
    simp only [List.foldl_cons, List.mem_cons]
    cases ha : a.trans with
    | none =>
      refine ⟨(ih m).1, ?_⟩
      intro s hs t ht
      rcases hs with rfl | hs
      · rw [ha] at ht; cases ht
      · exact (ih m).2 s hs t ht
    | some ta =>
      have h1 := (ih (max m ta.nrows)).1
      refine ⟨le_trans (le_max_left _ _) h1, ?_⟩
      intro s hs t ht
      rcases hs with rfl | hs
      · rw [ha] at ht
        cases ht
        exact le_trans (le_max_right _ _) h1
      · exact (ih (max m ta.nrows)).2 s hs t ht

theorem iter_prog_add_hyperplane (k : Nat) : ∀ p : PlutoProg,
    iterE (fun p => pluto_prog_add_hyperplane p (p.num_hyperplanes : Int) PlutoHypType.H_SCALAR)
        k p =
      .ok { p with hProps := p.hProps ++ List.replicate k
                               { unroll := UnrollType.NO_UNROLL, prevec := 0, band_num := -1,
                                 dep_prop := PlutoLoopType.UNKNOWN,
                                 type := PlutoHypType.H_SCALAR } } := by
  induction k with
  | zero => intro p; simp [iterE]
  | succ n ih =>
    intro p
    have hstep : pluto_prog_add_hyperplane p (p.num_hyperplanes : Int) PlutoHypType.H_SCALAR =
        .ok { p with hProps := p.hProps ++
                                 [{ unroll := UnrollType.NO_UNROLL, prevec := 0, band_num := -1,
                                    dep_prop := PlutoLoopType.UNKNOWN,
                                    type := PlutoHypType.H_SCALAR }] } := by
      unfold pluto_prog_add_hyperplane
      rw [if_pos ⟨by omega, le_refl _⟩, Int.toNat_ofNat,
        insertAt_of_length_le p.hProps p.num_hyperplanes _ (le_refl _)]
    rw [iterE]
    simp only [hstep]
    rw [ih]
    simp only [List.append_assoc, List.singleton_append, List.replicate_succ]

theorem pad_eq (prog : PlutoProg) :
    (1 ≤ pad_max_nrows prog.stmts →
      ∃ stmts, mapE (pad_stmt prog.npar (pad_max_nrows prog.stmts)) prog.stmts = .ok stmts ∧
        pluto_pad_stmt_transformations prog =
          .ok { prog with
                stmts := stmts,
                hProps := prog.hProps ++
                  List.replicate (pad_max_nrows prog.stmts - prog.num_hyperplanes)
                    { unroll := UnrollType.NO_UNROLL, prevec := 0, band_num := -1,
                      dep_prop := PlutoLoopType.UNKNOWN, type := PlutoHypType.H_SCALAR } }) ∧
    (pad_max_nrows prog.stmts = 0 → pluto_pad_stmt_transformations prog = .ok prog) := by
  constructor
  · intro hge
    obtain ⟨stmts, hs⟩ := mapE_isOk (pad_stmt prog.npar (pad_max_nrows prog.stmts)) prog.stmts
      (fun s _ => by
        obtain ⟨s2, h2, _⟩ := pad_stmt_spec prog.npar (pad_max_nrows prog.stmts) s _ rfl
        exact ⟨s2, h2⟩)
    refine ⟨stmts, hs, ?_⟩
    unfold pluto_pad_stmt_transformations
    simp only [ge_iff_le, hge, if_true, hs, bind, Except.bind]
    rw [iter_prog_add_hyperplane]
  · intro h0
    unfold pluto_pad_stmt_transformations
    simp only [h0]
    rfl

theorem pad_fixed (prog : PlutoProg) (n : Nat)
    (h : ∀ s ∈ prog.stmts, ∃ t, s.trans = some t ∧ t.nrows = n)
    (hn : n ≤ prog.num_hyperplanes) :
    pluto_pad_stmt_transformations prog = .ok prog := by
  have hmax : pad_max_nrows prog.stmts = if prog.stmts = [] then 0 else n := by
    unfold pad_max_nrows
    exact pad_max_nrows_foldl _ _ h 0 (Nat.zero_le _)
  by_cases h1 : 1 ≤ pad_max_nrows prog.stmts
  · obtain ⟨stmts, hs, hp⟩ := (pad_eq prog).1 h1
    have hne : prog.stmts ≠ [] := by
      intro hnil
      rw [hmax, if_pos hnil] at h1
      omega
    rw [hmax, if_neg hne] at hs hp
    have hid : mapE (pad_stmt prog.npar n) prog.stmts = .ok prog.stmts := by
      apply mapE_id_of_forall
      intro s hs
      obtain ⟨t, ht, hnr⟩ := h s hs
      obtain ⟨s2, h2, heq, hh⟩ := pad_stmt_spec prog.npar n s t (by rw [ht]; rfl)
      rw [h2, heq]
      have hz : n - t.nrows = 0 := by omega
      have hh2 : s2.hyp_types = s.hyp_types := by
        have hi := iter_add_hyperplane 0 s t ht
        obtain ⟨s3, h3, _, _⟩ := hi
        have h4 : pad_stmt prog.npar n s = .ok s := by
          simp only [pad_stmt, ht, cDeref, bind, Except.bind, hz]
          rfl
        rw [h4] at h2
        cases h2
        rfl
      rw [hz, hh2]
      cases s
      simp only [List.replicate_zero, List.append_nil] at ht ⊢
      simp only [ht]
    rw [hid] at hs
    cases hs
    rw [hp, Nat.sub_eq_zero_of_le hn]
    simp
  · exact (pad_eq prog).2 (by omega)

/-- C15: `pluto_pad_stmt_transformations` returns on every program, and a second
consecutive call returns the program it is given unchanged: it adds no schedule row
to any statement, changes no row classification and adds no entry to the hyperplane
metadata, so the program after two calls equals the program after one. -/
theorem pad_idempotent (prog : PlutoProg) :
    ∃ p1, pluto_pad_stmt_transformations prog = .ok p1 ∧
      pluto_pad_stmt_transformations p1 = .ok p1 := by
  by_cases h1 : 1 ≤ pad_max_nrows prog.stmts
  · obtain ⟨stmts, hs, hp⟩ := (pad_eq prog).1 h1
    refine ⟨_, hp, ?_⟩
    apply pad_fixed _ (pad_max_nrows prog.stmts)
    · intro s2 hs2
      obtain ⟨s, hsm, hf⟩ := mapE_mem _ _ _ hs s2 hs2
      obtain ⟨s3, h3, heq, _⟩ := pad_stmt_spec prog.npar (pad_max_nrows prog.stmts) s _ rfl
      rw [hf] at h3
      cases h3
      refine ⟨_, by rw [heq], ?_⟩
      have hle : (s.trans.getD (pluto_matrix_alloc_empty (s.dim + prog.npar + 1))).nrows
          ≤ pad_max_nrows prog.stmts := by
        cases htr : s.trans with
        | none => simp [pluto_matrix_alloc_empty, PlutoMatrix.nrows]
        | some t => exact (foldl_max_ge prog.stmts 0).2 s hsm t htr
      simp only [PlutoMatrix.nrows, List.length_append, List.length_replicate] at hle ⊢
      omega
    · simp only [PlutoProg.num_hyperplanes, List.length_append, List.length_replicate]
      omega
  · have h0 := (pad_eq prog).2 (by omega)
    exact ⟨prog, h0, h0⟩

/-! ## C16: `pluto_stmt_remove_dim` undoes `pluto_stmt_add_dim` -/

theorem insertAt_cons_succ {α : Type} (a : α) (as : List α) (q : Nat) (x : α) :
    insertAt (a :: as) (q + 1) x = a :: insertAt as q x := by
  simp [insertAt]

theorem eraseIdx_insertAt {α : Type} (l : List α) (p : Nat) (x : α) (h : p ≤ l.length) :
    (insertAt l p x).eraseIdx p = l := by
  induction l generalizing p with
  | nil =>
    have : p = 0 := by simpa using h
    subst this
    simp [insertAt]
  | cons a as ih =>
    cases p with
    | zero => simp [insertAt]
    | succ q =>
      rw [insertAt_cons_succ, List.eraseIdx_cons_succ, ih q (by simpa using h)]

theorem eraseIdx_insertAt_lt {α : Type} (l : List α) (x : α) : ∀ (p q : Nat), p < q →
    q ≤ l.length → (insertAt l q x).eraseIdx p = insertAt (l.eraseIdx p) (q - 1) x := by
  induction l with
  | nil => intro p q hpq hq; simp at hq; omega
  | cons a as ih =>
    intro p q hpq hq
    cases q with
    | zero => omega
    | succ q1 =>
      rw [insertAt_cons_succ]
      cases p with
      | zero => simp
      | succ p1 =>
        rw [List.eraseIdx_cons_succ, List.eraseIdx_cons_succ,
          ih p1 q1 (by omega) (by simpa using hq)]
        obtain ⟨q2, rfl⟩ : ∃ q2, q1 = q2 + 1 := ⟨q1 - 1, by omega⟩
        simp [insertAt_cons_succ]

theorem constraints_wf_iff {c : PlutoConstraints} :
    c.wf = true ↔ ∀ r ∈ c.rows, r.val.length = c.ncols := by
  simp [PlutoConstraints.wf]

theorem matrix_wf_iff {m : PlutoMatrix} :
    m.wf = true ↔ ∀ r ∈ m.val, r.length = m.ncols := by
  simp [PlutoMatrix.wf]

theorem map_id_of_forall {α : Type} (f : α → α) (l : List α) (h : ∀ a ∈ l, f a = a) :
    l.map f = l := by
  induction l with
  | nil => rfl
  | cons a as ih =>
    rw [List.map_cons, h a (by simp), ih fun b hb => h b (by simp [hb])]

theorem constraints_add_remove {c c2 : PlutoConstraints} {pos : Int} (hwf : c.wf = true)
    (h : pluto_constraints_add_dim c pos = .ok c2) :
    pluto_constraints_remove_dim c2 pos = .ok c ∧ c2.wf = true := by
  obtain ⟨⟨h0, h1⟩, rfl⟩ := constraints_add_dim_ok.mp h
  rw [constraints_wf_iff] at hwf
  constructor
  · rw [constraints_remove_dim_ok]
    refine ⟨⟨h0, by push_cast; omega⟩, ?_⟩
    simp only [Nat.add_sub_cancel, List.map_map]
    cases c with
    | mk n rows =>
      congr 1
      symm
      apply map_id_of_forall
      intro r hr
      have hl := hwf r hr
      simp only [Function.comp]
      rw [eraseIdx_insertAt _ _ _ (by simp only at hl h1; omega)]
  · rw [constraints_wf_iff]
    intro r hr
    obtain ⟨r0, hr0, rfl⟩ := List.mem_map.mp hr
    simp only [insertAt_length, hwf r0 hr0]

theorem matrix_add_remove_col {m m2 : PlutoMatrix} {pos : Int} (hwf : m.wf = true)
    (h : pluto_matrix_add_col m pos = .ok m2) :
    pluto_matrix_remove_col m2 pos = .ok m := by
  obtain ⟨⟨h0, h1⟩, rfl⟩ := matrix_add_col_ok.mp h
  rw [matrix_wf_iff] at hwf
  rw [matrix_remove_col_ok]
  refine ⟨⟨h0, by push_cast; omega⟩, ?_⟩
  simp only [Nat.add_sub_cancel, List.map_map]
  cases m with
  | mk n val =>
    congr 1
    symm
    apply map_id_of_forall
    intro r hr
    have hl := hwf r hr
    simp only [Function.comp]
    rw [eraseIdx_insertAt _ _ _ (by simp only at hl h1; omega)]

theorem mapE_inverse {α β : Type} (f : α → Except Fault β) (g : β → Except Fault α) :
    ∀ (l : List α) (l2 : List β), mapE f l = .ok l2 →
      (∀ a ∈ l, ∀ b, f a = .ok b → g b = .ok a) → mapE g l2 = .ok l := by
  intro l
  induction l with
  | nil =>
    intro l2 h _
    simp only [mapE] at h
    cases h
    rfl
  | cons a as ih =>
    intro l2 h hinv
    rw [mapE] at h
    cases hf : f a with
    | error e => rw [hf] at h; cases h
    | ok b =>
      rw [hf] at h
      cases hr : mapE f as with
      | error e => rw [hr] at h; cases h
      | ok bs =>
        rw [hr] at h
        cases h
        rw [mapE, hinv a (by simp) b hf, ih bs hr fun x hx => hinv x (by simp [hx])]

theorem accs_add_remove {accs accs2 : Option (List PlutoAccess)} {pos : Int}
    (hwf : ∀ a ∈ accs.getD [], a.mat.wf = true)
    (h : addColAccs accs pos = .ok accs2) : removeColAccs accs2 pos = .ok accs := by
  cases accs with
  | none =>
    simp only [addColAccs] at h
    cases h
    rfl
  | some l =>
    simp only [addColAccs] at h
    cases hm : mapE (fun a : PlutoAccess =>
        (pluto_matrix_add_col a.mat pos).map fun m => ({ a with mat := m } : PlutoAccess)) l with
    | error e => rw [hm] at h; cases h
    | ok l2 =>
      rw [hm] at h
      cases h
      have := mapE_inverse _
        (fun a : PlutoAccess =>
          (pluto_matrix_remove_col a.mat pos).map fun m => ({ a with mat := m } : PlutoAccess))
        l l2 hm (by
          intro a ha b hb
          cases hc : pluto_matrix_add_col a.mat pos with
          | error e => rw [hc] at hb; cases hb
          | ok m2 =>
            rw [hc] at hb
            cases hb
            simp only [matrix_add_remove_col (hwf a (by simpa using ha)) hc]
            rfl)
      simp only [removeColAccs, this]

theorem constraints_add_add_remove {c c1 c2 : PlutoConstraints} {p D : Int}
    (hwf : c.wf = true) (hD : 0 ≤ D)
    (h1 : pluto_constraints_add_dim c p = .ok c1)
    (h2 : pluto_constraints_add_dim c1 (D + 1 + p) = .ok c2) :
    ∃ c3, pluto_constraints_remove_dim c2 p = .ok c3 ∧
      pluto_constraints_remove_dim c3 (D + p) = .ok c := by
  have hwf1 := (constraints_add_remove hwf h1).2
  obtain ⟨⟨h0, h1b⟩, rfl⟩ := constraints_add_dim_ok.mp h1
  obtain ⟨⟨h3, h4⟩, rfl⟩ := constraints_add_dim_ok.mp h2
  have hq : pluto_constraints_add_dim c (D + p) =
      .ok { ncols := c.ncols + 1,
            rows := c.rows.map fun r => { r with val := insertAt r.val (D + p).toNat 0 } } := by
    rw [constraints_add_dim_ok]
    simp only at h4
    exact ⟨⟨by omega, by push_cast at h4; omega⟩, rfl⟩
  refine ⟨_, ?_, (constraints_add_remove hwf hq).1⟩
  rw [constraints_remove_dim_ok]
  simp only at h4
  refine ⟨⟨h0, by push_cast at h4 ⊢; omega⟩, ?_⟩
  simp only [Nat.add_sub_cancel, List.map_map]
  congr 1
  apply List.map_congr_left
  intro r hr
  rw [constraints_wf_iff] at hwf
  have hl := hwf r hr
  simp only [Function.comp]
  have hlt : p.toNat < (D + 1 + p).toNat := by omega
  have hle : (D + 1 + p).toNat ≤ (insertAt r.val p.toNat 0).length := by
    rw [insertAt_length, hl]
    push_cast at h4
    omega
  rw [eraseIdx_insertAt_lt _ _ _ _ hlt hle, eraseIdx_insertAt _ _ _ (by omega)]
  have : (D + 1 + p).toNat - 1 = (D + p).toNat := by omega
  rw [this]

theorem dep_add_remove (stmtsA stmtsB : List Stmt) (sid pos : Int) (d d2 : Dep)
    (hwf : d.dpolytope.wf = true)
    (hsrc : d.dest = sid → ∀ x, cIndex stmtsA d.src = .ok x →
      ∃ y, cIndex stmtsB d.src = .ok y ∧ 0 ≤ y.dim ∧
        x.dim = if d.src = sid then y.dim + 1 else y.dim)
    (h : add_dim_dep stmtsA sid pos d = .ok d2) :
    remove_dim_dep stmtsB sid pos d2 = .ok d := by
  simp only [add_dim_dep, bind_eq_ok, pure_eq_ok] at h
  obtain ⟨p1, hp1, p2, hp2, rfl⟩ := h
  simp only [remove_dim_dep, bind_eq_ok, pure_eq_ok]
  by_cases hs : d.src = sid
  · rw [if_pos hs] at hp1
    by_cases hd : d.dest = sid
    · rw [if_pos hd] at hp2
      obtain ⟨x, hx, hx2⟩ : ∃ x, cIndex stmtsA d.src = .ok x ∧
          pluto_constraints_add_dim p1 (x.dim + pos) = .ok p2 := by
        cases hc : cIndex stmtsA d.src with
        | error e => rw [hc] at hp2; cases hp2
        | ok x => rw [hc] at hp2; exact ⟨x, rfl, hp2⟩
      obtain ⟨y, hy, hy0, hxy⟩ := hsrc hd x hx
      rw [if_pos hs] at hxy
      rw [hxy] at hx2
      obtain ⟨c3, h3, h4⟩ := constraints_add_add_remove hwf hy0 hp1 hx2
      refine ⟨c3, by rw [if_pos hs]; exact h3, d.dpolytope, ?_, rfl⟩
      rw [if_pos hd, hy]
      exact h4
    · rw [if_neg hd] at hp2
      cases hp2
      refine ⟨d.dpolytope, by rw [if_pos hs]; exact (constraints_add_remove hwf hp1).1,
        d.dpolytope, by rw [if_neg hd], rfl⟩
  · rw [if_neg hs] at hp1
    cases hp1
    by_cases hd : d.dest = sid
    · rw [if_pos hd] at hp2
      obtain ⟨x, hx, hx2⟩ : ∃ x, cIndex stmtsA d.src = .ok x ∧
          pluto_constraints_add_dim d.dpolytope (x.dim + pos) = .ok p2 := by
        cases hc : cIndex stmtsA d.src with
        | error e => rw [hc] at hp2; cases hp2
        | ok x => rw [hc] at hp2; exact ⟨x, rfl, hp2⟩
      obtain ⟨y, hy, hy0, hxy⟩ := hsrc hd x hx
      rw [if_neg hs] at hxy
      rw [hxy] at hx2
      refine ⟨p2, by rw [if_neg hs], d.dpolytope, ?_, rfl⟩
      rw [if_pos hd, hy]
      exact (constraints_add_remove hwf hx2).1
    · rw [if_neg hd] at hp2
      cases hp2
      exact ⟨d.dpolytope, by rw [if_neg hs], d.dpolytope, by rw [if_neg hd], rfl⟩

theorem set_of_get? {α : Type} (l : List α) : ∀ (i : Nat) (a : α),
    l.get? i = some a → l.set i a = l := by
  induction l with
  | nil => intro i a h; simp at h
  | cons b bs ih =>
    intro i a h
    cases i with
    | zero =>
      simp only [List.get?_cons_zero, Option.some.injEq] at h
      rw [h, List.set_cons_zero]
    | succ k =>
      rw [List.set_cons_succ, ih k a h]

theorem prog_wf_iff {prog : PlutoProg} :
    prog.wf = true ↔ (∀ s ∈ prog.stmts, s.wf = true) ∧
      (∀ d ∈ prog.deps, d.dpolytope.wf = true) ∧
      (∀ d ∈ prog.transdeps, d.dpolytope.wf = true) := by
  simp [PlutoProg.wf, and_assoc]

theorem stmt_wf_iff {s : Stmt} :
    s.wf = true ↔ 0 ≤ s.dim ∧ s.domain.wf = true ∧ (∃ t, s.trans = some t ∧ t.wf = true) ∧
      (∀ a ∈ s.writes.getD [], a.mat.wf = true) ∧ (∀ a ∈ s.reads.getD [], a.mat.wf = true) ∧
      s.iterators.length = s.dim.toNat ∧ s.is_orig_loop.length = s.dim.toNat := by
  cases h : s.trans <;> simp [Stmt.wf, h, and_assoc]

theorem remove_dim_after_add_dim (prog p1 : PlutoProg) (si : Nat) (pos : Int) (iter : String)
    (hyp_type : PlutoHypType) (s : Stmt)
    (hs : prog.stmts.get? si = some s) (hid : s.id = (si : Int)) (hwf : prog.wf = true)
    (h : pluto_stmt_add_dim prog si pos (-1) iter hyp_type = .ok p1) :
    pluto_stmt_remove_dim p1 si pos = .ok prog := by
  obtain ⟨hws, hwd, hwt⟩ := prog_wf_iff.mp hwf
  obtain ⟨hdim, hdomwf, ⟨t, htr, htwf⟩, hww, hwr, hitl, hol⟩ :=
    stmt_wf_iff.mp (hws s (List.get?_mem hs))
  simp only [pluto_stmt_add_dim, bind_eq_ok, pure_eq_ok, cAssert_eq_ok, cIndex_nat] at h
  obtain ⟨s', hs', _, hpd, t0, ht0, _, htp, _, hcol, dom, hdom, t1, ht1, th, hth, w, hw, r, hr,
    deps, hdeps, tdeps, htd, rfl⟩ := h
  rw [hs] at hs'
  cases hs'
  rw [cDeref_eq_ok, htr] at ht0
  cases ht0
  have hth2 : th = (t1, s.hyp_types) := by
    simp only [add_dim_time_row] at hth
    simpa [pure, Except.pure] using hth.symm
  subst hth2
  have hp0 : 0 ≤ pos := (constraints_add_dim_ok.mp hdom).1.1
  have hlt : si < prog.stmts.length := (List.get?_eq_some.mp hs).1
  have hE1 : (insertAt s.iterators pos.toNat (some iter)).eraseIdx pos.toNat = s.iterators :=
    eraseIdx_insertAt _ _ _ (by omega)
  have hE2 : (insertAt s.is_orig_loop pos.toNat true).eraseIdx pos.toNat = s.is_orig_loop :=
    eraseIdx_insertAt _ _ _ (by omega)
  have hT1 : s.iterators.take s.dim.toNat = s.iterators :=
    List.take_of_length_le (by omega)
  have hT2 : s.is_orig_loop.take s.dim.toNat = s.is_orig_loop :=
    List.take_of_length_le (by omega)
  have hEta : ({ id := s.id, dim := s.dim, domain := s.domain, trans := some t,
                 hyp_types := s.hyp_types, iterators := s.iterators,
                 is_orig_loop := s.is_orig_loop, reads := s.reads, writes := s.writes } : Stmt)
      = s := by
    rw [← htr]
  have hSet : ∀ x : Stmt, (prog.stmts.set si x).set si s = prog.stmts := by
    intro x
    rw [List.set_set, set_of_get? _ _ _ hs]
  have hIt : ∃ v, (if insertAt s.iterators pos.toNat (some iter) = [] then Except.ok none
      else cIndex (insertAt s.iterators pos.toNat (some iter)) pos) = .ok v := by
    have hne : insertAt s.iterators pos.toNat (some iter) ≠ [] := by
      intro h0
      have := congrArg List.length h0
      rw [insertAt_length] at this
      simp at this
    rw [if_neg hne]
    have hl : pos.toNat < (insertAt s.iterators pos.toNat (some iter)).length := by
      rw [insertAt_length]
      omega
    exact ⟨_, cIndex_eq_ok.mpr ⟨hp0, List.get?_eq_get hl⟩⟩
  obtain ⟨v, hv⟩ := hIt
  have hDep : ∀ (l l2 : List Dep), (∀ d ∈ l, d.dpolytope.wf = true) →
      mapE (add_dim_dep
        (prog.stmts.set si
          { id := s.id, dim := s.dim + 1, domain := dom, trans := some t1,
            hyp_types := s.hyp_types, iterators := insertAt s.iterators pos.toNat (some iter),
            is_orig_loop := insertAt s.is_orig_loop pos.toNat true, reads := r, writes := w })
        s.id pos) l = .ok l2 →
      mapE (remove_dim_dep prog.stmts s.id pos) l2 = .ok l := by
    intro l l2 hl hm
    apply mapE_inverse _ _ l l2 hm
    intro d hd d2 hd2
    apply dep_add_remove _ _ _ _ _ _ (hl d hd) _ hd2
    intro _ x hx
    rw [cIndex_set hlt] at hx
    rcases hx with ⟨hi, rfl⟩ | ⟨hi, hx⟩
    · refine ⟨s, ?_, hdim, ?_⟩
      · rw [hi, cIndex_nat]
        exact hs
      · rw [if_pos (by rw [hi, hid])]
    · refine ⟨x, hx, ?_, ?_⟩
      · obtain ⟨_, hx2⟩ := cIndex_eq_ok.mp hx
        exact (stmt_wf_iff.mp (hws x (List.get?_mem hx2))).1
      · rw [if_neg (by rw [hid]; exact hi)]
  simp only [pluto_stmt_remove_dim, bind_eq_ok, pure_eq_ok, cAssert_eq_ok, cIndex_nat]
  refine ⟨{ id := s.id, dim := s.dim + 1, domain := dom, trans := some t1,
            hyp_types := s.hyp_types, iterators := insertAt s.iterators pos.toNat (some iter),
            is_orig_loop := insertAt s.is_orig_loop pos.toNat true, reads := r, writes := w },
    by rw [List.get?_eq_getElem?, List.getElem?_set_self hlt], (), ?_, (), ?_,
    s.domain, (constraints_add_remove hdomwf hdom).1, v, hv, t1, rfl, t,
    matrix_add_remove_col htwf ht1, s.writes, accs_add_remove hww hw,
    s.reads, accs_add_remove hwr hr, prog.deps, ?_, prog.transdeps, ?_, ?_⟩
  · show pos ≤ s.dim + 1
    omega
  · simp only []
    omega
  · simp only [Int.add_sub_cancel, hE1, hE2, hT1, hT2, hEta, hSet]
    exact hDep _ _ hwd hdeps
  · simp only [Int.add_sub_cancel, hE1, hE2, hT1, hT2, hEta, hSet]
    exact hDep _ _ hwt htd
  · simp only [Int.add_sub_cancel, hE1, hE2, hT1, hT2, hEta, hSet]

theorem add_dim_dep_returns (prog : PlutoProg) (si : Nat) (s x : Stmt) (pos : Int) (d : Dep)
    (hs : prog.stmts.get? si = some s) (hid : s.id = (si : Int))
    (hws : ∀ s ∈ prog.stmts, 0 ≤ s.dim) (hnp : 0 ≤ prog.npar)
    (hx : x.dim = s.dim + 1) (hpos : 0 ≤ pos ∧ pos ≤ s.dim)
    (hd : dep_cols_ok prog d = true) :
    ∃ d2, add_dim_dep (prog.stmts.set si x) s.id pos d = .ok d2 := by
  obtain ⟨s0, t0, hs0, ht0, hc⟩ := dep_cols_ok_iff.mp hd
  have hlt : si < prog.stmts.length := (List.get?_eq_some.mp hs).1
  have hs0d : 0 ≤ s0.dim := hws s0 (List.get?_mem (cIndex_eq_ok.mp hs0).2)
  have ht0d : 0 ≤ t0.dim := hws t0 (List.get?_mem (cIndex_eq_ok.mp ht0).2)
  have hsd : d.src = s.id → s0.dim = s.dim := by
    intro h
    rw [h, hid, cIndex_nat, hs] at hs0
    rw [← Option.some.inj hs0]
  have htd : d.dest = s.id → t0.dim = s.dim := by
    intro h
    rw [h, hid, cIndex_nat, hs] at ht0
    rw [← Option.some.inj ht0]
  simp only [add_dim_dep, bind_eq_ok, pure_eq_ok]
  by_cases h1 : d.src = s.id
  · have e1 := hsd h1
    have hp1 : pluto_constraints_add_dim d.dpolytope pos =
        .ok { ncols := d.dpolytope.ncols + 1,
              rows := d.dpolytope.rows.map fun r => { r with val := insertAt r.val pos.toNat 0 } } :=
      constraints_add_dim_ok.mpr ⟨⟨hpos.1, by omega⟩, rfl⟩
    by_cases h2 : d.dest = s.id
    · have e2 := htd h2
      have hcx : cIndex (prog.stmts.set si x) d.src = .ok x :=
        (cIndex_set hlt).mpr (Or.inl ⟨by rw [h1, hid], rfl⟩)
      have hp2 := constraints_add_dim_ok.mpr
        ⟨(⟨by omega, by push_cast; omega⟩ : 0 ≤ x.dim + pos ∧ x.dim + pos + 1 ≤
          ((({ ncols := d.dpolytope.ncols + 1,
               rows := d.dpolytope.rows.map fun r =>
                 { r with val := insertAt r.val pos.toNat 0 } } : PlutoConstraints).ncols : Nat)
             : Int)), rfl⟩
      exact ⟨_, _, by rw [if_pos h1]; exact hp1, _, by rw [if_pos h2, hcx]; exact hp2, rfl⟩
    · exact ⟨_, _, by rw [if_pos h1]; exact hp1, _, by rw [if_neg h2], rfl⟩
  · by_cases h2 : d.dest = s.id
    · have e2 := htd h2
      have hcx : cIndex (prog.stmts.set si x) d.src = .ok s0 :=
        (cIndex_set hlt).mpr (Or.inr ⟨by rw [← hid]; exact h1, hs0⟩)
      have hp2 := constraints_add_dim_ok.mpr
        ⟨(⟨by omega, by omega⟩ : 0 ≤ s0.dim + pos ∧ s0.dim + pos + 1 ≤ (d.dpolytope.ncols : Int)),
          rfl⟩
      exact ⟨_, _, by rw [if_neg h1], _, by rw [if_pos h2, hcx]; exact hp2, rfl⟩
    · exact ⟨_, _, by rw [if_neg h1], _, by rw [if_neg h2], rfl⟩

theorem add_dim_returns (prog : PlutoProg) (si : Nat) (pos : Int) (iter : String)
    (hyp_type : PlutoHypType) (s : Stmt)
    (hs : prog.stmts.get? si = some s) (hid : s.id = (si : Int)) (hwf : prog.wf = true)
    (h1 : stmt_cols_ok prog = true) (h2 : sched_cols_ok prog = true)
    (h3 : deps_cols_ok prog = true) (h4 : acc_cols_ok prog = true)
    (hpos : 0 ≤ pos ∧ pos ≤ s.dim) :
    ∃ p1, pluto_stmt_add_dim prog si pos (-1) iter hyp_type = .ok p1 := by
  obtain ⟨hws, -, -⟩ := prog_wf_iff.mp hwf
  have hsm : s ∈ prog.stmts := List.get?_mem hs
  have hdims : ∀ s ∈ prog.stmts, 0 ≤ s.dim := fun x hx => (stmt_wf_iff.mp (hws x hx)).1
  have hdc := stmt_cols_ok_iff.mp h1 s hsm
  obtain ⟨t, htr, htc⟩ := sched_cols_ok_iff.mp h2 s hsm
  obtain ⟨hd1, hd2⟩ := deps_cols_ok_iff.mp h3
  simp only [acc_cols_ok, Bool.and_eq_true, List.all_eq_true, decide_eq_true_eq] at h4
  obtain ⟨hnp, hacc⟩ := h4
  obtain ⟨haw, har⟩ := hacc s hsm
  obtain ⟨w, hw⟩ := addColAccs_isOk s.writes pos
    (fun a ha => by have := haw a ha; constructor <;> omega)
  obtain ⟨r, hr⟩ := addColAccs_isOk s.reads pos
    (fun a ha => by have := har a ha; constructor <;> omega)
  obtain ⟨deps, hdeps⟩ := mapE_isOk
    (add_dim_dep (prog.stmts.set si
      { s with dim := s.dim + 1,
               domain := { ncols := s.domain.ncols + 1,
                           rows := s.domain.rows.map fun r =>
                             { r with val := insertAt r.val pos.toNat 0 } },
               iterators := insertAt s.iterators pos.toNat (some iter),
               trans := some { ncols := t.ncols + 1,
                               val := t.val.map fun r => insertAt r pos.toNat 0 },
               hyp_types := s.hyp_types,
               is_orig_loop := insertAt s.is_orig_loop pos.toNat true,
               writes := w, reads := r }) s.id pos) prog.deps
    (fun d hd => add_dim_dep_returns prog si s _ pos d hs hid hdims hnp rfl hpos (hd1 d hd))
  obtain ⟨tdeps, htdeps⟩ := mapE_isOk
    (add_dim_dep (prog.stmts.set si
      { s with dim := s.dim + 1,
               domain := { ncols := s.domain.ncols + 1,
                           rows := s.domain.rows.map fun r =>
                             { r with val := insertAt r.val pos.toNat 0 } },
               iterators := insertAt s.iterators pos.toNat (some iter),
               trans := some { ncols := t.ncols + 1,
                               val := t.val.map fun r => insertAt r pos.toNat 0 },
               hyp_types := s.hyp_types,
               is_orig_loop := insertAt s.is_orig_loop pos.toNat true,
               writes := w, reads := r }) s.id pos) prog.transdeps
    (fun d hd => add_dim_dep_returns prog si s _ pos d hs hid hdims hnp rfl hpos (hd2 d hd))
  simp only [pluto_stmt_add_dim, bind_eq_ok, pure_eq_ok, cAssert_eq_ok, cIndex_nat]
  refine ⟨_, s, hs, (), hpos.2, t, by rw [htr]; rfl, (), by omega, (), by omega, _,
    constraints_add_dim_ok.mpr ⟨⟨hpos.1, by omega⟩, rfl⟩, _,
    matrix_add_col_ok.mpr ⟨⟨hpos.1, by omega⟩, rfl⟩, (_, s.hyp_types), rfl, w, hw, r, hr,
    deps, hdeps, tdeps, htdeps, rfl⟩

/-- C16: `pluto_stmt_remove_dim` is the exact inverse of `pluto_stmt_add_dim` with
`time_pos = -1`. For every well-formed program and statement `s` of it (at position
`si`, with `id = si`): whenever `pluto_stmt_add_dim(s, pos, -1, ...)` returns,
`pluto_stmt_remove_dim(s, pos)` on the result returns the program as it was before the
insertion, that is, `s.dim`, the domain, schedule, iterator names and original-loop
flags of `s`, every read and write access matrix of `s` and every dependence polytope
of the main and of the transitive list (self-dependences of `s` included) have their
former values; and under the dimensional invariants the insertion returns for every
`0 <= pos <= s.dim`. -/
theorem remove_dim_inverts_add_dim (prog : PlutoProg) (si : Nat) (pos : Int) (iter : String)
    (hyp_type : PlutoHypType) (s : Stmt)
    (hs : prog.stmts.get? si = some s) (hid : s.id = (si : Int)) (hwf : prog.wf = true) :
    (∀ p1, pluto_stmt_add_dim prog si pos (-1) iter hyp_type = .ok p1 →
      pluto_stmt_remove_dim p1 si pos = .ok prog) ∧
    (stmt_cols_ok prog = true → sched_cols_ok prog = true → deps_cols_ok prog = true →
      acc_cols_ok prog = true → 0 ≤ pos → pos ≤ s.dim →
      ∃ p1, pluto_stmt_add_dim prog si pos (-1) iter hyp_type = .ok p1 ∧
        pluto_stmt_remove_dim p1 si pos = .ok prog) := by
  refine ⟨fun p1 h => remove_dim_after_add_dim prog p1 si pos iter hyp_type s hs hid hwf h, ?_⟩
  intro h1 h2 h3 h4 hp0 hp1
  obtain ⟨p1, h⟩ := add_dim_returns prog si pos iter hyp_type s hs hid hwf h1 h2 h3 h4 ⟨hp0, hp1⟩
  exact ⟨p1, h, remove_dim_after_add_dim prog p1 si pos iter hyp_type s hs hid hwf h⟩

theorem remove_dim_inverts_add_dim_witness :
    ∃ p1, pluto_stmt_add_dim access_prog 1 1 (-1) "j" PlutoHypType.H_LOOP = .ok p1 ∧
      (p1.stmts.get? 1).map Stmt.dim = some 2 ∧
      (p1.transdeps.map fun d => d.dpolytope) =
        [{ ncols := 6, rows := [⟨false, [-1, 0, 1, 0, 0, -1]⟩] }] ∧
      pluto_stmt_remove_dim p1 1 1 = .ok access_prog :=
  ⟨_, rfl, rfl, rfl,
    (remove_dim_inverts_add_dim access_prog 1 1 "j" PlutoHypType.H_LOOP (access_stmt 1)
      rfl rfl (by decide)).1 _ rfl⟩

/-! ## C11: the removal of the input dependences after the transitive closure -/

theorem closure_j_append (env : Env) (depth : Int) :
    ∀ (fuel : Nat) (prog : PlutoProg) (i j n : Nat) (r : PlutoProg × Nat),
      closure_j env depth fuel prog i j n = .ok r →
      ∃ added, r.1 = { prog with deps := prog.deps ++ added } := by
  intro fuel
  induction fuel with
  | zero => intro prog i j n r h; simp [closure_j] at h
  | succ k ih =>
    intro prog i j n r h
    rw [closure_j] at h
    split at h
    · simp only [bind_eq_ok] at h
      obtain ⟨di, _, dj, _, h⟩ := h
      split at h
      · obtain ⟨out, _, h⟩ := bind_eq_ok.mp h
        split at h
        · exact ih _ _ _ _ _ h
        · rename_i dep _
          obtain ⟨t, _, h⟩ := bind_eq_ok.mp h
          obtain ⟨added, ha⟩ := ih _ _ _ _ _ h
          obtain ⟨x, hx⟩ : ∃ x, ∀ d : Dep,
              d = { dep with satisfaction_level := di.satisfaction_level, satisfied := true,
                             type := t } →
              pluto_add_dep prog d = { prog with deps := prog.deps ++ [x] } :=
            ⟨_, fun d hd => by rw [hd]; rfl⟩
          rw [hx _ rfl] at ha
          exact ⟨x :: added, by rw [ha]; simp⟩
      · exact ih _ _ _ _ _ h
    · cases h
      exact ⟨[], by simp⟩

theorem closure_i_append (env : Env) (depth : Int) :
    ∀ (fuel : Nat) (prog : PlutoProg) (i n : Nat) (r : PlutoProg × Nat),
      closure_i env depth fuel prog i n = .ok r →
      ∃ added, r.1 = { prog with deps := prog.deps ++ added } := by
  intro fuel
  induction fuel with
  | zero => intro prog i n r h; simp [closure_i] at h
  | succ k ih =>
    intro prog i n r h
    rw [closure_i] at h
    split at h
    · simp only [bind_eq_ok] at h
      obtain ⟨di, _, h⟩ := h
      split at h
      · obtain ⟨r1, h1, h⟩ := bind_eq_ok.mp h
        obtain ⟨a1, ha1⟩ := closure_j_append env depth _ _ _ _ _ _ h1
        obtain ⟨a2, ha2⟩ := ih _ _ _ _ h
        refine ⟨a1 ++ a2, ?_⟩
        rw [ha2, ha1]
        simp
      · exact ih _ _ _ _ h
    · cases h
      exact ⟨[], by simp⟩

theorem closure_while_append (env : Env) (depth : Int) :
    ∀ (fuel : Nat) (prog : PlutoProg) (n : Nat) (q : PlutoProg),
      closure_while env depth fuel prog n = .ok q →
      ∃ added, q = { prog with deps := prog.deps ++ added } := by
  intro fuel
  induction fuel with
  | zero => intro prog n q h; simp [closure_while] at h
  | succ k ih =>
    intro prog n q h
    rw [closure_while] at h
    split at h
    · obtain ⟨r1, h1, h⟩ := bind_eq_ok.mp h
      obtain ⟨a1, ha1⟩ := closure_i_append env depth _ _ _ _ _ h1
      obtain ⟨a2, ha2⟩ := ih _ _ _ h
      refine ⟨a1 ++ a2, ?_⟩
      rw [ha2, ha1]
      simp
    · cases h
      exact ⟨[], by simp⟩

/-- With an input dependence already in the main list and input dependences not
requested (a list that neither `compute_deps`, line 1119, nor the Candl path, lines
1747-1749, builds), the removal step frees that dependence as well: on `rar_prog` the
transitive closure introduces no dependence and the list is empty afterwards. -/
theorem rar_removal_drops_prior_dep :
    rar_prog.deps.length = 1 ∧
    closure_while sample_env 1 10 (sample_env.detect rar_prog) (sample_env.detect rar_prog).ndeps
      = .ok rar_prog ∧
    ∃ p, force_parallelize_closure sample_env ⟨1, 0⟩ 10 rar_prog 1 = .ok p ∧ p.deps = [] :=
  ⟨rfl, rfl, _, rfl, rfl⟩

/-- Under last-writer with input dependences not requested, whenever the first phase of
`pluto_force_parallelize` returns, the transitive closure has only appended dependences
to the main list as the classifier left it, and the removal step keeps exactly the
dependences of that extended list that are not of input kind, in their order and
renumbered densely from 0. -/
theorem rar_removal_filter (env : Env) (options : PlutoOptions) (fuel : Nat)
    (prog : PlutoProg) (depth : Int) (p : PlutoProg)
    (hlw : options.lastwriter ≠ 0) (hrar : options.rar = 0)
    (h : force_parallelize_closure env options fuel prog depth = .ok p) :
    ∃ q added,
      closure_while env depth fuel (env.detect prog) (env.detect prog).ndeps = .ok q ∧
      q.deps = (env.detect prog).deps ++ added ∧
      p.deps = renumber 0 (((env.detect prog).deps ++ added).filter fun d => !IS_RAR d.type) ∧
      (∀ d ∈ p.deps, d.type ≠ DepType.CANDL_RAR) ∧
      ((∀ d ∈ (env.detect prog).deps, d.type ≠ DepType.CANDL_RAR) →
        p.deps = renumber 0 ((env.detect prog).deps ++ added.filter fun d => !IS_RAR d.type)) := by
  simp only [force_parallelize_closure, if_pos hlw, bind_eq_ok, if_pos hrar, pure_eq_ok] at h
  obtain ⟨q, hq, rfl⟩ := h
  obtain ⟨added, ha⟩ := closure_while_append env depth _ _ _ _ hq
  have hqd : q.deps = (env.detect prog).deps ++ added := by rw [ha]
  refine ⟨q, added, hq, hqd, ?_, ?_, ?_⟩
  · simp only [compact_deps_eq, hqd]
  · intro d hd
    simp only [compact_deps_eq] at hd
    obtain ⟨d0, hd0, he⟩ := renumber_mem _ _ _ hd
    have hk := (List.mem_filter.mp hd0).2
    have ht : d.type = d0.type := by
      have := congrArg Dep.type he
      simpa [Dep.eraseId] using this
    rw [ht]
    intro hr
    simp [IS_RAR, hr] at hk
  · intro hno
    simp only [compact_deps_eq, hqd, List.filter_append]
    congr 2
    apply List.filter_eq_self.mpr
    intro d hd
    simp [IS_RAR, hno d hd]

/-- C11: in `pluto_force_parallelize` under last-writer configuration with input
dependences not requested, so that the main list holds no input dependence before the
closure, whenever the first phase returns: the transitive closure has only appended
dependences `added` to the main list, and the removal step returns the dependences of
the main list, every one of them kept in its place (with `id` equal to its position),
followed by the dependences of `added` that are not of input kind; so the step removes
exactly the input dependences that the closure introduced, and no input dependence
remains. -/
theorem rar_removal_after_closure (env : Env) (options : PlutoOptions) (fuel : Nat)
    (prog : PlutoProg) (depth : Int) (p : PlutoProg)
    (hlw : options.lastwriter ≠ 0) (hrar : options.rar = 0)
    (hno : ∀ d ∈ (env.detect prog).deps, d.type ≠ DepType.CANDL_RAR)
    (h : force_parallelize_closure env options fuel prog depth = .ok p) :
    ∃ q added,
      closure_while env depth fuel (env.detect prog) (env.detect prog).ndeps = .ok q ∧
      q.deps = (env.detect prog).deps ++ added ∧
      p.deps = renumber 0 ((env.detect prog).deps ++ added.filter fun d => !IS_RAR d.type) ∧
      p.deps.map Dep.eraseId
        = (env.detect prog).deps.map Dep.eraseId ++
          (added.filter fun d => !IS_RAR d.type).map Dep.eraseId ∧
      (∀ (k : Nat) (d : Dep), (env.detect prog).deps.get? k = some d →
        p.deps.get? k = some { d with id := (k : Int) }) ∧
      p.deps.length = (env.detect prog).deps.length
        + (added.filter fun d => !IS_RAR d.type).length ∧
      (∀ d ∈ p.deps, d.type ≠ DepType.CANDL_RAR) := by
  obtain ⟨q, added, hq, hqd, _, hnone, hkeep⟩ :=
    rar_removal_filter env options fuel prog depth p hlw hrar h
  have hp := hkeep hno
  refine ⟨q, added, hq, hqd, hp, ?_, ?_, ?_, hnone⟩
  · rw [hp, renumber_eraseId, List.map_append]
  · intro k d hk
    rw [hp]
    have key : ∀ (l : List Dep) (n k : Nat) (d : Dep), l.get? k = some d →
        (renumber n l).get? k = some { d with id := ((n + k : Nat) : Int) } := by
      intro l
      induction l with
      | nil => intro n k d h0; simp at h0
      | cons a as ih =>
        intro n k d h0
        cases k with
        | zero =>
          simp only [List.get?_cons_zero, Option.some.injEq] at h0
          subst h0
          simp [renumber]
        | succ k =>
          simp only [List.get?_cons_succ] at h0
          have := ih (n + 1) k d h0
          simp only [renumber, List.get?_cons_succ, this]
          congr 3
          omega
    have := key ((env.detect prog).deps ++ added.filter fun d => !IS_RAR d.type) 0 k d (by
      simp only [List.get?_eq_getElem?] at hk ⊢
      rw [List.getElem?_append_left, hk]
      by_contra hlt
      rw [List.getElem?_eq_none (by omega)] at hk
      cases hk)
    rw [Nat.zero_add] at this
    exact this
  · rw [hp, renumber_length, List.length_append]

theorem rar_removal_after_closure_witness :
    (∀ d ∈ (sample_env.detect war_raw_prog).deps, d.type ≠ DepType.CANDL_RAR) ∧
    ∃ p, force_parallelize_closure sample_env ⟨1, 0⟩ 10 war_raw_prog 1 = .ok p ∧
      p.deps = war_raw_prog.deps ∧
      (∃ q, closure_while sample_env 1 10 (sample_env.detect war_raw_prog)
          (sample_env.detect war_raw_prog).ndeps = .ok q ∧
        q.deps.map Dep.type =
          [DepType.CANDL_WAR, DepType.CANDL_RAW, DepType.CANDL_RAR]) ∧
      ∃ q added,
        closure_while sample_env 1 10 (sample_env.detect war_raw_prog)
          (sample_env.detect war_raw_prog).ndeps = .ok q ∧
        q.deps = (sample_env.detect war_raw_prog).deps ++ added ∧
        p.deps = renumber 0 ((sample_env.detect war_raw_prog).deps ++
            added.filter fun d => !IS_RAR d.type) ∧
        p.deps.map Dep.eraseId
          = (sample_env.detect war_raw_prog).deps.map Dep.eraseId ++
            (added.filter fun d => !IS_RAR d.type).map Dep.eraseId ∧
        (∀ (k : Nat) (d : Dep), (sample_env.detect war_raw_prog).deps.get? k = some d →
          p.deps.get? k = some { d with id := (k : Int) }) ∧
        p.deps.length = (sample_env.detect war_raw_prog).deps.length
          + (added.filter fun d => !IS_RAR d.type).length ∧
        (∀ d ∈ p.deps, d.type ≠ DepType.CANDL_RAR) :=
  ⟨by decide, _, rfl, rfl, ⟨_, rfl, rfl⟩,
    rar_removal_after_closure sample_env ⟨1, 0⟩ 10 war_raw_prog 1 _ (by decide) rfl
      (by decide) rfl⟩

/-! ## C13, C14: solver labels and `basic_map_extract` -/

theorem digit_val_digitChar (k : Nat) (h : k < 10) : digit_val (Nat.digitChar k) = some k := by
  interval_cases k <;> rfl

theorem atoi_digits_stop (rest : List Char) (acc : Nat)
    (h : ∀ c ∈ rest.head?, digit_val c = none) : atoi_digits rest acc = acc := by
  cases rest with
  | nil => rfl
  | cons c cs =>
    have := h c (by simp)
    simp only [atoi_digits, this]

theorem toDigitsCore_spec : ∀ (fuel n : Nat) (ds : List Char), n < fuel →
    ∃ D, Nat.toDigitsCore 10 fuel n ds = D ++ ds ∧ D ≠ [] ∧
      (∀ c ∈ D, 48 ≤ c.toNat ∧ c.toNat ≤ 57) ∧
      (∀ acc rest, atoi_digits (D ++ rest) acc = atoi_digits rest (acc * 10 ^ D.length + n)) ∧
      (∀ k, n < 10 ^ (k + 1) → D.length ≤ k + 1) := by
  intro fuel
  induction fuel with
  | zero => intro n ds h; omega
  | succ f ih =>
    intro n ds hn
    have hd := digit_val_digitChar (n % 10) (Nat.mod_lt _ (by decide))
    have hrange : 48 ≤ (Nat.digitChar (n % 10)).toNat ∧ (Nat.digitChar (n % 10)).toNat ≤ 57 := by
      by_contra hc
      simp only [digit_val, if_neg hc] at hd
      cases hd
    by_cases h0 : n / 10 = 0
    · refine ⟨[Nat.digitChar (n % 10)], ?_, by simp, ?_, ?_, ?_⟩
      · simp [Nat.toDigitsCore, h0]
      · intro c hc
        simp only [List.mem_singleton] at hc
        rw [hc]
        exact hrange
      · intro acc rest
        have hn10 : n % 10 = n := by omega
        simp only [List.singleton_append, atoi_digits, hd, List.length_singleton, pow_one]
        congr 1
        omega
      · intro k _
        simp
    · obtain ⟨D, hD, _, hdig, hval, hlen⟩ := ih (n / 10) (Nat.digitChar (n % 10) :: ds)
        (by omega)
      refine ⟨D ++ [Nat.digitChar (n % 10)], ?_, by simp, ?_, ?_, ?_⟩
      · simp [Nat.toDigitsCore, h0, hD]
      · intro c hc
        rcases List.mem_append.mp hc with hc | hc
        · exact hdig c hc
        · simp only [List.mem_singleton] at hc
          rw [hc]
          exact hrange
      · intro acc rest
        rw [List.append_assoc, hval]
        simp only [List.singleton_append, atoi_digits, hd, List.length_append,
          List.length_singleton, pow_succ]
        congr 1
        have := Nat.div_add_mod n 10
        nlinarith [Nat.div_add_mod n 10]
      · intro k hk
        cases k with
        | zero => omega
        | succ k1 =>
          have := hlen k1 (by
            rw [pow_succ] at hk
            omega)
          simp only [List.length_append, List.length_singleton]
          omega

theorem toDigits_spec (n : Nat) :
    Nat.toDigits 10 n ≠ [] ∧
    (∀ c ∈ Nat.toDigits 10 n, 48 ≤ c.toNat ∧ c.toNat ≤ 57) ∧
    (∀ rest, (∀ c ∈ rest.head?, digit_val c = none) →
      atoi_digits (Nat.toDigits 10 n ++ rest) 0 = n) ∧
    (∀ k, n < 10 ^ (k + 1) → (Nat.toDigits 10 n).length ≤ k + 1) := by
  obtain ⟨D, hD, hne, hdig, hval, hlen⟩ := toDigitsCore_spec (n + 1) n [] (by omega)
  have hD2 : Nat.toDigits 10 n = D := by
    unfold Nat.toDigits
    rw [hD, List.append_nil]
  rw [hD2]
  refine ⟨hne, hdig, ?_, hlen⟩
  intro rest hrest
  rw [hval, atoi_digits_stop rest _ hrest]
  simp

theorem atoi_toDigits (n : Nat) (rest : List Char) (hn : n ≤ 2147483647)
    (hrest : ∀ c ∈ rest.head?, digit_val c = none) :
    atoi (Nat.toDigits 10 n ++ rest) = .ok (n : Int) := by
  obtain ⟨hne, hdig, hval, _⟩ := toDigits_spec n
  have hv := hval rest hrest
  cases hD : Nat.toDigits 10 n with
  | nil => exact absurd hD hne
  | cons c D1 =>
    rw [hD] at hv hdig
    have hc := hdig c (by simp)
    have hsp : ¬ (c.toNat = 32 ∨ (9 ≤ c.toNat ∧ c.toNat ≤ 13)) := by omega
    have hm : c ≠ '-' := by
      intro h
      rw [h] at hc
      simp at hc
    have hp : c ≠ '+' := by
      intro h
      rw [h] at hc
      simp at hc
    unfold atoi
    simp only [List.cons_append, List.dropWhile_cons, hsp, decide_False, Bool.false_eq_true,
      if_false, hm, hp]
    rw [List.cons_append] at hv
    rw [hv]
    rw [if_pos (by omega)]

theorem scan_underscore_digits (D rest : List Char)
    (hdig : ∀ c ∈ D, 48 ≤ c.toNat ∧ c.toNat ≤ 57) :
    scan_underscore (D ++ '_' :: rest) = rest := by
  induction D with
  | nil => simp [scan_underscore]
  | cons c cs ih =>
    have hc := hdig c (by simp)
    have hne : c ≠ '_' := by
      intro h
      rw [h] at hc
      simp at hc
    simp only [List.cons_append, scan_underscore, hne, if_false]
    exact ih fun x hx => hdig x (by simp [hx])

theorem fmt_d_nonneg (i : Int) (h : 0 ≤ i) : fmt_d i = Nat.toDigits 10 i.toNat := by
  unfold fmt_d
  rw [if_neg (by omega)]

theorem compact_label_decodes (i : Int) (h0 : 0 ≤ i) (h1 : i ≤ 2147483647) :
    compact_label i = ['S', '_'] ++ fmt_d i ∧ label_stmt_id (compact_label i) = .ok i ∧
    label_acc_num (compact_label i) = .error Fault.assertion := by
  obtain ⟨hne, hdig, hval, hlen⟩ := toDigits_spec i.toNat
  have hl := hlen 9 (by omega)
  have hfit : compact_label i = ['S', '_'] ++ fmt_d i := by
    unfold compact_label snprintf_name
    rw [fmt_d_nonneg i h0]
    apply List.take_of_length_le
    simp only [List.length_append, List.length_cons, List.length_nil]
    omega
  refine ⟨hfit, ?_, ?_⟩
  · rw [hfit, fmt_d_nonneg i h0]
    unfold label_stmt_id
    rw [if_pos (by simp)]
    have := atoi_toDigits i.toNat [] (by omega) (by simp)
    simp only [List.append_nil] at this
    simp only [List.cons_append, List.nil_append, List.drop_succ_cons, List.drop_zero, this]
    congr 1
    omega
  · rw [hfit, fmt_d_nonneg i h0]
    unfold label_acc_num
    rw [if_pos (by simp)]
    have hs : ∀ D : List Char, (∀ c ∈ D, 48 ≤ c.toNat ∧ c.toNat ≤ 57) →
        scan_underscore D = [] := by
      intro D
      induction D with
      | nil => intro _; rfl
      | cons c cs ih =>
        intro hd
        have hc := hd c (by simp)
        have hne : c ≠ '_' := by
          intro h
          rw [h] at hc
          simp at hc
        simp only [scan_underscore, hne, if_false]
        exact ih fun x hx => hd x (by simp [hx])
    simp only [List.cons_append, List.nil_append, List.drop_succ_cons, List.drop_zero,
      hs _ hdig]

theorem access_label_decodes (kind : AccKind) (i n : Int) (hi0 : 0 ≤ i) (hi1 : i ≤ 2147483647)
    (hn0 : 0 ≤ n) (hn1 : n ≤ 2147483647)
    (hfit : (fmt_d i).length + (fmt_d n).length ≤ 15) :
    label_stmt_id (access_label kind i n) = .ok i ∧
    label_acc_num (access_label kind i n) = .ok n := by
  obtain ⟨_, hdigi, _, _⟩ := toDigits_spec i.toNat
  have hlab : access_label kind i n = ['S', '_'] ++ fmt_d i ++
      ['_', kind.letter] ++ fmt_d n := by
    unfold access_label snprintf_name
    apply List.take_of_length_le
    simp only [List.length_append, List.length_cons, List.length_nil]
    omega
  have hk : digit_val kind.letter = none := by
    cases kind <;> rfl
  rw [hlab, fmt_d_nonneg i hi0, fmt_d_nonneg n hn0]
  constructor
  · unfold label_stmt_id
    rw [if_pos (by simp)]
    have := atoi_toDigits i.toNat
      (['_', kind.letter] ++ Nat.toDigits 10 n.toNat) (by omega)
      (by
        intro c hc
        simp only [List.cons_append, List.head?_cons, Option.mem_def, Option.some.injEq] at hc
        rw [← hc]
        rfl)
    simp only [List.cons_append, List.nil_append, List.drop_succ_cons, List.drop_zero,
      List.append_assoc] at this ⊢
    rw [this]
    congr 1
    omega
  · unfold label_acc_num
    rw [if_pos (by simp)]
    have hs := scan_underscore_digits (Nat.toDigits 10 i.toNat)
      (kind.letter :: Nat.toDigits 10 n.toNat) hdigi
    simp only [List.cons_append, List.nil_append, List.drop_succ_cons, List.drop_zero,
      List.append_assoc, hs]
    have := atoi_toDigits n.toNat [] (by omega) (by simp)
    simp only [List.append_nil] at this
    rw [this]
    congr 1
    omega

theorem acc_ref_inv {stmts : List Stmt} {sid num : Int} {w : Bool} {r : Option AccRef}
    (h : acc_ref stmts sid w num = .ok r) :
    r = some { stmt := sid, is_write := w, num := num } := by
  simp only [acc_ref, bind_eq_ok, pure_eq_ok] at h
  obtain ⟨_, _, _, _, _, _, h⟩ := h
  exact h.symm

theorem extract_accs_inv {stmts : List Stmt} {type : DepType} {src dest a b : Int}
    {r : Option AccRef × Option AccRef} (h : extract_accs stmts type src dest a b = .ok r) :
    ∃ w1 w2, r = (some { stmt := src, is_write := w1, num := a },
                  some { stmt := dest, is_write := w2, num := b }) ∧
      type.srcKind = some (if w1 then AccKind.write else AccKind.read) ∧
      type.destKind = some (if w2 then AccKind.write else AccKind.read) := by
  have key : ∀ w1 w2,
      ((acc_ref stmts src w1 a).bind fun sa =>
        (acc_ref stmts dest w2 b).bind fun da => Except.ok (sa, da)) = .ok r →
      r = (some { stmt := src, is_write := w1, num := a },
           some { stmt := dest, is_write := w2, num := b }) := by
    intro w1 w2 h
    cases h1 : acc_ref stmts src w1 a with
    | error e => rw [h1] at h; cases h
    | ok sa =>
      rw [h1] at h
      cases h2 : acc_ref stmts dest w2 b with
      | error e =>
        simp only [Except.bind, h2] at h
        cases h
      | ok da =>
        simp only [Except.bind, h2] at h
        cases h
        rw [acc_ref_inv h1, acc_ref_inv h2]
  cases type with
  | CANDL_UNSET => simp [extract_accs] at h
  | CANDL_RAW => exact ⟨true, false, key _ _ h, rfl, rfl⟩
  | CANDL_WAR => exact ⟨false, true, key _ _ h, rfl, rfl⟩
  | CANDL_WAW => exact ⟨true, true, key _ _ h, rfl, rfl⟩
  | CANDL_RAR => exact ⟨false, false, key _ _ h, rfl, rfl⟩

theorem basic_map_extract_decodes {stmts : List Stmt} {type : DepType} {index : Int}
    {dep0 dep : Dep} {in_name out_name : List Char} {poly : PlutoConstraints}
    (h : basic_map_extract stmts type index dep0 in_name out_name poly = .ok dep) :
    label_stmt_id in_name = .ok dep.src ∧ label_stmt_id out_name = .ok dep.dest ∧
    (∀ a, dep.src_acc = some a → a.stmt = dep.src ∧ label_acc_num in_name = .ok a.num ∧
      type.srcKind = some (if a.is_write then AccKind.write else AccKind.read)) ∧
    (∀ a, dep.dest_acc = some a → a.stmt = dep.dest ∧ label_acc_num out_name = .ok a.num ∧
      type.destKind = some (if a.is_write then AccKind.write else AccKind.read)) ∧
    (accesses_available stmts dep.src dep.dest = .ok true →
      dep.src_acc.isSome = true ∧ dep.dest_acc.isSome = true) ∧
    (accesses_available stmts dep.src dep.dest = .ok false →
      dep.src_acc = none ∧ dep.dest_acc = none) := by
  simp only [basic_map_extract, bind_eq_ok, pure_eq_ok] at h
  obtain ⟨src, hsrc, dest, hdest, avail, hav, accs, hacc, rfl⟩ := h
  refine ⟨hsrc, hdest, ?_⟩
  cases avail with
  | false =>
    simp only [Bool.false_eq_true, if_false] at hacc
    cases hacc
    refine ⟨fun a ha => (by cases ha), fun a ha => (by cases ha), ?_, fun _ => ⟨rfl, rfl⟩⟩
    intro ht
    rw [hav] at ht
    cases ht
  | true =>
    simp only [if_true] at hacc
    cases ha : label_acc_num in_name with
    | error e => rw [ha] at hacc; cases hacc
    | ok a =>
      rw [ha] at hacc
      cases hb : label_acc_num out_name with
      | error e =>
        simp only [Except.bind, hb] at hacc
        cases hacc
      | ok b =>
        simp only [Except.bind, hb] at hacc
        obtain ⟨w1, w2, rfl, hk1, hk2⟩ := extract_accs_inv hacc
        refine ⟨?_, ?_, fun _ => ⟨rfl, rfl⟩, ?_⟩
        · intro x hx
          cases hx
          exact ⟨rfl, rfl, hk1⟩
        · intro x hx
          cases hx
          exact ⟨rfl, rfl, hk2⟩
        · intro hf
          rw [hav] at hf
          cases hf

theorem access_label_cut (kind : AccKind) (i n : Int) (hi0 : 0 ≤ i) (hi1 : i ≤ 2147483647) :
    access_label kind i n = ['S', '_'] ++ fmt_d i ++ ['_', kind.letter] ++
        (fmt_d n).take (15 - (fmt_d i).length) ∧
    label_stmt_id (access_label kind i n) = .ok i ∧
    label_acc_num (access_label kind i n) = atoi ((fmt_d n).take (15 - (fmt_d i).length)) := by
  obtain ⟨_, hdigi, _, hleni⟩ := toDigits_spec i.toNat
  have hl := hleni 9 (by omega)
  have hlab : access_label kind i n = ['S', '_'] ++ fmt_d i ++ ['_', kind.letter] ++
      (fmt_d n).take (15 - (fmt_d i).length) := by
    unfold access_label snprintf_name
    rw [fmt_d_nonneg i hi0, List.take_append_eq_append_take,
      List.take_of_length_le (by
        simp only [List.length_append, List.length_cons, List.length_nil]
        omega)]
    congr 2
    simp only [List.length_append, List.length_cons, List.length_nil]
    omega
  refine ⟨hlab, ?_, ?_⟩
  · rw [hlab, fmt_d_nonneg i hi0]
    unfold label_stmt_id
    rw [if_pos (by simp)]
    have := atoi_toDigits i.toNat
      (['_', kind.letter] ++ (fmt_d n).take (15 - (Nat.toDigits 10 i.toNat).length)) (by omega)
      (by
        intro c hc
        simp only [List.cons_append, List.head?_cons, Option.mem_def, Option.some.injEq] at hc
        rw [← hc]
        rfl)
    simp only [List.cons_append, List.nil_append, List.drop_succ_cons, List.drop_zero,
      List.append_assoc] at this ⊢
    rw [this]
    congr 1
    omega
  · rw [hlab, fmt_d_nonneg i hi0]
    unfold label_acc_num
    rw [if_pos (by simp)]
    have hs := scan_underscore_digits (Nat.toDigits 10 i.toNat)
      (kind.letter :: (fmt_d n).take (15 - (Nat.toDigits 10 i.toNat).length)) hdigi
    simp only [List.cons_append, List.nil_append, List.drop_succ_cons, List.drop_zero,
      List.append_assoc, hs]

/-- C13 (counterexample): for statement index 1234567 and read ordinal 123456789 the
formatted text has 20 characters and the buffer `char name[20]` keeps 19 of them; the
decoder reads the statement id 1234567 and the access ordinal 12345678. -/
theorem access_label_truncated :
    access_label AccKind.read 1234567 123456789 =
      ['S', '_', '1', '2', '3', '4', '5', '6', '7', '_', 'r',
       '1', '2', '3', '4', '5', '6', '7', '8'] ∧
    label_stmt_id (access_label AccKind.read 1234567 123456789) = .ok 1234567 ∧
    label_acc_num (access_label AccKind.read 1234567 123456789) = .ok 12345678 :=
  ⟨by decide, rfl, rfl⟩

/-- C13 (amended): for every statement index `i` and access ordinal `n` in the range
`0 .. INT_MAX` and either access kind, the label written for `(i, kind, n)` is the text
`S_<i>_r<n>` or `S_<i>_w<n>` cut to 19 characters, that is `S_<i>_r` or `S_<i>_w`
followed by the first `15 - digits(i)` digits of `n`; it is decoded to statement id
`i`, and its ordinal is decoded from the digits of `n` that remain. When the label fits
the 20-byte buffer (the decimal digits of `i` and of `n` are at most 15 together) the
ordinal decoded is `n`; the compact label `S_<i>` is decoded to statement id `i` for
every such `i`. Accordingly a returning `basic_map_extract` on such labels sets `src`
(or `dest`) to `i`, and an access reference it sets is the one of that statement whose
ordinal is read from the remaining digits, which is `n` when the label fits. -/
theorem label_round_trip (kind : AccKind) (i n : Int)
    (hi : 0 ≤ i ∧ i ≤ 2147483647) (hn : 0 ≤ n ∧ n ≤ 2147483647) :
    access_label kind i n
      = (['S', '_'] ++ fmt_d i ++ ['_', kind.letter] ++ fmt_d n).take 19 ∧
    access_label kind i n = ['S', '_'] ++ fmt_d i ++ ['_', kind.letter] ++
        (fmt_d n).take (15 - (fmt_d i).length) ∧
    label_stmt_id (access_label kind i n) = .ok i ∧
    label_acc_num (access_label kind i n) = atoi ((fmt_d n).take (15 - (fmt_d i).length)) ∧
    ((fmt_d i).length + (fmt_d n).length ≤ 15 →
      label_acc_num (access_label kind i n) = .ok n) ∧
    (15 < (fmt_d i).length + (fmt_d n).length → (access_label kind i n).length = 19) ∧
    label_stmt_id (compact_label i) = .ok i ∧
    (∀ stmts type index dep0 other poly dep,
      basic_map_extract stmts type index dep0 (access_label kind i n) other poly = .ok dep →
      dep.src = i ∧ ∀ a, dep.src_acc = some a → a.stmt = i ∧
        atoi ((fmt_d n).take (15 - (fmt_d i).length)) = .ok a.num ∧
        ((fmt_d i).length + (fmt_d n).length ≤ 15 → a.num = n)) ∧
    (∀ stmts type index dep0 other poly dep,
      basic_map_extract stmts type index dep0 other (access_label kind i n) poly = .ok dep →
      dep.dest = i ∧ ∀ a, dep.dest_acc = some a → a.stmt = i ∧
        atoi ((fmt_d n).take (15 - (fmt_d i).length)) = .ok a.num ∧
        ((fmt_d i).length + (fmt_d n).length ≤ 15 → a.num = n)) ∧
    (∀ stmts type index dep0 other poly dep,
      basic_map_extract stmts type index dep0 (compact_label i) other poly = .ok dep →
      dep.src = i) ∧
    (∀ stmts type index dep0 other poly dep,
      basic_map_extract stmts type index dep0 other (compact_label i) poly = .ok dep →
      dep.dest = i) := by
  obtain ⟨hcut, h1, hnum⟩ := access_label_cut kind i n hi.1 hi.2
  have h2 : (fmt_d i).length + (fmt_d n).length ≤ 15 →
      label_acc_num (access_label kind i n) = .ok n :=
    fun hfit => (access_label_decodes kind i n hi.1 hi.2 hn.1 hn.2 hfit).2
  obtain ⟨_, h3, _⟩ := compact_label_decodes i hi.1 hi.2
  refine ⟨rfl, hcut, h1, hnum, h2, ?_, h3, ?_, ?_, ?_, ?_⟩
  · intro hlong
    rw [hcut]
    simp only [List.length_append, List.length_cons, List.length_nil, List.length_take]
    obtain ⟨_, _, _, hleni⟩ := toDigits_spec i.toNat
    have hl := hleni 9 (by omega)
    rw [fmt_d_nonneg i hi.1] at hlong ⊢
    omega
  · intro stmts type index dep0 other poly dep h
    obtain ⟨hs, _, hsa, _⟩ := basic_map_extract_decodes h
    rw [h1] at hs
    have hsrc : dep.src = i := (Except.ok.inj hs).symm
    refine ⟨hsrc, fun a ha => ?_⟩
    obtain ⟨e1, e2, _⟩ := hsa a ha
    refine ⟨e1.trans hsrc, by rw [← hnum]; exact e2, fun hfit => ?_⟩
    rw [h2 hfit] at e2
    exact (Except.ok.inj e2).symm
  · intro stmts type index dep0 other poly dep h
    obtain ⟨_, hd, _, hda, _⟩ := basic_map_extract_decodes h
    rw [h1] at hd
    have hdest : dep.dest = i := (Except.ok.inj hd).symm
    refine ⟨hdest, fun a ha => ?_⟩
    obtain ⟨e1, e2, _⟩ := hda a ha
    refine ⟨e1.trans hdest, by rw [← hnum]; exact e2, fun hfit => ?_⟩
    rw [h2 hfit] at e2
    exact (Except.ok.inj e2).symm
  · intro stmts type index dep0 other poly dep h
    obtain ⟨hs, _⟩ := basic_map_extract_decodes h
    rw [h3] at hs
    exact (Except.ok.inj hs).symm
  · intro stmts type index dep0 other poly dep h
    obtain ⟨_, hd, _⟩ := basic_map_extract_decodes h
    rw [h3] at hd
    exact (Except.ok.inj hd).symm

theorem label_round_trip_witness :
    access_label AccKind.write 1 0 = ['S', '_', '1', '_', 'w', '0'] ∧
    label_stmt_id (access_label AccKind.write 1 0) = .ok 1 ∧
    label_acc_num (access_label AccKind.write 1 0) = .ok 0 ∧
    label_stmt_id (compact_label 1) = .ok 1 ∧
    label_acc_num (access_label AccKind.read 1234567 123456789)
      = atoi ['1', '2', '3', '4', '5', '6', '7', '8'] ∧
    ∃ dep, basic_map_extract access_prog.stmts DepType.CANDL_RAW 0 (pluto_dep_alloc sample_env.fresh)
        (access_label AccKind.write 1 0) (access_label AccKind.read 1 0)
        { ncols := 4, rows := [] } = .ok dep ∧
      dep.src = 1 ∧ dep.src_acc = some ⟨1, true, 0⟩ ∧ dep.dest_acc = some ⟨1, false, 0⟩ :=
  ⟨by decide,
    (label_round_trip AccKind.write 1 0 (by decide) (by decide)).2.2.1,
    (label_round_trip AccKind.write 1 0 (by decide) (by decide)).2.2.2.2.1 (by decide),
    (label_round_trip AccKind.write 1 0 (by decide) (by decide)).2.2.2.2.2.2.1,
    (label_round_trip AccKind.read 1234567 123456789 (by decide) (by decide)).2.2.2.1,
    _, rfl, rfl, rfl, rfl⟩

/-- C14: on the statements of `sample_prog`, whose `reads` arrays are allocated, a piece
whose endpoint labels are the compact labels `S_0` and `S_1` makes `basic_map_extract`
fail at `assert(0)` ("access function num not encoded in dependence") instead of
leaving the access references unset; the references are left unset, with `src = 0`
and `dest = 1`, only when a `reads` array of the two statements is `NULL`. -/
theorem compact_label_aborts :
    compact_label 0 = ['S', '_', '0'] ∧ compact_label 1 = ['S', '_', '1'] ∧
    (∀ s ∈ sample_prog.stmts, s.reads ≠ none) ∧
    basic_map_extract sample_prog.stmts DepType.CANDL_RAW 0 (pluto_dep_alloc sample_env.fresh)
      (compact_label 0) (compact_label 1) { ncols := 3, rows := [] }
      = .error Fault.assertion ∧
    ∃ dep, basic_map_extract
        [{ sample_stmt 0 with reads := none }, { sample_stmt 1 with reads := none }]
        DepType.CANDL_RAW 0 (pluto_dep_alloc sample_env.fresh)
        (compact_label 0) (compact_label 1) { ncols := 3, rows := [] } = .ok dep ∧
      dep.src = 0 ∧ dep.dest = 1 ∧ dep.src_acc = none ∧ dep.dest_acc = none :=
  ⟨by decide, by decide, by decide, rfl, _, rfl, rfl, rfl, rfl, rfl⟩

/-! ## C18: the statements and the hyperplanes built by the front-end adapter -/

theorem add_hyperplanes_from_spec (k : Nat) : ∀ (st : Stmt) (t : PlutoMatrix),
    st.trans = some t → st.hyp_types.length ≤ t.nrows →
    add_hyperplanes_from k (t.nrows : Int) st =
      .ok { st with trans := some { ncols := t.ncols,
                                    val := t.val ++
                                      List.replicate k (List.replicate t.ncols 0) },
                    hyp_types := st.hyp_types ++ List.replicate k PlutoHypType.H_SCALAR } := by
  induction k with
  | zero =>
    intro st t ht _
    cases st
    simp only [List.replicate_zero, List.append_nil, add_hyperplanes_from] at ht ⊢
    simp only [ht]
  | succ n ih =>
    intro st t ht hle
    rw [add_hyperplanes_from, stmt_add_hyperplane_end st t ht]
    simp only []
    have hcast : ((t.nrows : Int) + 1) =
        (((({ ncols := t.ncols, val := t.val ++ [List.replicate t.ncols 0] } : PlutoMatrix).nrows
          : Nat)) : Int) := by
      simp [PlutoMatrix.nrows]
    rw [hcast, ih _ _ rfl (by
      simp only [insertAt_length, PlutoMatrix.nrows, List.length_append, List.length_singleton]
      simp only [PlutoMatrix.nrows] at hle
      omega)]
    rw [insertAt_of_length_le _ _ _ hle]
    simp only [List.append_assoc, List.singleton_append, List.replicate_succ]

theorem foldl_max_rows_ge (l : List ScoplibStatement) : ∀ m : Nat,
    m ≤ l.foldl (fun m s => max m s.schedule.NbRows) m ∧
    ∀ st ∈ l, st.schedule.NbRows ≤ l.foldl (fun m s => max m s.schedule.NbRows) m := by
  induction l with
  | nil => intro m; simp
  | cons a as ih =>
    intro m
    simp only [List.foldl_cons, List.mem_cons]
    have h1 := (ih (max m a.schedule.NbRows)).1
    refine ⟨le_trans (le_max_left _ _) h1, ?_⟩
    intro st hst
    rcases hst with rfl | hst
    · exact le_trans (le_max_right _ _) h1
    · exact (ih (max m a.schedule.NbRows)).2 st hst

theorem scoplib_to_pluto_stmt_inv {junk : Nat → Bool} {npar : Int} {M i : Nat}
    {st : ScoplibStatement} {s : Stmt}
    (h : scoplib_to_pluto_stmt junk npar M i st = .ok s) :
    s.id = (i : Int) ∧ s.dim = st.nb_iterators ∧
    s.domain = scoplib_matrix_to_pluto_constraints st.domain ∧
    s.trans = some { ncols := st.schedule.NbColumns - 1,
                     val := st.schedule.p.map List.tail ++
                       List.replicate (M - st.schedule.NbRows)
                         (List.replicate (st.schedule.NbColumns - 1) 0) } ∧
    s.hyp_types = List.replicate st.schedule.NbRows PlutoHypType.H_LOOP ++
      List.replicate (M - st.schedule.NbRows) PlutoHypType.H_SCALAR ∧
    (st.domain.NbColumns : Int) - 1 = s.dim + npar + 1 := by
  simp only [scoplib_to_pluto_stmt, bind_eq_ok, pure_eq_ok, cAssert_eq_ok] at h
  obtain ⟨trans, htr, stmt0, h0, t0, ht0, stmt1, h1, _, hassert, its, _, rfl⟩ := h
  rw [schedule_to_trans_eq] at htr
  split at htr
  · cases htr
    simp only [pluto_stmt_alloc, bind_eq_ok, pure_eq_ok, cAssert_eq_ok, cDeref_eq_ok] at h0
    obtain ⟨_, _, t, ht, rfl⟩ := h0
    cases ht
    rw [cDeref_eq_ok] at ht0
    cases ht0
    rw [add_hyperplanes_from_spec _ _ _ rfl (by simp [pluto_matrix_dup, PlutoMatrix.nrows])] at h1
    cases h1
    refine ⟨rfl, rfl, rfl, ?_, ?_, hassert⟩
    · simp [pluto_matrix_dup, PlutoMatrix.nrows, ScoplibMatrix.NbRows]
    · simp [pluto_matrix_dup, PlutoMatrix.nrows, ScoplibMatrix.NbRows]
  · cases htr

theorem scoplib_to_pluto_stmts_loop_inv (junk : Nat → Bool) (npar : Int) (M : Nat)
    (l : List ScoplibStatement) : ∀ (i : Nat) (stmts : List Stmt),
    scoplib_to_pluto_stmts_loop junk npar M i l = .ok stmts →
    stmts.length = l.length ∧
    ∀ k st, l.get? k = some st →
      ∃ s, stmts.get? k = some s ∧ scoplib_to_pluto_stmt junk npar M (i + k) st = .ok s := by
  induction l with
  | nil =>
    intro i stmts h
    simp only [scoplib_to_pluto_stmts_loop] at h
    cases h
    exact ⟨rfl, fun k st hk => by simp at hk⟩
  | cons a as ih =>
    intro i stmts h
    rw [scoplib_to_pluto_stmts_loop] at h
    cases hs : scoplib_to_pluto_stmt junk npar M i a with
    | error e => rw [hs] at h; cases h
    | ok s =>
      rw [hs] at h
      cases hr : scoplib_to_pluto_stmts_loop junk npar M (i + 1) as with
      | error e => rw [hr] at h; cases h
      | ok ss =>
        rw [hr] at h
        cases h
        obtain ⟨hl, hget⟩ := ih (i + 1) ss hr
        refine ⟨by simp [hl], ?_⟩
        intro k st hk
        cases k with
        | zero =>
          simp only [List.get?_cons_zero, Option.some.injEq] at hk
          subst hk
          exact ⟨s, rfl, hs⟩
        | succ k1 =>
          obtain ⟨s1, hs1, hs2⟩ := hget k1 st hk
          refine ⟨s1, hs1, ?_⟩
          have : i + (k1 + 1) = i + 1 + k1 := by omega
          rw [this]
          exact hs2

theorem scoplib_to_pluto_stmt_returns (junk : Nat → Bool) (npar : Int) (M i : Nat)
    (st : ScoplibStatement) (hv : scop_stmt_valid npar st = true) :
    ∃ s, scoplib_to_pluto_stmt junk npar M i st = .ok s := by
  simp only [scop_stmt_valid, Bool.and_eq_true, List.all_eq_true, decide_eq_true_eq] at hv
  obtain ⟨⟨htag, hcol⟩, hit⟩ := hv
  obtain ⟨its, hits⟩ := mapE_isOk
    (fun j : Nat => (cIndex st.iterators (j : Int)).map some) (List.range st.nb_iterators.toNat)
    (by
      intro j hj
      have hj2 : j < st.iterators.length := by
        have := List.mem_range.mp hj
        omega
      have : cIndex st.iterators (j : Int) = .ok (st.iterators.get ⟨j, hj2⟩) :=
        cIndex_nat.mpr (List.get?_eq_get hj2)
      refine ⟨some (st.iterators.get ⟨j, hj2⟩), ?_⟩
      show Except.map some (cIndex st.iterators (j : Int)) = _
      rw [this]
      rfl)
  have htr := schedule_to_trans_eq st.schedule
  rw [if_pos htag] at htr
  obtain ⟨stmt0, h0, ht0, hh0, hd0⟩ : ∃ stmt0 : Stmt,
      pluto_stmt_alloc junk st.nb_iterators (scoplib_matrix_to_pluto_constraints st.domain)
        (some { ncols := st.schedule.NbColumns - 1, val := st.schedule.p.map List.tail })
        = .ok stmt0 ∧
      stmt0.trans = some { ncols := st.schedule.NbColumns - 1,
                           val := st.schedule.p.map List.tail } ∧
      stmt0.hyp_types.length ≤ st.schedule.p.length ∧ stmt0.dim = st.nb_iterators := by
    refine ⟨{ id := -1, dim := st.nb_iterators,
              domain := scoplib_matrix_to_pluto_constraints st.domain,
              trans := some { ncols := st.schedule.NbColumns - 1,
                              val := st.schedule.p.map List.tail },
              hyp_types := List.replicate st.schedule.p.length PlutoHypType.H_LOOP,
              iterators := if st.nb_iterators ≥ 1 then
                  List.replicate st.nb_iterators.toNat none else [],
              is_orig_loop := if st.nb_iterators ≥ 1 then
                  (List.range st.nb_iterators.toNat).map junk else [],
              reads := none, writes := none }, ?_, rfl, by simp, rfl⟩
    simp only [pluto_stmt_alloc, bind_eq_ok, pure_eq_ok, cAssert_eq_ok, cDeref_eq_ok]
    refine ⟨(), by simp, _, rfl, ?_⟩
    simp [pluto_matrix_dup, pluto_constraints_dup, PlutoMatrix.nrows]
  have hadd := add_hyperplanes_from_spec
    (M - ({ ncols := st.schedule.NbColumns - 1,
            val := st.schedule.p.map List.tail } : PlutoMatrix).nrows) stmt0 _ ht0
    (by simpa [PlutoMatrix.nrows] using hh0)
  obtain ⟨stmt1, hadd1, hd1⟩ : ∃ stmt1 : Stmt,
      add_hyperplanes_from
        (M - ({ ncols := st.schedule.NbColumns - 1,
                val := st.schedule.p.map List.tail } : PlutoMatrix).nrows)
        ((({ ncols := st.schedule.NbColumns - 1,
             val := st.schedule.p.map List.tail } : PlutoMatrix).nrows : Nat) : Int) stmt0
        = .ok stmt1 ∧ stmt1.dim = st.nb_iterators := by
    exact ⟨_, hadd, hd0⟩
  simp only [scoplib_to_pluto_stmt, bind_eq_ok, pure_eq_ok, cAssert_eq_ok]
  refine ⟨_, _, htr, stmt0, h0, _, by rw [ht0]; rfl, stmt1, hadd1, (), ?_, its, ?_, rfl⟩
  · rw [hd1]
    exact hcol
  · rw [hd1]
    exact hits

theorem foldl_max_rows_attained (l : List ScoplibStatement) : ∀ m : Nat,
    l.foldl (fun m s => max m s.schedule.NbRows) m = m ∨
    ∃ st ∈ l, st.schedule.NbRows = l.foldl (fun m s => max m s.schedule.NbRows) m := by
  induction l with
  | nil => intro m; exact Or.inl rfl
  | cons a as ih =>
    intro m
    simp only [List.foldl_cons, List.mem_cons]
    rcases ih (max m a.schedule.NbRows) with h | ⟨st, hst, h⟩
    · rw [h]
      rcases le_total m a.schedule.NbRows with hle | hle
      · rw [max_eq_right hle]
        exact Or.inr ⟨a, Or.inl rfl, rfl⟩
      · rw [max_eq_left hle]
        exact Or.inl rfl
    · exact Or.inr ⟨st, Or.inr hst, h⟩

theorem max_sched_rows_is_max (l : List ScoplibStatement) :
    (∀ st ∈ l, st.schedule.NbRows ≤ max_sched_rows l) ∧
    (l ≠ [] → ∃ st ∈ l, st.schedule.NbRows = max_sched_rows l) := by
  refine ⟨(foldl_max_rows_ge l 0).2, ?_⟩
  intro hne
  rcases foldl_max_rows_attained l 0 with h | h
  · cases l with
    | nil => exact absurd rfl hne
    | cons a as =>
      refine ⟨a, by simp, ?_⟩
      have := (foldl_max_rows_ge (a :: as) 0).2 a (by simp)
      unfold max_sched_rows
      omega
  · exact h

theorem front_hyperplanes_inv : ∀ (k i : Nat) (p p2 : PlutoProg),
    front_hyperplanes k i p = .ok p2 →
    p2.stmts = p.stmts ∧ p2.num_hyperplanes = p.num_hyperplanes + k := by
  intro k
  induction k with
  | zero =>
    intro i p p2 h
    simp only [front_hyperplanes] at h
    cases h
    exact ⟨rfl, rfl⟩
  | succ n ih =>
    intro i p p2 h
    rw [front_hyperplanes] at h
    cases h1 : pluto_prog_add_hyperplane p (p.num_hyperplanes : Int) PlutoHypType.H_UNKNOWN with
    | error e => rw [h1] at h; cases h
    | ok p1 =>
      rw [h1] at h
      simp only [] at h
      obtain ⟨hn, hs⟩ := prog_add_hyperplane_rows h1
      cases h2 : cIndex p1.hProps ((p1.num_hyperplanes : Int) - 1) with
      | error e => rw [h2] at h; cases h
      | ok hp =>
        rw [h2] at h
        simp only [] at h
        obtain ⟨hs3, hn3⟩ := ih _ _ _ h
        refine ⟨hs3.trans hs, ?_⟩
        rw [hn3]
        simp only [PlutoProg.num_hyperplanes, List.length_set] at hn ⊢
        omega

theorem force_parallelize_frame (env : Env) (global : PlutoOptions) (fuel : Nat)
    (prog prog2 : PlutoProg) (depth : Int)
    (hdet : ∀ p, (env.detect p).stmts = p.stmts ∧ (env.detect p).hProps = p.hProps)
    (h : pluto_force_parallelize env global fuel prog depth = .ok prog2) :
    prog2.stmts = prog.stmts ∧ prog2.hProps = prog.hProps := by
  simp only [pluto_force_parallelize, bind_eq_ok, pure_eq_ok] at h
  obtain ⟨p1, h1, rfl⟩ := h
  have key : p1.stmts = prog.stmts ∧ p1.hProps = prog.hProps := by
    simp only [force_parallelize_closure] at h1
    split at h1
    · obtain ⟨q, hq, h1⟩ := bind_eq_ok.mp h1
      obtain ⟨added, ha⟩ := closure_while_append env depth _ _ _ _ hq
      split at h1
      · have := pure_eq_ok.mp h1
        subst this
        rw [ha]
        exact hdet prog
      · have := pure_eq_ok.mp h1
        subst this
        rw [ha]
        exact hdet prog
    · have := pure_eq_ok.mp h1
      subst this
      exact hdet prog
  exact key

theorem force_parallel_step_frame (env : Env) (global : PlutoOptions) (fuel : Nat)
    (fp : Int) (bit : Nat) (depth : Int) (prog prog2 : PlutoProg)
    (hdet : ∀ p, (env.detect p).stmts = p.stmts ∧ (env.detect p).hProps = p.hProps)
    (h : force_parallel_step env global fuel fp bit depth prog = .ok prog2) :
    prog2.stmts = prog.stmts ∧ prog2.hProps = prog.hProps := by
  unfold force_parallel_step at h
  split at h
  · exact force_parallelize_frame env global fuel prog prog2 depth hdet h
  · cases h
    exact ⟨rfl, rfl⟩

theorem force_parallel_chain_frame (env : Env) (global : PlutoOptions) (fuel : Nat)
    (fp : Int) (prog prog2 : PlutoProg)
    (hdet : ∀ p, (env.detect p).stmts = p.stmts ∧ (env.detect p).hProps = p.hProps)
    (h : force_parallel_chain env global fuel fp prog = .ok prog2) :
    prog2.stmts = prog.stmts ∧ prog2.hProps = prog.hProps := by
  unfold force_parallel_chain at h
  split at h
  · simp only [bind_eq_ok] at h
    obtain ⟨p6, h6, p5, h5, p4, h4, p3, h3, p2, h2, h1⟩ := h
    have e6 := force_parallel_step_frame env global fuel fp _ _ _ _ hdet h6
    have e5 := force_parallel_step_frame env global fuel fp _ _ _ _ hdet h5
    have e4 := force_parallel_step_frame env global fuel fp _ _ _ _ hdet h4
    have e3 := force_parallel_step_frame env global fuel fp _ _ _ _ hdet h3
    have e2 := force_parallel_step_frame env global fuel fp _ _ _ _ hdet h2
    have e1 := force_parallel_step_frame env global fuel fp _ _ _ _ hdet h1
    exact ⟨e1.1.trans (e2.1.trans (e3.1.trans (e4.1.trans (e5.1.trans e6.1)))),
      e1.2.trans (e2.2.trans (e3.2.trans (e4.2.trans (e5.2.trans e6.2))))⟩
  · cases h
    exact ⟨rfl, rfl⟩

theorem scop_to_pluto_prog_inv (fenv : FrontEnv) (env : Env) (global : PlutoOptions)
    (fuel : Nat) (scop : Scop) (options : FrontOptions) (prog : PlutoProg)
    (hdet : ∀ p, (env.detect p).stmts = p.stmts ∧ (env.detect p).hProps = p.hProps)
    (h : scop_to_pluto_prog fenv env global fuel scop options = .ok prog) :
    scop.statement ≠ [] ∧
    scoplib_to_pluto_stmts_loop fenv.junk scop.nb_parameters (max_sched_rows scop.statement) 0
      scop.statement = .ok prog.stmts ∧
    prog.num_hyperplanes = max_sched_rows scop.statement := by
  simp only [scop_to_pluto_prog, bind_eq_ok] at h
  obtain ⟨params, _, context, _, st0, hst0, stmts, hstmts, prog2, h2, prog3, h3, h4⟩ := h
  have hne : scop.statement ≠ [] := by
    intro hnil
    rw [hnil] at hst0
    simp [cIndex] at hst0
  have hlen : scop.statement.length ≠ 0 := by
    intro h0
    exact hne (List.length_eq_zero.mp h0)
  unfold scoplib_to_pluto_stmts at hstmts
  rw [if_neg hlen] at hstmts
  obtain ⟨hl, _⟩ := scoplib_to_pluto_stmts_loop_inv _ _ _ _ _ _ hstmts
  have h2s : prog2.stmts = stmts ∧ prog2.hProps = [] := by
    split at h2
    · cases hc : fenv.compute_deps scop
          { stmts := stmts, deps := [], transdeps := [], npar := scop.nb_parameters,
            params := params, context := context, hProps := [] } with
      | error e => rw [hc] at h2; cases h2
      | ok r =>
        rw [hc] at h2
        cases h2
        exact ⟨rfl, rfl⟩
    · cases hc : deps_read env.fresh (fenv.candl_dependence scop)
          { stmts := stmts, deps := [], transdeps := [], npar := scop.nb_parameters,
            params := params, context := context, hProps := [] } with
      | error e => rw [hc] at h2; cases h2
      | ok r =>
        rw [hc] at h2
        cases h2
        exact ⟨rfl, rfl⟩
  have h3s : prog3.stmts = stmts ∧ prog3.num_hyperplanes = max_sched_rows scop.statement := by
    have hn : prog2.nstmts ≥ 1 := by
      simp only [PlutoProg.nstmts, h2s.1, hl]
      omega
    rw [if_pos hn] at h3
    obtain ⟨e1, e2⟩ := front_hyperplanes_inv _ _ _ _ h3
    refine ⟨e1.trans h2s.1, ?_⟩
    rw [e2]
    simp [PlutoProg.num_hyperplanes, h2s.2]
  obtain ⟨e1, e2⟩ := force_parallel_chain_frame env global fuel _ _ _ hdet h4
  refine ⟨hne, ?_, ?_⟩
  · rw [e1, h3s.1]
    exact hstmts
  · have := h3s.2
    simp only [PlutoProg.num_hyperplanes] at this ⊢
    rw [e2]
    exact this

theorem scoplib_to_pluto_stmts_loop_returns (junk : Nat → Bool) (npar : Int) (M : Nat)
    (l : List ScoplibStatement) (hv : ∀ st ∈ l, scop_stmt_valid npar st = true) :
    ∀ i, ∃ stmts, scoplib_to_pluto_stmts_loop junk npar M i l = .ok stmts := by
  induction l with
  | nil => intro i; exact ⟨[], rfl⟩
  | cons a as ih =>
    intro i
    obtain ⟨s, hs⟩ := scoplib_to_pluto_stmt_returns junk npar M i a (hv a (by simp))
    obtain ⟨ss, hss⟩ := ih (fun st hst => hv st (by simp [hst])) (i + 1)
    exact ⟨s :: ss, by simp only [scoplib_to_pluto_stmts_loop, hs, hss]⟩

/-- C18: whenever `scop_to_pluto_prog` returns (which requires at least one statement)
and the classifier of the forced-parallelisation pass leaves the statements and the
hyperplane metadata alone, the program has one statement per input statement, in input
order, with ids 0..n-1; the schedule of each statement consists of its native rows
(the input schedule without the tag column) followed by all-zero rows, `M` rows in
all, the native rows classified loop and the added rows classified scalar, `M` being
the maximum native row count over the statements; the hyperplane count is `M`, so
every schedule has as many rows as there are hyperplanes, and it has as many columns
as the domain when the input schedule and domain matrices do. The statement loop of
the adapter returns on every input whose schedules hold only rows with tag 0 and
whose domains and iterator lists have the announced sizes. -/
theorem front_end_statements (fenv : FrontEnv) (env : Env) (global : PlutoOptions)
    (fuel : Nat) (scop : Scop) (options : FrontOptions)
    (hdet : ∀ p, (env.detect p).stmts = p.stmts ∧ (env.detect p).hProps = p.hProps) :
    ((∀ st ∈ scop.statement, st.schedule.NbRows ≤ max_sched_rows scop.statement) ∧
      (scop.statement ≠ [] →
        ∃ st ∈ scop.statement, st.schedule.NbRows = max_sched_rows scop.statement)) ∧
    ((∀ st ∈ scop.statement, scop_stmt_valid scop.nb_parameters st = true) →
      ∃ stmts, scoplib_to_pluto_stmts fenv.junk scop = .ok stmts) ∧
    ∀ prog, scop_to_pluto_prog fenv env global fuel scop options = .ok prog →
      1 ≤ scop.statement.length ∧
      prog.stmts.length = scop.statement.length ∧
      (∀ (i : Nat) (st : ScoplibStatement), scop.statement.get? i = some st →
        ∃ s t, prog.stmts.get? i = some s ∧ s.id = (i : Int) ∧ s.trans = some t ∧
          t.ncols = st.schedule.NbColumns - 1 ∧
          t.val = st.schedule.p.map List.tail ++
            List.replicate (max_sched_rows scop.statement - st.schedule.NbRows)
              (List.replicate (st.schedule.NbColumns - 1) 0) ∧
          t.nrows = max_sched_rows scop.statement ∧
          s.hyp_types = List.replicate st.schedule.NbRows PlutoHypType.H_LOOP ++
            List.replicate (max_sched_rows scop.statement - st.schedule.NbRows)
              PlutoHypType.H_SCALAR) ∧
      prog.num_hyperplanes = max_sched_rows scop.statement ∧
      sched_rows_ok prog = true ∧
      ((∀ st ∈ scop.statement, st.schedule.NbColumns = st.domain.NbColumns) →
        sched_cols_ok prog = true) := by
  have hmax := max_sched_rows_is_max scop.statement
  refine ⟨hmax, ?_, ?_⟩
  · intro hv
    unfold scoplib_to_pluto_stmts
    split
    · exact ⟨[], rfl⟩
    · exact scoplib_to_pluto_stmts_loop_returns _ _ _ _ hv 0
  · intro prog h
    obtain ⟨hne, hloop, hnum⟩ := scop_to_pluto_prog_inv fenv env global fuel scop options prog hdet h
    obtain ⟨hlen, hget⟩ := scoplib_to_pluto_stmts_loop_inv _ _ _ _ _ _ hloop
    have hpos : 1 ≤ scop.statement.length := by
      cases hs : scop.statement with
      | nil => exact absurd hs hne
      | cons a as => simp
    have hstmt : ∀ (i : Nat) (st : ScoplibStatement), scop.statement.get? i = some st →
        ∃ s t, prog.stmts.get? i = some s ∧ s.id = (i : Int) ∧ s.trans = some t ∧
          t.ncols = st.schedule.NbColumns - 1 ∧
          t.val = st.schedule.p.map List.tail ++
            List.replicate (max_sched_rows scop.statement - st.schedule.NbRows)
              (List.replicate (st.schedule.NbColumns - 1) 0) ∧
          t.nrows = max_sched_rows scop.statement ∧
          s.hyp_types = List.replicate st.schedule.NbRows PlutoHypType.H_LOOP ++
            List.replicate (max_sched_rows scop.statement - st.schedule.NbRows)
              PlutoHypType.H_SCALAR ∧
          s.domain = scoplib_matrix_to_pluto_constraints st.domain := by
      intro i st hi
      obtain ⟨s, hs, hconv⟩ := hget i st hi
      rw [Nat.zero_add] at hconv
      obtain ⟨hid, _, hdom, htr, hhyp, _⟩ := scoplib_to_pluto_stmt_inv hconv
      have hle := hmax.1 st (List.get?_mem hi)
      refine ⟨s, _, hs, hid, htr, rfl, rfl, ?_, hhyp, hdom⟩
      simp only [PlutoMatrix.nrows, List.length_append, List.length_map, List.length_replicate]
      simp only [ScoplibMatrix.NbRows] at hle ⊢
      omega
    have hidx : ∀ s ∈ prog.stmts, ∃ i st, scop.statement.get? i = some st ∧
        prog.stmts.get? i = some s := by
      intro s hs
      obtain ⟨i, hi⟩ := List.get?_of_mem hs
      have hlt : i < scop.statement.length := by
        rw [← hlen]
        exact (List.get?_eq_some.mp hi).1
      exact ⟨i, _, List.get?_eq_get hlt, hi⟩
    refine ⟨hpos, hlen, ?_, hnum, ?_, ?_⟩
    · intro i st hi
      obtain ⟨s, t, h1, h2, h3, h4, h5, h6, h7, _⟩ := hstmt i st hi
      exact ⟨s, t, h1, h2, h3, h4, h5, h6, h7⟩
    · rw [sched_rows_ok_iff]
      intro s hs
      obtain ⟨i, st, hi, hsi⟩ := hidx s hs
      obtain ⟨s2, t, h1, _, h3, _, _, h6, _⟩ := hstmt i st hi
      rw [hsi] at h1
      cases h1
      exact ⟨t, h3, by rw [h6, hnum]⟩
    · intro hcols
      rw [sched_cols_ok_iff]
      intro s hs
      obtain ⟨i, st, hi, hsi⟩ := hidx s hs
      obtain ⟨s2, t, h1, _, h3, h4, _, _, _, h8⟩ := hstmt i st hi
      rw [hsi] at h1
      cases h1
      refine ⟨t, h3, ?_⟩
      rw [h4, h8, hcols st (List.get?_mem hi)]
      rfl

theorem front_end_statements_witness :
    ∃ prog, scop_to_pluto_prog sample_front_env sample_env ⟨0, 0⟩ 10 sample_scop ⟨-1, 1, 0⟩
        = .ok prog ∧
      max_sched_rows sample_scop.statement = 3 ∧
      prog.stmts.map Stmt.id = [0, 1] ∧
      prog.stmts.map Stmt.trans =
        [some { ncols := 3, val := [[0, 0, 0], [1, 0, 0], [0, 0, 0]] },
         some { ncols := 2, val := [[0, 1], [0, 0], [0, 0]] }] ∧
      prog.stmts.map Stmt.hyp_types =
        [[PlutoHypType.H_LOOP, PlutoHypType.H_LOOP, PlutoHypType.H_LOOP],
         [PlutoHypType.H_LOOP, PlutoHypType.H_SCALAR, PlutoHypType.H_SCALAR]] ∧
      prog.num_hyperplanes = 3 ∧ sched_rows_ok prog = true :=
  ⟨_, rfl, rfl, rfl, rfl, rfl,
    ((front_end_statements sample_front_env sample_env ⟨0, 0⟩ 10 sample_scop ⟨-1, 1, 0⟩
      (fun _ => ⟨rfl, rfl⟩)).2.2 _
      (rfl : scop_to_pluto_prog sample_front_env sample_env ⟨0, 0⟩ 10 sample_scop ⟨-1, 1, 0⟩
        = .ok _)).2.2.2.1,
    ((front_end_statements sample_front_env sample_env ⟨0, 0⟩ 10 sample_scop ⟨-1, 1, 0⟩
      (fun _ => ⟨rfl, rfl⟩)).2.2 _
      (rfl : scop_to_pluto_prog sample_front_env sample_env ⟨0, 0⟩ 10 sample_scop ⟨-1, 1, 0⟩
        = .ok _)).2.2.2.2.1⟩

/-! ## C22: the depths selected by the force-parallel bitmask -/

theorem foldlM_opt_cons (f : PlutoProg → Int → Except Fault PlutoProg) (b : Bool) (d : Int)
    (rest : List Int) (p : PlutoProg) :
    List.foldlM f p ((if b = true then [d] else []) ++ rest) =
      (if b = true then f p d else .ok p) >>= fun q => List.foldlM f q rest := by
  cases b with
  | false => rfl
  | true =>
    simp only [if_true, List.singleton_append, List.foldlM_cons]

theorem force_parallel_chain_eq (env : Env) (global : PlutoOptions) (fuel : Nat) (m : Int)
    (prog : PlutoProg) :
    force_parallel_chain env global fuel m prog =
      List.foldlM (fun p d => pluto_force_parallelize env global fuel p d) prog
        (force_parallel_depths m) := by
  unfold force_parallel_chain force_parallel_depths
  by_cases h : m ≥ 1
  · rw [if_pos h, if_pos h]
    simp only [List.append_assoc]
    have hlast : ∀ (b : Bool) (q : PlutoProg),
        List.foldlM (fun p d => pluto_force_parallelize env global fuel p d) q
          (if b = true then [(1 : Int)] else []) =
        if b = true then pluto_force_parallelize env global fuel q 1 else .ok q := by
      intro b q
      cases b with
      | false => rfl
      | true =>
        simp only [if_true, List.foldlM_cons, List.foldlM_nil]
        cases pluto_force_parallelize env global fuel q 1 <;> rfl
    simp only [foldlM_opt_cons, hlast, force_parallel_step]
  · rw [if_neg h, if_neg h]
    rfl

theorem force_parallel_depths_mem (m : Int) (hm : m ≥ 1) (d : Int) :
    d ∈ force_parallel_depths m ↔ 1 ≤ d ∧ d ≤ 6 ∧ m.toNat.testBit (d - 1).toNat = true := by
  unfold force_parallel_depths
  rw [if_pos hm]
  constructor
  · intro h
    simp only [List.mem_append] at h
    rcases h with ((((h | h) | h) | h) | h) | h <;> split at h <;>
      simp only [List.mem_singleton, List.not_mem_nil] at h <;> subst h <;>
      refine ⟨by decide, by decide, ?_⟩ <;> assumption
  · rintro ⟨h1, h6, hb⟩
    have hd : d = 1 ∨ d = 2 ∨ d = 3 ∨ d = 4 ∨ d = 5 ∨ d = 6 := by omega
    simp only [List.mem_append]
    rcases hd with rfl | rfl | rfl | rfl | rfl | rfl
    · exact Or.inr (by rw [if_pos (by simpa using hb)]; simp)
    · exact Or.inl (Or.inr (by rw [if_pos (by simpa using hb)]; simp))
    · exact Or.inl (Or.inl (Or.inr (by rw [if_pos (by simpa using hb)]; simp)))
    · exact Or.inl (Or.inl (Or.inl (Or.inr (by rw [if_pos (by simpa using hb)]; simp))))
    · exact Or.inl (Or.inl (Or.inl (Or.inl (Or.inr (by rw [if_pos (by simpa using hb)]; simp)))))
    · exact Or.inl (Or.inl (Or.inl (Or.inl (Or.inl (by rw [if_pos (by simpa using hb)]; simp)))))

theorem force_parallel_depths_sorted (m : Int) :
    (force_parallel_depths m).Pairwise (fun a b => a > b) := by
  unfold force_parallel_depths
  split
  · generalize m.toNat.testBit 5 = b5
    generalize m.toNat.testBit 4 = b4
    generalize m.toNat.testBit 3 = b3
    generalize m.toNat.testBit 2 = b2
    generalize m.toNat.testBit 1 = b1
    generalize m.toNat.testBit 0 = b0
    cases b5 <;> cases b4 <;> cases b3 <;> cases b2 <;> cases b1 <;> cases b0 <;> decide
  · exact List.Pairwise.nil

/-- C22: for every force-parallel bitmask `m`, lines 1797-1818 of `scop_to_pluto_prog`
run `pluto_force_parallelize` exactly for the depths listed by
`force_parallel_depths m`, one call after the other in that order; for `m >= 0` a
depth `d` is in the list if and only if `1 <= d <= 6` and bit `d-1` of `m` is set, the
list is strictly decreasing (depth 6 first, depth 1 last), and it depends only on the
six low bits of `m`. A negative `m` selects nothing (the guard `forceparallel >= 1`). -/
theorem force_parallel_selection (env : Env) (global : PlutoOptions) (fuel : Nat) (m : Int)
    (prog : PlutoProg) :
    force_parallel_chain env global fuel m prog =
      List.foldlM (fun p d => pluto_force_parallelize env global fuel p d) prog
        (force_parallel_depths m) ∧
    (0 ≤ m → ∀ d : Int, d ∈ force_parallel_depths m ↔
      1 ≤ d ∧ d ≤ 6 ∧ m.toNat.testBit (d - 1).toNat = true) ∧
    (force_parallel_depths m).Pairwise (fun a b => a > b) ∧
    (0 ≤ m → force_parallel_depths m = force_parallel_depths (m % 64)) ∧
    (m < 0 → force_parallel_depths m = []) := by
  refine ⟨force_parallel_chain_eq env global fuel m prog, ?_, force_parallel_depths_sorted m,
    ?_, ?_⟩
  · intro hm d
    by_cases h1 : m ≥ 1
    · exact force_parallel_depths_mem m h1 d
    · have h0 : m = 0 := by omega
      subst h0
      simp [force_parallel_depths]
  · intro hm
    have hbit : ∀ k, k < 6 → (m % 64).toNat.testBit k = m.toNat.testBit k := by
      intro k hk
      have h1 : (m % 64).toNat = m.toNat % 2 ^ 6 := by
        have := Int.toNat_of_nonneg hm
        omega
      rw [h1, Nat.testBit_mod_two_pow]
      simp [hk]
    have hany : m ≥ 1 → ¬ (m % 64 ≥ 1) →
        ∀ k, k < 6 → m.toNat.testBit k = false := by
      intro _ h64 k hk
      rw [← hbit k hk]
      have : m % 64 = 0 := by omega
      rw [this]
      simp
    unfold force_parallel_depths
    by_cases h1 : m ≥ 1
    · by_cases h2 : m % 64 ≥ 1
      · rw [if_pos h1, if_pos h2, hbit 5 (by decide), hbit 4 (by decide), hbit 3 (by decide),
          hbit 2 (by decide), hbit 1 (by decide), hbit 0 (by decide)]
      · rw [if_pos h1, if_neg h2, hany h1 h2 5 (by decide), hany h1 h2 4 (by decide),
          hany h1 h2 3 (by decide), hany h1 h2 2 (by decide), hany h1 h2 1 (by decide),
          hany h1 h2 0 (by decide)]
        rfl
    · have h0 : m = 0 := by omega
      subst h0
      rfl
  · intro hm
    unfold force_parallel_depths
    rw [if_neg (by omega)]

/-! ## C27: `get_identity_schedule` -/

/-- C27: `get_identity_schedule(1, 0)` returns the 3 x 3 zero matrix and
`get_identity_schedule(2, 1)` a 5 x 5 matrix whose only non-zero entry is the 1 of
row 1, column 1: the loop starts at `i = 1` and stops before `i = dim`, so the row
`2*dim - 1` of the last iterator is never written. -/
theorem identity_schedule_misses_last_iterator :
    get_identity_schedule 1 0 =
      .ok { NbColumns := 3, p := [[0, 0, 0], [0, 0, 0], [0, 0, 0]] } ∧
    get_identity_schedule 2 1 =
      .ok { NbColumns := 5,
            p := [[0, 0, 0, 0, 0], [0, 1, 0, 0, 0], [0, 0, 0, 0, 0], [0, 0, 0, 0, 0],
                  [0, 0, 0, 0, 0]] } :=
  ⟨rfl, rfl⟩

/-! ## C28: the context bound -/

/-- C28: for one parameter, an input context `N - 1 >= 0` and the bound 4,
`scop_to_pluto_prog` builds the context `N - 4 >= 0`, `0 >= 0`: the input row is
overwritten and the added row stays zero. For two parameters, the input row
`-M + N >= 0` and the bound 2 the loop gives `M + N - 2 >= 0`, `N - 2 >= 0`, `0 >= 0`.
The loop writes row `i`, not the row it has just added. -/
theorem context_bound_overwrites_rows :
    (∃ prog, scop_to_pluto_prog sample_front_env sample_env ⟨0, 0⟩ 10
        { sample_scop with context := { NbColumns := 3, p := [[1, 1, -1]] } } ⟨4, 1, 0⟩
        = .ok prog ∧
      prog.context = { ncols := 2, rows := [⟨false, [1, -4]⟩, ⟨false, [0, 0]⟩] }) ∧
    context_loop 2 2 0
        (scoplib_matrix_to_pluto_constraints { NbColumns := 4, p := [[1, -1, 1, 0]] }) =
      .ok { ncols := 3,
            rows := [⟨false, [1, 1, -2]⟩, ⟨false, [0, 1, -2]⟩, ⟨false, [0, 0, 0]⟩] } ∧
    context_loop 2 2 0 (scoplib_matrix_to_pluto_constraints { NbColumns := 4, p := [] }) =
      .ok { ncols := 3, rows := [⟨false, [1, 0, -2]⟩, ⟨false, [0, 1, -2]⟩] } :=
  ⟨⟨_, rfl, rfl⟩, rfl, rfl⟩

/-! ## C21: out-of-range positions -/

/-- C21: on `access_prog` (one iterator, one parameter, one hyperplane)
`pluto_stmt_remove_dim` with `pos = dim` passes `assert(pos <= stmt->dim)` and the
library check and then reads `iterators[pos]` outside the array;
`pluto_prog_add_hyperplane` with `pos = 2` or `pos = -1` writes outside `hProps` without
any check; `pluto_prog_add_param` with `pos = -1` widens every statement and every
dependence of the main list before the library stops it at the context. With a
position beyond the size, `pluto_stmt_add_dim`, `pluto_stmt_add_hyperplane` and
`pluto_prog_add_param` stop at an assertion before any edit. -/
theorem out_of_range_position_not_fatal :
    pluto_stmt_remove_dim access_prog 0 1 = .error Fault.undefined ∧
    pluto_prog_add_hyperplane access_prog 2 PlutoHypType.H_LOOP = .error Fault.undefined ∧
    pluto_prog_add_hyperplane access_prog (-1) PlutoHypType.H_LOOP = .error Fault.undefined ∧
    (pluto_prog_add_param access_prog "N" (-1) = .error Fault.assertion ∧
      ∃ stmts, mapE (add_param_stmt access_prog.npar (-1)) access_prog.stmts = .ok stmts ∧
        stmts.map (fun s => s.domain.ncols) = [4, 4]) ∧
    pluto_stmt_add_dim access_prog 0 2 (-1) "j" PlutoHypType.H_LOOP = .error Fault.assertion ∧
    pluto_stmt_add_hyperplane (access_stmt 0) PlutoHypType.H_LOOP 2 = .error Fault.assertion ∧
    pluto_prog_add_param access_prog "N" 2 = .error Fault.assertion :=
  ⟨rfl, rfl, rfl, ⟨rfl, _, rfl, rfl⟩, rfl, rfl, rfl⟩

/-! ## C24: chaining of the pairs handed to `pluto_dep_compose` -/

/-- C24: in `unset_acc_prog` every access reference is unset; at depth 1 the
transitive-closure loop finds `deps[0]->dest_acc == deps[1]->src_acc` (both `NULL`),
hands the pair to `pluto_dep_compose` although `deps[0].dest = 0` and
`deps[1].src = 1`, and the chaining assertion fails. -/
theorem unset_accesses_break_chaining :
    (∀ d ∈ unset_acc_prog.deps, d.src_acc = none ∧ d.dest_acc = none) ∧
    pluto_dep_compose sample_env (unset_acc_prog.deps.getD 0 sample_env.fresh)
      (unset_acc_prog.deps.getD 1 sample_env.fresh) unset_acc_prog
      = .error Fault.assertion ∧
    pluto_force_parallelize sample_env ⟨1, 0⟩ 10 unset_acc_prog 1 = .error Fault.assertion :=
  ⟨by decide, rfl, rfl⟩

/-! ## C26: stepping through an access matrix -/

theorem access_len_loop_le (l : List (List Int)) : access_len_loop l ≤ l.length := by
  induction l with
  | nil => simp [access_len_loop]
  | cons r rest ih =>
    unfold access_len_loop
    split
    · simp
    · simp only [List.length_cons]
      omega

theorem tagged_rows_skip (l : List (List Int)) : ∀ base : Nat,
    tagged_rows l base = tagged_rows (l.drop (access_len_loop l)) (base + access_len_loop l) ∧
    (l.drop (access_len_loop l) = [] ∨
      ∃ r rest, l.drop (access_len_loop l) = r :: rest ∧ r.headD 0 ≠ 0) := by
  induction l with
  | nil => intro base; simp [access_len_loop, tagged_rows]
  | cons a as ih =>
    intro base
    by_cases h : a.headD 0 ≠ 0
    · have hz : access_len_loop (a :: as) = 0 := by
        simp only [access_len_loop, if_pos h]
      rw [hz]
      exact ⟨rfl, Or.inr ⟨a, as, rfl, h⟩⟩
    · have hz : access_len_loop (a :: as) = 1 + access_len_loop as := by
        simp only [access_len_loop, if_neg h]
      rw [hz]
      have hd : (a :: as).drop (1 + access_len_loop as) = as.drop (access_len_loop as) := by
        rw [Nat.add_comm]
        rfl
      rw [hd]
      refine ⟨?_, (ih (base + 1)).2⟩
      rw [tagged_rows, if_neg h, (ih (base + 1)).1]
      congr 1
      omega

theorem drop_succ_of_drop {α : Type} {l : List α} {pos : Nat} {r : α} {rest : List α}
    (h : l.drop pos = r :: rest) : l.drop (pos + 1) = rest ∧ pos + 1 + rest.length = l.length := by
  have h1 : l.drop (pos + 1) = (l.drop pos).drop 1 := by
    rw [List.drop_drop]
  have h2 := congrArg List.length h
  rw [List.length_drop, List.length_cons] at h2
  refine ⟨by rw [h1, h]; rfl, by omega⟩

theorem access_len_at (m : ScoplibMatrix) (pos : Nat) (r : List Int) (rest : List (List Int))
    (h : m.p.drop pos = r :: rest) :
    access_len m (pos : Int) = .ok (1 + (access_len_loop rest : Int)) := by
  unfold access_len
  rw [if_neg (by omega)]
  have : ((pos : Int) + 1).toNat = pos + 1 := by omega
  rw [this, (drop_succ_of_drop h).1]

theorem label_loop_exit (read write : ScoplibMatrix) (n : Nat) (racc wacc : Int) :
    access_label_loop read write (n + 1) ((read.NbRows : Int) + (write.NbRows : Int)) racc wacc
      = .ok ([], (read.NbRows : Int) + (write.NbRows : Int)) := by
  rw [access_label_loop, if_neg (by omega)]

theorem label_loop_write (read write : ScoplibMatrix) :
    ∀ (n pos k : Nat) (racc : Int) (r : List Int) (rest : List (List Int)),
      write.p.drop pos = r :: rest → rest.length + 1 < n →
      access_label_loop read write n ((read.NbRows : Int) + (pos : Int)) racc (k : Int)
        = .ok ((AccKind.write, (pos : Int), (k : Int)) ::
                numbered AccKind.write (tagged_rows rest (pos + 1)) (k + 1),
               (read.NbRows : Int) + (write.NbRows : Int)) := by
  intro n
  induction n with
  | zero => intro pos k racc r rest _ h; omega
  | succ fuel ih =>
    intro pos k racc r rest hd hn
    have hlen := (drop_succ_of_drop hd).2
    have hW : write.NbRows = write.p.length := rfl
    have hz := access_len_loop_le rest
    obtain ⟨hskip, hcase⟩ := tagged_rows_skip rest (pos + 1)
    have hdrop : write.p.drop (pos + 1 + access_len_loop rest)
        = rest.drop (access_len_loop rest) := by
      rw [← (drop_succ_of_drop hd).1, List.drop_drop]
    rw [access_label_loop, if_pos (by omega), if_neg (by omega)]
    have hsub : (read.NbRows : Int) + (pos : Int) - (read.NbRows : Int) = (pos : Int) := by omega
    rw [hsub, access_len_at write pos r rest hd]
    simp only []
    have hpos : (read.NbRows : Int) + (pos : Int) + (1 + (access_len_loop rest : Int))
        = (read.NbRows : Int) + ((pos + 1 + access_len_loop rest : Nat) : Int) := by
      push_cast
      omega
    have hk : ((k : Int) + 1) = ((k + 1 : Nat) : Int) := by push_cast; rfl
    rw [hpos, hk]
    rcases hcase with hnil | ⟨r2, rest2, hcons, htag⟩
    · have hzl : access_len_loop rest = rest.length := by
        have := congrArg List.length hnil
        rw [List.length_drop, List.length_nil] at this
        omega
      have hend : ((pos + 1 + access_len_loop rest : Nat) : Int) = (write.NbRows : Int) := by
        rw [hW]
        congr 1
        omega
      obtain ⟨m, rfl⟩ : ∃ m, fuel = m + 1 := ⟨fuel - 1, by omega⟩
      rw [hend, label_loop_exit, hskip, hnil]
      rfl
    · have hl2 : rest2.length < rest.length := by
        have := congrArg List.length hcons
        rw [List.length_drop, List.length_cons] at this
        omega
      rw [ih (pos + 1 + access_len_loop rest) (k + 1) racc r2 rest2 (by rw [hdrop, hcons])
        (by omega), hskip, hcons, tagged_rows, if_pos htag]
      rfl

theorem label_loop_write_all (read write : ScoplibMatrix) (n : Nat) (racc : Int)
    (hw : ∀ r, write.p.head? = some r → r.headD 0 ≠ 0) (hn : write.NbRows + 1 ≤ n) :
    access_label_loop read write n (read.NbRows : Int) racc 0
      = .ok (numbered AccKind.write (tagged_rows write.p 0) 0,
             (read.NbRows : Int) + (write.NbRows : Int)) := by
  have hW : write.NbRows = write.p.length := rfl
  cases hp : write.p with
  | nil =>
    rw [hp] at hW
    obtain ⟨m, rfl⟩ : ∃ m, n = m + 1 := ⟨n - 1, by omega⟩
    rw [access_label_loop, if_neg (by rw [hW]; simp), hW]
    simp [tagged_rows, numbered]
  | cons r rest =>
    rw [hp] at hW
    have h := label_loop_write read write n 0 0 racc r rest (by rw [List.drop_zero, hp])
      (by rw [hW] at hn; simp only [List.length_cons] at hn; omega)
    simp only [Nat.cast_zero, add_zero, Nat.zero_add] at h
    rw [h, tagged_rows, if_pos (hw r (by rw [hp]; rfl))]
    rfl

theorem label_loop_read (read write : ScoplibMatrix)
    (hw : ∀ r, write.p.head? = some r → r.headD 0 ≠ 0) :
    ∀ (n pos k : Nat) (r : List Int) (rest : List (List Int)),
      read.p.drop pos = r :: rest → rest.length + 1 + write.NbRows < n →
      access_label_loop read write n (pos : Int) (k : Int) 0
        = .ok ((AccKind.read, (pos : Int), (k : Int)) ::
                (numbered AccKind.read (tagged_rows rest (pos + 1)) (k + 1) ++
                 numbered AccKind.write (tagged_rows write.p 0) 0),
               (read.NbRows : Int) + (write.NbRows : Int)) := by
  intro n
  induction n with
  | zero => intro pos k r rest _ h; omega
  | succ fuel ih =>
    intro pos k r rest hd hn
    have hlen := (drop_succ_of_drop hd).2
    have hR : read.NbRows = read.p.length := rfl
    have hz := access_len_loop_le rest
    obtain ⟨hskip, hcase⟩ := tagged_rows_skip rest (pos + 1)
    have hdrop : read.p.drop (pos + 1 + access_len_loop rest)
        = rest.drop (access_len_loop rest) := by
      rw [← (drop_succ_of_drop hd).1, List.drop_drop]
    rw [access_label_loop, if_pos (by omega), if_pos (by omega),
      access_len_at read pos r rest hd]
    simp only []
    have hpos : (pos : Int) + (1 + (access_len_loop rest : Int))
        = ((pos + 1 + access_len_loop rest : Nat) : Int) := by
      push_cast
      omega
    have hk : ((k : Int) + 1) = ((k + 1 : Nat) : Int) := by push_cast; rfl
    rw [hpos, hk]
    rcases hcase with hnil | ⟨r2, rest2, hcons, htag⟩
    · have hzl : access_len_loop rest = rest.length := by
        have := congrArg List.length hnil
        rw [List.length_drop, List.length_nil] at this
        omega
      have hend : ((pos + 1 + access_len_loop rest : Nat) : Int) = (read.NbRows : Int) := by
        rw [hR]
        congr 1
        omega
      rw [hend, label_loop_write_all read write fuel _ hw (by omega), hskip, hnil]
      rfl
    · have hl2 : rest2.length < rest.length := by
        have := congrArg List.length hcons
        rw [List.length_drop, List.length_cons] at this
        omega
      rw [ih (pos + 1 + access_len_loop rest) (k + 1) r2 rest2 (by rw [hdrop, hcons])
        (by omega), hskip, hcons, tagged_rows, if_pos htag]
      rfl

theorem label_loop_all (read write : ScoplibMatrix)
    (hr : ∀ r, read.p.head? = some r → r.headD 0 ≠ 0)
    (hw : ∀ r, write.p.head? = some r → r.headD 0 ≠ 0) (n : Nat)
    (hn : read.NbRows + write.NbRows + 1 ≤ n) :
    access_label_loop read write n 0 0 0
      = .ok (numbered AccKind.read (tagged_rows read.p 0) 0 ++
             numbered AccKind.write (tagged_rows write.p 0) 0,
             (read.NbRows : Int) + (write.NbRows : Int)) := by
  have hR : read.NbRows = read.p.length := rfl
  cases hp : read.p with
  | nil =>
    have hR0 : read.NbRows = 0 := by rw [hR, hp]; rfl
    have h := label_loop_write_all read write n 0 hw (by omega)
    rw [hR0] at h
    simp only [Nat.cast_zero] at h
    rw [h, hR0]
    simp [tagged_rows, numbered]
  | cons r rest =>
    rw [hp] at hR
    have h := label_loop_read read write hw n 0 0 r rest (by rw [List.drop_zero, hp])
      (by rw [hR] at hn; simp only [List.length_cons] at hn; omega)
    simp only [Nat.cast_zero, Nat.zero_add] at h
    rw [h, tagged_rows, if_pos (hr r (by rw [hp]; rfl))]
    rfl

theorem tagged_rows_position (l : List (List Int)) : ∀ (base k r : Nat),
    (tagged_rows l base).get? k = some r →
      base ≤ r ∧ r - base < l.length ∧
      (l.take (r - base + 1)).countP (fun row => decide (row.headD 0 ≠ 0)) = k + 1 := by
  induction l with
  | nil => intro base k r h; simp [tagged_rows] at h
  | cons a as ih =>
    intro base k r h
    by_cases ha : a.headD 0 ≠ 0
    · rw [tagged_rows, if_pos ha] at h
      cases k with
      | zero =>
        simp only [List.get?_cons_zero, Option.some.injEq] at h
        subst h
        refine ⟨le_refl _, by simp, ?_⟩
        rw [Nat.sub_self]
        simp [-List.headD_eq_head?_getD, List.countP_cons, ha]
      | succ k =>
        rw [List.get?_cons_succ] at h
        obtain ⟨h1, h2, h3⟩ := ih (base + 1) k r h
        refine ⟨by omega, by simp only [List.length_cons]; omega, ?_⟩
        have : r - base + 1 = (r - (base + 1) + 1) + 1 := by omega
        rw [this, List.take_succ_cons, List.countP_cons, h3]
        simp [-List.headD_eq_head?_getD, ha]
    · rw [tagged_rows, if_neg ha] at h
      obtain ⟨h1, h2, h3⟩ := ih (base + 1) k r h
      refine ⟨by omega, by simp only [List.length_cons]; omega, ?_⟩
      have : r - base + 1 = (r - (base + 1) + 1) + 1 := by omega
      rw [this, List.take_succ_cons, List.countP_cons, h3]
      simp [-List.headD_eq_head?_getD, ha]

theorem tagged_rows_eq_filter (l : List (List Int)) : ∀ base : Nat,
    tagged_rows l base
      = ((List.range l.length).filter fun i => decide ((l.getD i []).headD 0 ≠ 0)).map
          (fun i => i + base) := by
  induction l with
  | nil => intro base; rfl
  | cons a as ih =>
    intro base
    rw [tagged_rows, ih (base + 1), List.length_cons, List.range_succ_eq_map,
      List.filter_cons, List.filter_map]
    have hf : ((fun i => decide (((a :: as).getD i []).headD 0 ≠ 0)) ∘ Nat.succ)
        = fun i => decide ((as.getD i []).headD 0 ≠ 0) := by
      funext i
      simp [List.getD_cons_succ]
    have hg : ((fun i => i + base) ∘ Nat.succ) = fun i => i + (base + 1) := by
      funext i
      simp only [Function.comp, Nat.succ_eq_add_one]
      omega
    rw [hf]
    have h0 : (a :: as).getD 0 [] = a := rfl
    rw [h0]
    by_cases ha : a.headD 0 ≠ 0
    · rw [if_pos ha, if_pos (by simpa using ha), List.map_cons, List.map_map, hg]
      simp
    · rw [if_neg ha, if_neg (by simpa using ha), List.map_map, hg]

theorem get_access_position_tagged (m : ScoplibMatrix) (k r : Nat)
    (h : (tagged_rows m.p 0).get? k = some r) :
    get_access_position m.toCandl (r : Int) = .ok (k : Int) := by
  obtain ⟨_, h2, h3⟩ := tagged_rows_position m.p 0 k r h
  simp only [Nat.sub_zero] at h2 h3
  unfold get_access_position
  rw [if_neg (by omega)]
  have hr : ((r : Int)).toNat = r := by omega
  simp only [ScoplibMatrix.toCandl, hr]
  rw [if_pos h2, h3]
  simp

/-- C26: for access matrices `read` and `write` whose row 0 (when there is one) has a
non-zero array tag, every call `access_len(m, pos)` with `pos ≥ -1` returns a length
of at least 1; the loop `pos += access_len(...)` of `compute_deps`, started at 0 with
enough iterations, returns: it visits exactly the rows with a non-zero tag of `read`
and then of `write`, in increasing order, the k-th visited row of each matrix with
the ordinal k in its label, and leaves the loop with `pos` exactly at
`read->NbRows + write->NbRows`; and `get_access_position` of the k-th visited row
is k. -/
theorem access_stepping (read write : ScoplibMatrix)
    (hr : ∀ r, read.p.head? = some r → r.headD 0 ≠ 0)
    (hw : ∀ r, write.p.head? = some r → r.headD 0 ≠ 0) :
    (∀ (m : ScoplibMatrix) (pos : Int), -1 ≤ pos →
      ∃ len, access_len m pos = .ok len ∧ 1 ≤ len) ∧
    (∀ n, read.NbRows + write.NbRows + 1 ≤ n →
      access_label_loop read write n 0 0 0
        = .ok (numbered AccKind.read (tagged_rows read.p 0) 0 ++
               numbered AccKind.write (tagged_rows write.p 0) 0,
               (read.NbRows : Int) + (write.NbRows : Int))) ∧
    (∀ m : ScoplibMatrix, tagged_rows m.p 0
        = (List.range m.NbRows).filter fun i => decide ((m.p.getD i []).headD 0 ≠ 0)) ∧
    (∀ (m : ScoplibMatrix) (k r : Nat), (tagged_rows m.p 0).get? k = some r →
      get_access_position m.toCandl (r : Int) = .ok (k : Int)) := by
  refine ⟨?_, fun n hn => label_loop_all read write hr hw n hn, ?_,
    fun m k r h => get_access_position_tagged m k r h⟩
  · intro m pos hpos
    refine ⟨1 + (access_len_loop (m.p.drop (pos + 1).toNat) : Int), ?_, by omega⟩
    unfold access_len
    rw [if_neg (by omega)]
  · intro m
    rw [tagged_rows_eq_filter]
    simp [ScoplibMatrix.NbRows]

theorem access_stepping_witness :
    (∀ r, sample_access_matrix.p.head? = some r → r.headD 0 ≠ 0) ∧
    access_len sample_access_matrix 0 = .ok 2 ∧
    access_label_loop sample_access_matrix sample_access_matrix 7 0 0 0
      = .ok ([(AccKind.read, 0, 0), (AccKind.read, 2, 1),
              (AccKind.write, 0, 0), (AccKind.write, 2, 1)], 6) ∧
    get_access_position sample_access_matrix.toCandl 2 = .ok 1 :=
  ⟨by decide, rfl,
    (access_stepping sample_access_matrix sample_access_matrix (by decide) (by decide)).2.1 7
      (by decide),
    (access_stepping sample_access_matrix sample_access_matrix (by decide) (by decide)).2.2.2
      sample_access_matrix 1 2 rfl⟩

/-! ## C29: bound rows collected by `get_lb_ub_expr` -/

/-- C29 fails on the code: for the system `-x + N = 0` (one equality row with leading
coefficient -1, `pos = 0`, `npar = 1`, no column to project out) the loop of
`get_lb_ub_expr` puts the row itself, leading coefficient -1, into the lower bounds
and its negation, leading coefficient 1, into the upper bounds; `get_expr` then stops
at its sign assertion on row 0 of the lower bounds (and would on row 0 of the upper
bounds), so `get_lb_ub_expr` aborts. The same equality written `x - N = 0` and the
inequalities `0 <= x <= N - 1` pass. -/
theorem negative_equality_breaks_bounds :
    lb_ub_rows neg_eq_cst
      = .ok ({ ncols := 3, rows := [⟨true, [-1, 1, 0]⟩] },
             { ncols := 3, rows := [⟨true, [1, -1, 0]⟩, ⟨true, [-1, 1, 0]⟩] }) ∧
    get_expr { ncols := 3, rows := [⟨true, [-1, 1, 0]⟩] } 0 MAXF = .error Fault.assertion ∧
    get_expr { ncols := 3, rows := [⟨true, [1, -1, 0]⟩, ⟨true, [-1, 1, 0]⟩] } 0 MINF
      = .error Fault.assertion ∧
    get_lb_ub_expr keep_env 4 neg_eq_cst 0 1 = .error Fault.assertion ∧
    get_lb_ub_expr keep_env 4 pos_eq_cst 0 1
      = .ok ({ ncols := 3, rows := [⟨true, [1, -1, 0]⟩, ⟨true, [1, -1, 0]⟩] },
             { ncols := 3, rows := [⟨true, [-1, 1, 0]⟩] }) ∧
    get_lb_ub_expr keep_env 4 ineq_cst 0 1
      = .ok ({ ncols := 3, rows := [⟨false, [1, 0, 0]⟩] },
             { ncols := 3, rows := [⟨false, [-1, 1, -1]⟩] }) :=
  ⟨rfl, rfl, rfl, rfl, rfl, rfl⟩

/-! ## C25: the transitive-closure loop of `pluto_force_parallelize` -/

theorem chain_prog_ndeps (n : Nat) : (chain_prog n).ndeps = n + 2 := by
  simp [chain_prog, PlutoProg.ndeps]

theorem chain_prog_dep_one (n : Nat) :
    cIndex (chain_prog n).deps ((1 : Nat) : Int) = .ok cycle_dep := rfl

theorem chain_prog_dep (n i : Nat) (hi : i < n + 2) (h1 : i ≠ 1) :
    cIndex (chain_prog n).deps (i : Int) = .ok (chain_dep (i : Int)) := by
  unfold cIndex
  rw [if_pos (by omega)]
  have : ((i : Int)).toNat = i := by omega
  rw [this]
  match i, hi, h1 with
  | 0, _, _ => rfl
  | 1, _, h => exact absurd rfl h
  | k + 2, hk, _ =>
    have hk2 : k < n := by omega
    simp only [chain_prog, List.cons_append, List.nil_append, List.get?_eq_getElem?,
      List.getElem?_cons_succ, List.getElem?_map, List.getElem?_range hk2, Option.map_some']
    push_cast
    rfl

theorem chain_prog_compose (n : Nat) (id : Int) :
    pluto_dep_compose sample_env (chain_dep id) cycle_dep (chain_prog n)
      = .ok { dep1 := chain_dep id, dep2 := cycle_dep,
              ret := some { id := -1, src := 0, dest := 1, type := DepType.CANDL_UNSET,
                            dpolytope := { ncols := 4, rows := [] },
                            src_acc := some ⟨0, true, 0⟩, dest_acc := some ⟨1, true, 0⟩,
                            satisfied := false, satisfaction_level := -1 } } := rfl

theorem chain_prog_add (n : Nat) (d : Dep) (h : ∀ id, { d with id := id } = chain_dep id) :
    pluto_add_dep (chain_prog n) d = chain_prog (n + 1) := by
  unfold pluto_add_dep
  rw [h, chain_prog_ndeps]
  simp only [chain_prog, List.range_succ, List.map_append, List.map_cons, List.map_nil,
    List.append_assoc]
  push_cast
  rfl

theorem ok_bind {α β : Type} (a : α) (f : α → Except Fault β) :
    ((Except.ok a : Except Fault α) >>= f) = f a := rfl

theorem error_bind {α β : Type} (e : Fault) (f : α → Except Fault β) :
    ((Except.error e : Except Fault α) >>= f) = .error e := rfl

theorem chain_closure_j : ∀ (fuel n i j m : Nat), i < n + 2 → i ≠ 1 →
    closure_j sample_env 1 fuel (chain_prog n) i j m = .error Fault.fuel ∨
    closure_j sample_env 1 fuel (chain_prog n) i j m
      = .ok (if j ≤ 1 then (chain_prog (n + 1), m + 1) else (chain_prog n, m)) := by
  intro fuel
  induction fuel with
  | zero => intro n i j m _ _; exact Or.inl rfl
  | succ k ih =>
    intro n i j m hi h1
    rw [closure_j]
    by_cases hj : j < (chain_prog n).ndeps
    · rw [if_pos hj, chain_prog_dep n i hi h1, ok_bind]
      rw [chain_prog_ndeps] at hj
      by_cases hj1 : j = 1
      · subst hj1
        rw [chain_prog_dep_one, ok_bind, if_pos (by exact ⟨rfl, rfl⟩), chain_prog_compose,
          ok_bind]
        simp only []
        have hadd : ∀ d : Dep, (∀ id, { d with id := id } = chain_dep id) →
            closure_j sample_env 1 k (pluto_add_dep (chain_prog n) d) i (1 + 1) (m + 1)
              = .error Fault.fuel ∨
            closure_j sample_env 1 k (pluto_add_dep (chain_prog n) d) i (1 + 1) (m + 1)
              = .ok (chain_prog (n + 1), m + 1) := by
          intro d hd
          rw [chain_prog_add n d hd]
          have := ih (n + 1) i (1 + 1) (m + 1) (by omega) h1
          rwa [if_neg (by omega)] at this
        rw [if_pos (by omega)]
        exact hadd _ (fun _ => rfl)
      · rw [chain_prog_dep n j hj hj1, ok_bind, if_neg (by
          intro h
          have h0 : ((0 : Int) = 2 * 1 - 1) := h.1
          exact absurd h0 (by decide))]
        have := ih n i (j + 1) m hi h1
        by_cases hj0 : j ≤ 1
        · rw [if_pos hj0]
          rwa [if_pos (by omega)] at this
        · rw [if_neg hj0]
          rwa [if_neg (by omega)] at this
    · rw [if_neg hj]
      rw [chain_prog_ndeps] at hj
      rw [if_neg (by omega)]
      exact Or.inr rfl

theorem chain_closure_i : ∀ (fuel n i m : Nat), i < n + 2 → (i ≠ 1 ∨ 1 ≤ n) →
    closure_i sample_env 1 fuel (chain_prog n) i m = .error Fault.fuel := by
  intro fuel
  induction fuel with
  | zero => intro n i m _ _; rfl
  | succ k ih =>
    intro n i m hi h1
    rw [closure_i, if_pos (by rw [chain_prog_ndeps]; exact hi)]
    by_cases hi1 : i = 1
    · subst hi1
      rw [chain_prog_dep_one, ok_bind, if_neg (by decide)]
      exact ih n (1 + 1) m (by omega) (Or.inl (by omega))
    · rw [chain_prog_dep n i hi hi1, ok_bind, if_pos (by
        show (0 : Int) < 2 * 1 - 1
        decide)]
      rcases chain_closure_j k n i 0 m hi hi1 with h | h
      · rw [h, error_bind]
      · rw [h, ok_bind, if_pos (by omega)]
        exact ih (n + 1) (i + 1) (m + 1) (by omega) (Or.inr (by omega))

theorem chain_force_parallelize (fuel : Nat) (rar : Int) :
    pluto_force_parallelize sample_env ⟨1, rar⟩ fuel (chain_prog 0) 1 = .error Fault.fuel := by
  have hw : closure_while sample_env 1 fuel (chain_prog 0) (chain_prog 0).ndeps
      = .error Fault.fuel := by
    cases fuel with
    | zero => rfl
    | succ k =>
      rw [closure_while, if_pos (by decide)]
      simp only [Nat.sub_self]
      rw [chain_closure_i k 0 0 0 (by omega) (Or.inl (by omega)), error_bind]
  unfold pluto_force_parallelize force_parallelize_closure
  have hd : sample_env.detect (chain_prog 0) = chain_prog 0 := rfl
  simp only [hd]
  rw [if_pos (by decide), hw]
  rfl

/-- C25 fails on the code: on `chain_prog 0` (an output dependence `S0 -> S1` satisfied
at level 0 whose destination access is the source and the destination access of an
output self-dependence of S1 satisfied at the boundary level of depth 1, every
composition non-empty) the closure loop of `pluto_force_parallelize` under last-writer
configuration never ends: every scan of `j` for a dependence of level 0 appends one
more dependence of level 0 with the same destination access, the bound
`i < prog->ndeps` is read again after each of them, and for every bound on the number
of iterations the bound is exhausted, so no call returns. Without last-writer
configuration the same call returns. -/
theorem closure_loop_diverges :
    (∀ (fuel : Nat) (rar : Int),
      pluto_force_parallelize sample_env ⟨1, rar⟩ fuel (chain_prog 0) 1 = .error Fault.fuel) ∧
    (¬ ∃ fuel p, pluto_force_parallelize sample_env ⟨1, 0⟩ fuel (chain_prog 0) 1 = .ok p) ∧
    closure_j sample_env 1 4 (chain_prog 0) 0 0 0 = .ok (chain_prog 1, 1) ∧
    closure_j sample_env 1 5 (chain_prog 1) 2 0 1 = .ok (chain_prog 2, 2) ∧
    (chain_prog 2).deps = [chain_dep 0, cycle_dep, chain_dep 2, chain_dep 3] ∧
    pluto_force_parallelize sample_env ⟨0, 0⟩ 0 (chain_prog 0) 1
      = .ok { chain_prog 0 with deps := [chain_dep 0] } := by
  refine ⟨fun fuel rar => chain_force_parallelize fuel rar, ?_, rfl, rfl, rfl, rfl⟩
  rintro ⟨fuel, p, h⟩
  rw [chain_force_parallelize] at h
  cases h

/-! ## C30: the remapping matrix -/

theorem range_map_getElem? (R : Nat) (F : Nat → List Int) (k : Nat) (hk : k < R) :
    ((List.range R).map F)[k]? = some (F k) := by
  rw [List.getElem?_map, List.getElem?_range hk]
  rfl

theorem range_map_getD (R : Nat) (F : Nat → List Int) (k : Nat) (hk : k < R) :
    ((List.range R).map F).getD k [] = F k := by
  rw [List.getD_eq_getElem?_getD, range_map_getElem? R F k hk]
  rfl

theorem range_map_congr (R : Nat) (F G : Nat → List Int) (h : ∀ k, k < R → F k = G k) :
    (List.range R).map F = (List.range R).map G := by
  apply List.map_congr_left
  intro k hk
  exact h k (List.mem_range.mp hk)

theorem range_map_set (R : Nat) (F : Nat → List Int) (p : Nat) (y : List Int) :
    ((List.range R).map F).set p y = (List.range R).map (Function.update F p y) := by
  apply List.ext_getElem?
  intro k
  rw [List.getElem?_set]
  by_cases hk : k < R
  · rw [range_map_getElem? R _ k hk]
    by_cases hpk : p = k
    · subst hpk
      rw [range_map_getElem? R _ p hk, Function.update_same]
      simp [hk]
    · rw [if_neg hpk, range_map_getElem? R _ k hk, Function.update_noteq (Ne.symm hpk)]
  · have h1 : ((List.range R).map F)[k]? = none := by
      rw [List.getElem?_eq_none]
      simp
      omega
    have h2 : ((List.range R).map (Function.update F p y))[k]? = none := by
      rw [List.getElem?_eq_none]
      simp
      omega
    rw [h2]
    split
    · rename_i hpk
      subst hpk
      simp
      omega
    · exact h1

theorem range_map_mem (R : Nat) (F : Nat → List Int) (r : List Int) :
    r ∈ (List.range R).map F ↔ ∃ k, k < R ∧ F k = r := by
  simp [List.mem_map, List.mem_range]

theorem Rep.nrows {m : PlutoMatrix} {R w : Nat} {F : Nat → List Int} (h : Rep m R w F) :
    m.nrows = R := by
  unfold PlutoMatrix.nrows
  rw [h.2.1]
  simp

theorem Rep.congr {m : PlutoMatrix} {R w : Nat} {F G : Nat → List Int} (h : Rep m R w F)
    (hfg : ∀ k, k < R → F k = G k) : Rep m R w G :=
  ⟨h.1, by rw [h.2.1]; exact range_map_congr R F G hfg,
    fun k hk => by rw [← hfg k hk]; exact h.2.2 k hk⟩

theorem negRow_negRow (a : List Int) : negRow (negRow a) = a := by
  simp [negRow]

theorem Rep.setVal {m : PlutoMatrix} {R w : Nat} {F : Nat → List Int} (h : Rep m R w F)
    (r c : Nat) (v : Int) (hr : r < R) (hc : c < w) :
    ∃ m1, m.setVal (r : Int) (c : Int) v = .ok m1 ∧
      Rep m1 R w (Function.update F r ((F r).set c v)) := by
  unfold PlutoMatrix.setVal
  rw [h.nrows, h.1, if_pos (by omega)]
  refine ⟨_, rfl, rfl, ?_, ?_⟩
  · simp only [Int.toNat_ofNat]
    rw [h.2.1, range_map_getD R F r hr, range_map_set]
  · intro k hk
    by_cases hkr : k = r
    · subst hkr
      rw [Function.update_same]
      simp [h.2.2 k hk]
    · rw [Function.update_noteq hkr]
      exact h.2.2 k hk

theorem Rep.wf {m : PlutoMatrix} {R w : Nat} {F : Nat → List Int} (h : Rep m R w F) :
    m.wf = true := by
  unfold PlutoMatrix.wf
  rw [List.all_eq_true]
  intro r hr
  rw [h.2.1, range_map_mem] at hr
  obtain ⟨k, hk, rfl⟩ := hr
  simp [h.2.2 k hk, h.1]

end Pluto
